import Mathlib

/-!
# Lancet graph core: a shallow embedding

A verification development for the graph-processing core of the variant caller:
the coloured k-mer graph (`graph.cpp`), the bounded path enumeration
(`edmond_karp.cpp`), the alignment trimming (`align.cpp`) and the canonical k-mers
(`kmer.cpp`).

Conventions of the embedding.

* The node map (`absl::flat_hash_map<NodeIdentifier, unique_ptr<Node>>`) is a list of
  nodes in iteration order; the key of an entry is the `id` field of its node.
  Uniqueness of keys is the predicate `UniqueKeys`.
* The edge container of a node is a duplicate-free list in iteration order.
* Loops whose termination is not structural take a fuel argument and return `none`
  when it runs out; `none` is also the result where the C++ code would leave defined
  behaviour (an out-of-range access, a dereferenced end iterator).
-/

namespace lancet

/-! ## Core enums (`core_enums.h`) -/

abbrev NodeIdentifier := Nat

/-- Modelled from the spec: the reserved sentinel id of the mock source
(`MOCK_SOURCE_ID`, declared in a header that is not part of the sources). -/
def MOCK_SOURCE_ID : NodeIdentifier := 0

/-- Modelled from the spec: the reserved sentinel id of the mock sink
(`MOCK_SINK_ID`, declared in a header that is not part of the sources). -/
def MOCK_SINK_ID : NodeIdentifier := 2 ^ 64 - 1

inductive Strand where
  | FWD
  | REV
deriving DecidableEq, Repr

inductive EdgeKind where
  | FF
  | FR
  | RF
  | RR
deriving DecidableEq, Repr

/-- Modelled from the spec: `ReverseStrand` swaps FWD and REV. -/
def ReverseStrand : Strand → Strand
  | .FWD => .REV
  | .REV => .FWD

/-- Modelled from the spec: the kind encodes (source strand, destination strand). -/
def MakeEdgeKind : Strand → Strand → EdgeKind
  | .FWD, .FWD => .FF
  | .FWD, .REV => .FR
  | .REV, .FWD => .RF
  | .REV, .REV => .RR

/-- Modelled from the spec: source strand of an edge kind. -/
def SourceStrand : EdgeKind → Strand
  | .FF => .FWD
  | .FR => .FWD
  | .RF => .REV
  | .RR => .REV

/-- Modelled from the spec: destination strand of an edge kind. -/
def DestStrand : EdgeKind → Strand
  | .FF => .FWD
  | .FR => .REV
  | .RF => .FWD
  | .RR => .REV

/-- Modelled from the spec: the reverse of kind (a,b) is (b',a') with FWD/REV swapped. -/
def ReverseEdgeKind (k : EdgeKind) : EdgeKind :=
  MakeEdgeKind (ReverseStrand (DestStrand k)) (ReverseStrand (SourceStrand k))

/-! ## Edges and nodes (`edge.h`, `node.h`) -/

structure Edge where
  destId : NodeIdentifier
  kind : EdgeKind
deriving DecidableEq, Repr

def Edge.DestinationID (e : Edge) : NodeIdentifier := e.destId

def Edge.Kind (e : Edge) : EdgeKind := e.kind

def Edge.SrcDirection (e : Edge) : Strand := SourceStrand e.kind

def Edge.DstDirection (e : Edge) : Strand := DestStrand e.kind

/-- What the graph code reads from a node besides its edges and component id: the
results of `Orientation()`, `SeqView()`, `SampleCount(NORMAL)`, `SampleCount(TUMOR)`,
`TotalSampleCount()` and `MinSampleBaseCov()`. The coverage and label arrays behind
the counts belong to classes outside the sources and are not unfolded. -/
structure NodeData where
  orientation : Strand
  seq : List Char
  sampleCountNormal : Nat
  sampleCountTumor : Nat
  totalSampleCount : Nat
  minSampleBaseCov : Nat
deriving DecidableEq, Repr

structure Node where
  id : NodeIdentifier
  ComponentID : Nat
  edges : List Edge
  data : NodeData
deriving DecidableEq, Repr

/-- Modelled from the spec: `is_mock` is true iff id ∈ {MOCK_SOURCE_ID, MOCK_SINK_ID}
(`Node::IsMockNode`, node.h is not part of the sources). -/
def Node.IsMockNode (n : Node) : Bool :=
  n.id == MOCK_SOURCE_ID || n.id == MOCK_SINK_ID

def Node.Orientation (n : Node) : Strand := n.data.orientation

def Node.Length (n : Node) : Nat := n.data.seq.length

def Node.NumEdges (n : Node) : Nat := n.edges.length

/-- Modelled from the spec: `edges` is a set of Edge, so `Node::EmplaceEdge` adds the edge
unless it is already there. -/
def Node.EmplaceEdge (n : Node) (dest : NodeIdentifier) (k : EdgeKind) : Node :=
  if (⟨dest, k⟩ : Edge) ∈ n.edges then n else { n with edges := n.edges ++ [⟨dest, k⟩] }

/-- Modelled from the spec: `Node::EraseEdge(dest_id, kind)` removes that one edge. -/
def Node.EraseEdge (n : Node) (dest : NodeIdentifier) (k : EdgeKind) : Node :=
  { n with edges := n.edges.filter (fun e => decide (e ≠ ⟨dest, k⟩)) }

/-- Modelled from the spec: `Node::EraseEdge(dest_id)` removes every edge to `dest_id`. -/
def Node.EraseEdgesTo (n : Node) (dest : NodeIdentifier) : Node :=
  { n with edges := n.edges.filter (fun e => decide (e.destId ≠ dest)) }

def Node.ClearEdges (n : Node) : Node := { n with edges := [] }

/-! ## The node map -/

abbrev NodeContainer := List Node

/-- The lookup `nodesMap.find(id)`. -/
def findNode (nc : NodeContainer) (id : NodeIdentifier) : Option Node :=
  nc.find? (fun n => n.id == id)

/-- Mutation of the node stored under `id` through its pointer; no entry, no effect. -/
def updateNode (nc : NodeContainer) (id : NodeIdentifier) (f : Node → Node) : NodeContainer :=
  nc.map (fun n => if n.id = id then f n else n)

/-- The call `nodesMap.erase(itr)` for the entry with key `id`. -/
def eraseKey (nc : NodeContainer) (id : NodeIdentifier) : NodeContainer :=
  nc.filter (fun n => decide (n.id ≠ id))

/-- Keys of a hash map are pairwise different. -/
def UniqueKeys (nc : NodeContainer) : Prop := (nc.map (fun n => n.id)).Nodup

instance (nc : NodeContainer) : Decidable (UniqueKeys nc) := by
  unfold UniqueKeys; infer_instance

/-- Insertion into an `absl::flat_hash_set<NodeIdentifier>`. -/
def setInsert {α : Type} [DecidableEq α] (x : α) (s : List α) : List α :=
  if x ∈ s then s else s ++ [x]

/-! ## Graph operations (`graph.cpp`) -/

/-- The function `Graph::EraseNode`: erase from each neighbour the reciprocal edge, then erase
the node. The edges of the node are read before any neighbour is touched. -/
def EraseNode (nc : NodeContainer) (node_id : NodeIdentifier) : NodeContainer :=
  match findNode nc node_id with
  | none => nc
  | some v =>
    if v.IsMockNode then nc
    else
      let nc1 := v.edges.foldl
        (fun acc e => updateNode acc e.destId (fun nb => nb.EraseEdge v.id (ReverseEdgeKind e.kind))) nc
      eraseKey nc1 v.id

/-- Modelled from the spec: `Graph::RemoveNodes(first, last)` (a template of graph.h, not part
of the sources) erases every listed node in turn. -/
def RemoveNodes (nc : NodeContainer) (ids : List NodeIdentifier) : NodeContainer :=
  ids.foldl EraseNode nc

structure ComponentInfo where
  ID : Nat
  numNodes : Nat
deriving DecidableEq, Repr

/-- Inner `while` loop of `MarkConnectedComponents`: the deque holds the nodes by id.
Returns the node map and the number of nodes given the component id `c`. -/
def bfsComponent (c : Nat) : Nat → NodeContainer → List NodeIdentifier → Nat →
    Option (NodeContainer × Nat)
  | _, nc, [], num => some (nc, num)
  | 0, _, _ :: _, _ => none
  | fuel + 1, nc, id :: rest, num =>
    match findNode nc id with
    | none => bfsComponent c fuel nc rest num
    | some currNode =>
      if currNode.ComponentID ≠ 0 then bfsComponent c fuel nc rest num
      else
        let nc1 := updateNode nc id (fun n => { n with ComponentID := c })
        let pushed := (currNode.edges.filter (fun e => (findNode nc e.destId).isSome)).map
          (fun e => e.destId)
        bfsComponent c fuel nc1 (rest ++ pushed) (num + 1)

/-- Iterations that the inner loop of `MarkConnectedComponents` can take at most: every node
is assigned once and pushes its edges once. -/
def bfsFuel (nc : NodeContainer) : Nat :=
  (nc.map (fun n => n.edges.length + 2)).sum + 1

/-- Outer `for` loop of `MarkConnectedComponents` over the entries of the map. -/
def markLoop : List NodeIdentifier → NodeContainer → Nat → List ComponentInfo →
    Option (NodeContainer × List ComponentInfo)
  | [], nc, _, infos => some (nc, infos)
  | id :: ids, nc, currentComponent, infos =>
    match findNode nc id with
    | none => markLoop ids nc currentComponent infos
    | some p =>
      if p.ComponentID ≠ 0 then markLoop ids nc currentComponent infos
      else
        match bfsComponent (currentComponent + 1) (bfsFuel nc) nc [id] 0 with
        | none => none
        | some (nc1, num) =>
          markLoop ids nc1 (currentComponent + 1) (infos ++ [⟨currentComponent + 1, num⟩])

/-- The function `Graph::MarkConnectedComponents`. -/
def MarkConnectedComponents (nc : NodeContainer) : Option (NodeContainer × List ComponentInfo) :=
  markLoop (nc.map (fun n => n.id)) nc 0 []

/-! ## Alignment trimming (`align.cpp`) -/

def ALIGN_GAP : Char := '-'

/-- Width of `std::size_t`. -/
def SIZE_MOD : Nat := 2 ^ 64

structure AlignedSequencesView where
  ref : List Char
  qry : List Char
deriving DecidableEq, Repr

/-- The loop condition `aln->ref[i] == ALIGN_GAP || aln->qry[i] == ALIGN_GAP`, with the
short-circuit of `||`; `none` when a character access is out of range. -/
def gapAt (aln : AlignedSequencesView) (i : Nat) : Option Bool :=
  match aln.ref[i]? with
  | none => none
  | some r =>
    if r = ALIGN_GAP then some true
    else
      match aln.qry[i]? with
      | none => none
      | some q => some (decide (q = ALIGN_GAP))

/-- First `while` loop of `TrimEndGaps`: returns the final `(start, refStartTrim)`. -/
def trimScanStart (aln : AlignedSequencesView) : Nat → Nat → Nat → Option (Nat × Nat)
  | 0, _, _ => none
  | fuel + 1, start, refStartTrim =>
    match gapAt aln start with
    | none => none
    | some false => some (start, refStartTrim)
    | some true =>
      let trim := if aln.ref[start]? = some ALIGN_GAP then refStartTrim + 1 else refStartTrim
      trimScanStart aln fuel ((start + 1) % SIZE_MOD) trim

/-- Second `while` loop of `TrimEndGaps`: returns the final `end`. -/
def trimScanEnd (aln : AlignedSequencesView) : Nat → Nat → Option Nat
  | 0, _ => none
  | fuel + 1, e =>
    match gapAt aln e with
    | none => none
    | some false => some e
    | some true => trimScanEnd aln fuel ((e + SIZE_MOD - 1) % SIZE_MOD)

/-- The call `sv.substr(pos, count)` of a string view. -/
def substr (s : List Char) (pos count : Nat) : List Char :=
  (s.drop pos).take count

/-- The function `TrimEndGaps(AlignedSequencesView*)`: the trimmed view and the returned
`refStartTrim`. Each scan visits every index at most once before it leaves the string,
so `length + 1` iterations of fuel are never used up. -/
def TrimEndGaps (aln : AlignedSequencesView) : Option (AlignedSequencesView × Nat) :=
  let start := 0
  let e := (aln.ref.length + SIZE_MOD - 1) % SIZE_MOD
  match gapAt aln start, gapAt aln e with
  | some startGap, some endGap =>
    if startGap || endGap then
      match trimScanStart aln (aln.ref.length + 1) start 0 with
      | none => none
      | some (start1, refStartTrim) =>
        match trimScanEnd aln (aln.ref.length + 1) e with
        | none => none
        | some e1 =>
          let count := (e1 + SIZE_MOD - start1) % SIZE_MOD
          some (⟨substr aln.ref start1 count, substr aln.qry start1 count⟩, refStartTrim)
    else some (aln, 0)
  | _, _ => none

/-! ## Source and sink anchoring (`graph.cpp`) -/

/-- The command-line parameters read by the graph code (`cli_params.h`). -/
structure CliParams where
  minNodeCov : Nat
  minAnchorCov : Nat
  minGraphTipLength : Nat
  maxIndelLength : Nat
  graphTraversalLimit : Nat
  maxRptMismatch : Nat
  tenxMode : Bool
deriving DecidableEq, Repr

inductive GraphEnd where
  | SOURCE
  | SINK
deriving DecidableEq, Repr

structure RefEndResult where
  nodeId : NodeIdentifier
  refMerIdx : Nat
  foundEnd : Bool
deriving DecidableEq, Repr

structure SrcSnkResult where
  foundSrcAndSnk : Bool
  startOffset : Nat
  endOffset : Nat
deriving DecidableEq, Repr

/-- The value `static_cast<std::uint16_t>(x)`. -/
def toU16 (x : Nat) : Nat := x % 65536

/-- The test of `FindRefEnd` that a reference k-mer id anchors an end: its node is in the
map, has component id `comp_id` and a total sample count of at least `minEndCov`. -/
def isAnchor (nc : NodeContainer) (comp_id minEndCov : Nat) (h : NodeIdentifier) : Bool :=
  match findNode nc h with
  | none => false
  | some n => !(decide (n.ComponentID ≠ comp_id) || decide (n.data.totalSampleCount < minEndCov))

/-- The `for` loop of `Graph::FindRefEnd` from index `merIndex` on. -/
def findRefEndLoop (nc : NodeContainer) (k : GraphEnd) (comp_id minEndCov numRefMers : Nat) :
    List NodeIdentifier → Nat → RefEndResult
  | [], _ => ⟨0, 0, false⟩
  | h :: hs, merIndex =>
    match findNode nc h with
    | none => findRefEndLoop nc k comp_id minEndCov numRefMers hs (merIndex + 1)
    | some n =>
      if n.ComponentID ≠ comp_id ∨ n.data.totalSampleCount < minEndCov then
        findRefEndLoop nc k comp_id minEndCov numRefMers hs (merIndex + 1)
      else
        ⟨n.id, if k = GraphEnd.SOURCE then merIndex else numRefMers - merIndex - 1, true⟩

/-- The function `Graph::FindRefEnd`. -/
def FindRefEnd (p : CliParams) (nc : NodeContainer) (k : GraphEnd) (comp_id : Nat)
    (ref_mer_hashes : List NodeIdentifier) : RefEndResult :=
  findRefEndLoop nc k comp_id (toU16 p.minAnchorCov) ref_mer_hashes.length ref_mer_hashes 0

/-- The function `Graph::DisconnectEdgesTo`: every neighbour of the node drops its edges to it. -/
def DisconnectEdgesTo (nc : NodeContainer) (id : NodeIdentifier) : NodeContainer :=
  match findNode nc id with
  | none => nc
  | some v => v.edges.foldl (fun acc e => updateNode acc e.destId (fun nb => nb.EraseEdgesTo v.id)) nc

/-- The function `Graph::MarkSourceSink`; `refMerIDs` is the value of
`CanonicalKmerHashes(refseq, kmerSize)`. The result is `none` where an assertion of the
function fails (a mock node or an anchor node is not in the map). -/
def MarkSourceSink (p : CliParams) (refMerIDs : List NodeIdentifier) (nc : NodeContainer)
    (comp_id : Nat) : Option (NodeContainer × SrcSnkResult) :=
  let srcResult := FindRefEnd p nc GraphEnd.SOURCE comp_id refMerIDs
  if !srcResult.foundEnd then some (nc, ⟨false, 0, 0⟩)
  else
    let snkResult := FindRefEnd p nc GraphEnd.SINK comp_id refMerIDs.reverse
    if !snkResult.foundEnd || srcResult.nodeId == snkResult.nodeId then some (nc, ⟨false, 0, 0⟩)
    else
      match findNode nc MOCK_SOURCE_ID with
      | none => none
      | some _ =>
        let nc1 := updateNode nc MOCK_SOURCE_ID (fun n => { n with ComponentID := comp_id })
        let nc2 := DisconnectEdgesTo nc1 MOCK_SOURCE_ID
        let nc3 := updateNode nc2 MOCK_SOURCE_ID Node.ClearEdges
        match findNode nc3 MOCK_SINK_ID with
        | none => none
        | some _ =>
          let nc4 := updateNode nc3 MOCK_SINK_ID (fun n => { n with ComponentID := comp_id })
          let nc5 := DisconnectEdgesTo nc4 MOCK_SINK_ID
          let nc6 := updateNode nc5 MOCK_SINK_ID Node.ClearEdges
          match findNode nc6 srcResult.nodeId, findNode nc6 snkResult.nodeId with
          | some dataSrc, some dataSnk =>
            let fauxSrcToDataSrcKind := MakeEdgeKind Strand.FWD dataSrc.Orientation
            let nc7 := updateNode nc6 MOCK_SOURCE_ID
              (fun n => n.EmplaceEdge dataSrc.id fauxSrcToDataSrcKind)
            let nc8 := updateNode nc7 dataSrc.id
              (fun n => n.EmplaceEdge MOCK_SOURCE_ID (ReverseEdgeKind fauxSrcToDataSrcKind))
            let isDataSnkRev := decide (dataSnk.Orientation = Strand.REV)
            let fauxSnkToDataSnkKind := if isDataSnkRev then EdgeKind.FF else EdgeKind.RR
            let nc9 := updateNode nc8 MOCK_SINK_ID
              (fun n => n.EmplaceEdge dataSnk.id fauxSnkToDataSnkKind)
            let nc10 := updateNode nc9 dataSnk.id
              (fun n => n.EmplaceEdge MOCK_SINK_ID (ReverseEdgeKind fauxSnkToDataSnkKind))
            let startBaseIdx := srcResult.refMerIdx
            let endBaseIdx := snkResult.refMerIdx + dataSnk.Length
            some (nc10, ⟨true, startBaseIdx, endBaseIdx⟩)
          | _, _ => none

/-! ## Cycle detection (`graph.cpp`) -/

/-- The edge at which the `for` loop of the recursive `HasCycle` stops: the first edge that
does not lead to a mock node and whose source strand is `direction`. -/
def firstTraversable (edges : List Edge) (direction : Strand) : Option Edge :=
  edges.find? (fun e =>
    !(e.destId == MOCK_SOURCE_ID || e.destId == MOCK_SINK_ID || decide (e.SrcDirection ≠ direction)))

/-- The recursive `Graph::HasCycle(node_id, direction, touched)`: the result and the set
`touched` as the call leaves it. -/
def HasCycleFrom (nc : NodeContainer) : Nat → NodeIdentifier → Strand → List NodeIdentifier →
    Option (Bool × List NodeIdentifier)
  | 0, _, _, _ => none
  | fuel + 1, node_id, direction, touched =>
    match findNode nc node_id with
    | none => some (false, touched)
    | some n =>
      let touched1 := setInsert node_id touched
      match firstTraversable n.edges direction with
      | none => some (false, touched1.filter (fun x => decide (x ≠ node_id)))
      | some e =>
        if e.destId ∉ touched1 then HasCycleFrom nc fuel e.destId e.DstDirection touched1
        else some (true, touched1.filter (fun x => decide (x ≠ node_id)))

/-- The function `Graph::HasCycle()`: two launches from the mock source that share `touched`.
Every nested call enters a node that is not in `touched`, so the depth is at most the
number of nodes plus one. -/
def HasCycle (nc : NodeContainer) : Option Bool :=
  match HasCycleFrom nc (nc.length + 2) MOCK_SOURCE_ID Strand.FWD [] with
  | none => none
  | some (true, _) => some true
  | some (false, touchedIDs) =>
    match HasCycleFrom nc (nc.length + 2) MOCK_SOURCE_ID Strand.REV touchedIDs with
    | none => none
    | some (r, _) => some r

/-! ## Paths and transcripts (`path_builder.h`, `path.h`, `transcript.h`, `variant.h`) -/

/-- A `const Edge*`: the edge together with the node whose edge container holds it. -/
structure EdgeRef where
  owner : NodeIdentifier
  edge : Edge
deriving DecidableEq, Repr

/-- Modelled from the spec: the `PathBuilder` (path_builder.h is not part of the sources): a
linear walk of edges and nodes with its direction, score, sink-touch flag and length. -/
structure PathBuilder where
  nodesList : List Node
  edgesList : List EdgeRef
  pathDir : Strand
  pathScore : Nat
  touchedSink : Bool
  pathLen : Nat
deriving DecidableEq, Repr

/-- Modelled from the spec: a fresh builder is empty, has direction FWD and score 0. -/
def PathBuilder.empty : PathBuilder := ⟨[], [], Strand.FWD, 0, false, 0⟩

def PathBuilder.NumNodes (b : PathBuilder) : Nat := b.nodesList.length

def PathBuilder.LastNode (b : PathBuilder) : Option Node := b.nodesList.getLast?

def PathBuilder.IsEmpty (b : PathBuilder) : Bool := b.nodesList.isEmpty && b.edgesList.isEmpty

def PathBuilder.MarkSinkTouch (b : PathBuilder) : PathBuilder := { b with touchedSink := true }

def PathBuilder.IncrementScore (b : PathBuilder) : PathBuilder :=
  { b with pathScore := b.pathScore + 1 }

/-- Modelled from the spec: `PathBuilder::Extend(edge, node)` appends the pair, the direction
becomes the destination strand of the edge, and the length grows by the bases the node adds
to the walk (all of the first node, `len - k + 1` of every later one). -/
def PathBuilder.Extend (kmerSize : Nat) (b : PathBuilder) (link : EdgeRef) (destination : Node) :
    PathBuilder :=
  { b with
    nodesList := b.nodesList ++ [destination]
    edgesList := b.edgesList ++ [link]
    pathDir := link.edge.DstDirection
    pathLen := if b.pathLen = 0 then destination.Length
               else b.pathLen + destination.Length - kmerSize + 1 }

/-- Modelled from the spec: the `Path` built by `PathBuilder::BuildPath`: the ordered
(edge, node) pairs with the score and the length of the walk. -/
structure Path where
  nodes : List Node
  edges : List EdgeRef
  score : Nat
  length : Nat
deriving DecidableEq, Repr

def PathBuilder.BuildPath (b : PathBuilder) : Path :=
  ⟨b.nodesList, b.edgesList, b.pathScore, b.pathLen⟩

inductive TranscriptCode where
  | REF_MATCH
  | SNV
  | INSERTION
  | DELETION
  | COMPLEX
deriving DecidableEq, Repr

/-- Modelled from the spec: the part of a `Transcript` that the alignment walk of
`ProcessPath` decides (transcript.h is not part of the sources); the coverage and the
somatic flag are left out. -/
structure Transcript where
  position : Nat
  code : TranscriptCode
  refStart : Nat
  altStart : Nat
  refEnd : Nat
  altEnd : Nat
  refSeq : List Char
  altSeq : List Char
  prevRefBase : Char
  prevAltBase : Char
deriving DecidableEq, Repr

/-- Modelled from the spec: `Transcript::AddRefBase` appends to the REF bases. -/
def Transcript.AddRefBase (t : Transcript) (b : Char) : Transcript :=
  { t with refSeq := t.refSeq ++ [b] }

/-- Modelled from the spec: `Transcript::AddAltBase` appends to the ALT bases. -/
def Transcript.AddAltBase (t : Transcript) (b : Char) : Transcript :=
  { t with altSeq := t.altSeq ++ [b] }

/-- The object `Variant(T, kmerSize)`. -/
structure Variant where
  transcript : Transcript
  kmerSize : Nat
deriving DecidableEq, Repr

/-! ## Pruning and compression (`graph.cpp`) -/

inductive BuddyPosition where
  | FRONT
  | BACK
deriving DecidableEq, Repr

structure NodeNeighbour where
  buddyId : NodeIdentifier
  edgeKind : EdgeKind
deriving DecidableEq, Repr

/-- The collaborators of the graph code that lie outside the sources, and the values it
computes in floating point; the graph code is embedded over any choice of them.

* `ceilCovRatio` is `std::ceil(params->minCovRatio * avgSampleCov)`,
  `floorSqrtCov` is `std::floor(std::sqrt(avgSampleCov))`;
* `CanMerge`, `MergeBuddy` are the methods of `Node` with these names (`MergeBuddy` gives the
  new sequence and coverage of the node, it does not touch its edges);
* `foundSTR seq pos` is `FindTandemRepeat(seq, pos, tandemParams).foundSTR`;
* `HasAlmostRepeatKmer` is the function of `utils`;
* `PathSeq` is `Path::SeqView`, `Align` the Needleman-Wunsch wrapper `Align` (`none` when it
  throws);
* `IsEmitted` is the test `T.HasAltCov() && T.ComputeState() != VariantState::NONE` on a
  transcript with the coverage that `ProcessPath` collected for it on the path. -/
structure Env where
  ceilCovRatio : Nat
  floorSqrtCov : Nat
  CanMerge : Node → Node → BuddyPosition → Nat → Bool
  MergeBuddy : Node → Node → BuddyPosition → Nat → NodeData
  foundSTR : List Char → Nat → Bool
  HasAlmostRepeatKmer : List Char → Nat → Nat → Bool
  PathSeq : Path → List Char
  Align : List Char → List Char → Option (List Char × List Char)
  IsEmitted : Path → Transcript → Bool

/-- Modelled from the spec: `Node::FindMergeableNeighbours` (node.h is not part of the
sources). A neighbour is mergeable when it is the unique extension of the node in its
direction: its edge is the only edge of the node that leaves on that strand. -/
def Node.FindMergeableNeighbours (n : Node) : List NodeNeighbour :=
  (n.edges.filter (fun e =>
      decide ((n.edges.filter (fun e2 => decide (e2.SrcDirection = e.SrcDirection))).length = 1))).map
    (fun e => ⟨e.destId, e.kind⟩)

/-- The function `Graph::RemoveLowCovNodes`. -/
def RemoveLowCovNodes (E : Env) (p : CliParams) (nc : NodeContainer)
    (comp_id : Nat) : NodeContainer × Bool :=
  let minWindowCov := toU16 E.ceilCovRatio
  let minReqCov := max (toU16 p.minNodeCov) minWindowCov
  let nodesToRemove := (nc.filter (fun n =>
    !(n.IsMockNode || decide (n.ComponentID ≠ comp_id)) &&
      ((decide (n.data.sampleCountNormal = 1) && decide (n.data.sampleCountTumor = 1)) ||
        decide (n.data.minSampleBaseCov ≤ minReqCov)))).map (fun n => n.id)
  (if nodesToRemove.isEmpty then nc else RemoveNodes nc nodesToRemove, !nodesToRemove.isEmpty)

/-- The placement `SourceStrand(kind) == FWD ? FRONT : BACK` used by
`FindCompressibleNeighbours` and `CompressNode`. -/
def mergeDirOf (kind : EdgeKind) : BuddyPosition :=
  if SourceStrand kind = Strand.FWD then BuddyPosition.FRONT else BuddyPosition.BACK

/-- The function `Graph::FindCompressibleNeighbours`; the result set is kept in the order of
the edges of the node. -/
def FindCompressibleNeighbours (E : Env) (kmerSize : Nat) (nc : NodeContainer)
    (src_id : NodeIdentifier) : List NodeNeighbour :=
  if src_id = MOCK_SOURCE_ID ∨ src_id = MOCK_SINK_ID then []
  else
    match findNode nc src_id with
    | none => []
    | some src =>
      (src.FindMergeableNeighbours.filter (fun srcNbour =>
        match findNode nc srcNbour.buddyId with
        | none => false
        | some buddy =>
          let areMutualBuddies := buddy.FindMergeableNeighbours.any (fun n => n.buddyId == src_id)
          areMutualBuddies && E.CanMerge src buddy (mergeDirOf srcNbour.edgeKind) kmerSize)).dedup

/-- The `for` loop of `CompressNode` over the edges of the buddy: the source node takes over
the links of the buddy. -/
def relinkBuddyEdges (src_id buddyId : NodeIdentifier) (srcBuddyDiffStrands : Bool) :
    List Edge → NodeContainer → NodeContainer
  | [], nc => nc
  | buddyE :: es, nc =>
    let buddyNeighbourId := buddyE.destId
    if buddyNeighbourId = src_id then relinkBuddyEdges src_id buddyId srcBuddyDiffStrands es nc
    else
      match findNode nc buddyNeighbourId with
      | none => relinkBuddyEdges src_id buddyId srcBuddyDiffStrands es nc
      | some _ =>
        let srcLinkStrand :=
          if srcBuddyDiffStrands then ReverseStrand buddyE.SrcDirection else buddyE.SrcDirection
        let resultKind := MakeEdgeKind srcLinkStrand buddyE.DstDirection
        if buddyNeighbourId = buddyId then
          relinkBuddyEdges src_id buddyId srcBuddyDiffStrands es
            (updateNode nc src_id (fun n => n.EmplaceEdge src_id resultKind))
        else
          let nc1 := updateNode nc src_id (fun n => n.EmplaceEdge buddyNeighbourId resultKind)
          let nc2 := updateNode nc1 buddyNeighbourId (fun n => n.EraseEdgesTo buddyId)
          let nc3 := updateNode nc2 buddyNeighbourId
            (fun n => n.EmplaceEdge src_id (ReverseEdgeKind resultKind))
          relinkBuddyEdges src_id buddyId srcBuddyDiffStrands es nc3

/-- Adds to `remaining` the neighbours whose buddy is not yet compressed (the two
`for_each` of `CompressNode`). -/
def addRemaining (compressed : List NodeIdentifier) (ns : List NodeNeighbour)
    (remaining : List NodeNeighbour) : List NodeNeighbour :=
  ns.foldl (fun r n => if n.buddyId ∈ compressed then r else setInsert n r) remaining

/-- The `while` loop of `Graph::CompressNode`; `remaining` is kept in insertion order and its
first element stands for `*remaining.cbegin()`. -/
def compressLoop (E : Env) (kmerSize : Nat) (src_id : NodeIdentifier) :
    Nat → NodeContainer → List NodeNeighbour → List NodeIdentifier →
    Option (NodeContainer × List NodeIdentifier)
  | _, nc, [], compressed => some (nc, compressed)
  | 0, _, _ :: _, _ => none
  | fuel + 1, nc, srcToBuddy :: rest, compressed =>
    if (srcToBuddy :: rest).length > 2 then some (nc, compressed)
    else
      match findNode nc src_id, findNode nc srcToBuddy.buddyId with
      | some src, some buddy =>
        let mergeDir := mergeDirOf srcToBuddy.edgeKind
        if !E.CanMerge src buddy mergeDir kmerSize then
          compressLoop E kmerSize src_id fuel nc rest compressed
        else
          let nc1 := updateNode nc src_id
            (fun n => { n with data := E.MergeBuddy n buddy mergeDir kmerSize })
          let nc2 := updateNode nc1 src_id (fun n => n.EraseEdgesTo srcToBuddy.buddyId)
          let compressed1 := setInsert srcToBuddy.buddyId compressed
          let srcBuddyDiffStrands :=
            decide (SourceStrand srcToBuddy.edgeKind ≠ DestStrand srcToBuddy.edgeKind)
          let buddyEdges := match findNode nc2 srcToBuddy.buddyId with
            | some b => b.edges
            | none => []
          let nc3 := relinkBuddyEdges src_id srcToBuddy.buddyId srcBuddyDiffStrands buddyEdges nc2
          let newNeighbours := FindCompressibleNeighbours E kmerSize nc3 src_id
          compressLoop E kmerSize src_id fuel nc3 (addRemaining compressed1 newNeighbours rest)
            compressed1
      | _, _ => none

/-- The function `Graph::CompressNode`. A merge either compresses a new node or uses up a
stale entry of `remaining`, which bounds the iterations of its loop. -/
def CompressNode (E : Env) (kmerSize : Nat) (nc : NodeContainer)
    (src_id : NodeIdentifier) (buddies : List NodeNeighbour) (compressed : List NodeIdentifier) :
    Option (NodeContainer × List NodeIdentifier) :=
  if buddies.isEmpty || decide (buddies.length > 2) then some (nc, compressed)
  else
    match findNode nc src_id with
    | none => none
    | some _ =>
      compressLoop E kmerSize src_id (6 * nc.length + 9) nc (addRemaining compressed buddies [])
        compressed

/-- The `for` loop of `Graph::CompressGraph` over the entries of the map. -/
def compressGraphLoop (E : Env) (kmerSize comp_id : Nat) :
    List NodeIdentifier → NodeContainer → List NodeIdentifier →
    Option (NodeContainer × List NodeIdentifier)
  | [], nc, nodesToRemove => some (nc, nodesToRemove)
  | id :: ids, nc, nodesToRemove =>
    match findNode nc id with
    | none => compressGraphLoop E kmerSize comp_id ids nc nodesToRemove
    | some p =>
      if p.ComponentID ≠ comp_id ∨ p.IsMockNode = true then
        compressGraphLoop E kmerSize comp_id ids nc nodesToRemove
      else if id ∈ nodesToRemove then compressGraphLoop E kmerSize comp_id ids nc nodesToRemove
      else
        match CompressNode E kmerSize nc id (FindCompressibleNeighbours E kmerSize nc id)
            nodesToRemove with
        | none => none
        | some (nc1, nodesToRemove1) => compressGraphLoop E kmerSize comp_id ids nc1 nodesToRemove1

/-- The function `Graph::CompressGraph`. -/
def CompressGraph (E : Env) (kmerSize : Nat) (nc : NodeContainer) (comp_id : Nat) :
    Option (NodeContainer × Bool) :=
  match compressGraphLoop E kmerSize comp_id (nc.map (fun n => n.id)) nc [] with
  | none => none
  | some (nc1, nodesToRemove) =>
    some (if nodesToRemove.isEmpty then nc1 else RemoveNodes nc1 nodesToRemove,
      !nodesToRemove.isEmpty)

/-- The tips that one round of `Graph::RemoveTips` collects (arithmetic of `std::size_t`). -/
def tipsOf (p : CliParams) (kmerSize : Nat) (nc : NodeContainer) (comp_id : Nat) :
    List NodeIdentifier :=
  (nc.filter (fun n =>
    !(n.IsMockNode || decide (n.ComponentID ≠ comp_id)) &&
      (decide (n.NumEdges ≤ 1) &&
        decide ((n.Length + SIZE_MOD - kmerSize % SIZE_MOD + 1) % SIZE_MOD
          < p.minGraphTipLength)))).map (fun n => n.id)

/-- The `do ... while (numTips > 0)` loop of `Graph::RemoveTips`: the node map and
`totalTips`. -/
def removeTipsLoop (E : Env) (p : CliParams) (kmerSize comp_id : Nat) :
    Nat → NodeContainer → Nat → Option (NodeContainer × Nat)
  | 0, _, _ => none
  | fuel + 1, nc, totalTips =>
    let nodesToRemove := tipsOf p kmerSize nc comp_id
    if nodesToRemove.isEmpty then some (nc, totalTips)
    else
      match CompressGraph E kmerSize (RemoveNodes nc nodesToRemove) comp_id with
      | none => none
      | some (nc1, _) =>
        removeTipsLoop E p kmerSize comp_id fuel nc1 (totalTips + nodesToRemove.length)

/-- The function `Graph::RemoveTips`; every round but the last removes a node, so the loop
runs at most once more than there are nodes. -/
def RemoveTips (E : Env) (p : CliParams) (kmerSize : Nat) (nc : NodeContainer) (comp_id : Nat) :
    Option (NodeContainer × Bool) :=
  match removeTipsLoop E p kmerSize comp_id (nc.length + 1) nc 0 with
  | none => none
  | some (nc1, totalTips) => some (nc1, decide (totalTips > 0))

/-- The function `Graph::RemoveShortLinks`. -/
def RemoveShortLinks (E : Env) (kmerSize : Nat) (nc : NodeContainer) (comp_id : Nat) :
    Option (NodeContainer × Bool) :=
  let minLinkLen := kmerSize / 2
  let minReqCov := E.floorSqrtCov
  let nodesToRemove := (nc.filter (fun n =>
    !(n.IsMockNode || decide (n.ComponentID = comp_id)) &&
      (decide (n.NumEdges ≥ 2) &&
        decide ((n.Length + SIZE_MOD - kmerSize % SIZE_MOD + 1) % SIZE_MOD < minLinkLen) &&
        decide (n.data.minSampleBaseCov ≤ minReqCov) &&
        !E.foundSTR n.data.seq ((kmerSize + SIZE_MOD - 1) % SIZE_MOD)))).map (fun n => n.id)
  if nodesToRemove.isEmpty then some (nc, false)
  else
    match CompressGraph E kmerSize (RemoveNodes nc nodesToRemove) comp_id with
    | none => none
    | some (nc1, _) => some (nc1, true)

/-! ## Path enumeration (`edmond_karp.cpp`) -/

/-- Width of `std::uint32_t`. -/
def U32_MOD : Nat := 2 ^ 32

/-- The enumerator `EdmondKarpMaxFlow`: its constants, the mock source and the marked edges. -/
structure EdmondKarpMaxFlow where
  nodesMap : NodeContainer
  kmerSize : Nat
  maxPathLen : Nat
  bfsLimit : Nat
  isTenxMode : Bool
  sourcePtr : Node
  markedEdges : List EdgeRef
deriving DecidableEq, Repr

/-- The constructor of `EdmondKarpMaxFlow`; `none` when the mock source is not in the map. -/
def EdmondKarpMaxFlow.new (nc : NodeContainer) (kmer_size max_path_len bfs_limit : Nat)
    (is_tenx_mode : Bool) : Option EdmondKarpMaxFlow :=
  match findNode nc MOCK_SOURCE_ID with
  | none => none
  | some src => some ⟨nc, kmer_size, max_path_len, bfs_limit % U32_MOD, is_tenx_mode, src, []⟩

/-- The `for` loop of `NextPath` over the edges of `lastNode`: the builders it appends to the
deque; `none` when a neighbour is not in the map. -/
def expandEdges (flow : EdmondKarpMaxFlow) (owner : NodeIdentifier)
    (currBuilder bestBuilder : PathBuilder) : List Edge → Option (List PathBuilder)
  | [] => some []
  | e :: es =>
    if e.destId = MOCK_SINK_ID then
      if currBuilder.pathScore ≤ bestBuilder.pathScore then
        expandEdges flow owner currBuilder bestBuilder es
      else
        (expandEdges flow owner currBuilder bestBuilder es).map
          (fun l => currBuilder.MarkSinkTouch :: l)
    else if e.destId = MOCK_SOURCE_ID ∨ e.SrcDirection ≠ currBuilder.pathDir then
      expandEdges flow owner currBuilder bestBuilder es
    else
      match findNode flow.nodesMap e.destId with
      | none => none
      | some neighbour =>
        let uniqEdgeTouched := decide ((⟨owner, e⟩ : EdgeRef) ∉ flow.markedEdges)
        let extensionBuilder := if uniqEdgeTouched then currBuilder.IncrementScore else currBuilder
        (expandEdges flow owner currBuilder bestBuilder es).map
          (fun l => extensionBuilder.Extend flow.kmerSize ⟨owner, e⟩ neighbour :: l)

/-- The `while` loop of `NextPath`: the value of `bestBuilder` when the loop is left; `none`
when the loop would read the edges of a null `lastNode`. -/
def nextPathLoop (flow : EdmondKarpMaxFlow) :
    Nat → Nat → PathBuilder → List PathBuilder → Option PathBuilder
  | _, _, bestBuilder, [] => some bestBuilder
  | 0, _, _, _ :: _ => none
  | fuel + 1, numVisits, bestBuilder, currBuilder :: rest =>
    let numVisits1 := (numVisits + 1) % U32_MOD
    if numVisits1 > flow.bfsLimit then some bestBuilder
    else
      let lastNode :=
        if currBuilder.NumNodes = 0 ∧ numVisits1 = 1 then some flow.sourcePtr
        else currBuilder.LastNode
      if currBuilder.pathLen > flow.maxPathLen then
        nextPathLoop flow fuel numVisits1 bestBuilder rest
      else if currBuilder.touchedSink = true ∧ currBuilder.pathScore > 0 then some currBuilder
      else
        match lastNode with
        | none => none
        | some lastNode =>
          match expandEdges flow lastNode.id currBuilder bestBuilder lastNode.edges with
          | none => none
          | some pushed => nextPathLoop flow fuel numVisits1 bestBuilder (rest ++ pushed)

/-- The function `EdmondKarpMaxFlow::NextPath`: the path, if any, and the enumerator with the
new marked edges. -/
def NextPath (fuel : Nat) (flow : EdmondKarpMaxFlow) : Option (Option Path × EdmondKarpMaxFlow) :=
  match nextPathLoop flow fuel 0 PathBuilder.empty [PathBuilder.empty] with
  | none => none
  | some bestBuilder =>
    if bestBuilder.IsEmpty then some (none, flow)
    else
      let bestPathEdges := bestBuilder.edgesList
      let marked := bestPathEdges.foldl (fun m e => setInsert e m) flow.markedEdges
      some (some bestBuilder.BuildPath, { flow with markedEdges := marked })

/-! ## Transcript extraction (`graph.cpp`, `ProcessPath`) -/

/-- The reference window: its sequence and 0-based start (`ref_window.h`). -/
structure RefWindow where
  seq : List Char
  start0 : Nat
deriving DecidableEq, Repr

/-- Modelled from the spec: `RefAnchorLen` is the length of `window.seq[startOffset .. endOffset)`
(arithmetic of `std::size_t`). -/
def RefAnchorLen (einfo : SrcSnkResult) : Nat :=
  (einfo.endOffset + SIZE_MOD - einfo.startOffset % SIZE_MOD) % SIZE_MOD

/-- Modelled from the spec: `utils::HammingDistWithin(a, b, n)` holds when `|a| == |b|` and
the Hamming distance of `a` and `b` is at most `n`. -/
def HammingDistWithin (a b : List Char) (maxDist : Nat) : Bool :=
  decide (a.length = b.length) &&
    decide (((a.zip b).filter (fun c => decide (c.1 ≠ c.2))).length ≤ maxDist)

/-- The variables of the alignment walk of `ProcessPath` that live across columns. -/
structure WalkState where
  refIdx : Nat
  refPos : Nat
  pathPos : Nat
  code : TranscriptCode
  transcripts : List Transcript
deriving DecidableEq, Repr

/-- The loops `while (s[i] is none of A, C, G, T) --i;` of `ProcessPath`: the base they stop
at, `none` when they leave the string. -/
def prevBaseAt (s : List Char) : Nat → Nat → Option Char
  | 0, _ => none
  | fuel + 1, i =>
    match s[i]? with
    | none => none
    | some c =>
      if c ≠ 'A' ∧ c ≠ 'C' ∧ c ≠ 'G' ∧ c ≠ 'T' then prevBaseAt s fuel ((i + SIZE_MOD - 1) % SIZE_MOD)
      else some c

/-- Replaces `transcripts[transcripts.size() - 1]`. -/
def setLast (ts : List Transcript) (t : Transcript) : List Transcript :=
  ts.dropLast ++ [t]

/-- One iteration of the `for` loop of `ProcessPath` over the aligned columns, without the
coverage and somatic-status bookkeeping. -/
def walkColumn (aligned : AlignedSequencesView) (anchorGenomeStart : Nat) (st : WalkState)
    (idx : Nat) : Option WalkState :=
  match aligned.ref[idx]?, aligned.qry[idx]? with
  | some r, some q =>
    let prevCode := st.code
    let refIdx := st.refPos
    let code :=
      if r = ALIGN_GAP then TranscriptCode.INSERTION
      else if q = ALIGN_GAP then TranscriptCode.DELETION
      else if r = q then TranscriptCode.REF_MATCH else TranscriptCode.SNV
    let refPos := if r = ALIGN_GAP then st.refPos else st.refPos + 1
    let pathPos := if r ≠ ALIGN_GAP ∧ q = ALIGN_GAP then st.pathPos else st.pathPos + 1
    let st1 : WalkState := ⟨refIdx, refPos, pathPos, code, st.transcripts⟩
    if code = TranscriptCode.REF_MATCH then some st1
    else
      let pathIdx := (pathPos + SIZE_MOD - 1) % SIZE_MOD
      let genomeRefPos := anchorGenomeStart + refIdx + 1
      let prevIdx := (idx + SIZE_MOD - 1) % SIZE_MOD
      match prevBaseAt aligned.ref (idx + 1) prevIdx, prevBaseAt aligned.qry (idx + 1) prevIdx with
      | some prevRefBase, some prevAltBase =>
        if st.transcripts.isEmpty || decide (prevCode = TranscriptCode.REF_MATCH) then
          let t : Transcript :=
            ⟨genomeRefPos, code, refIdx, pathIdx, refIdx + 1, pathIdx + 1, [r], [q],
              prevRefBase, prevAltBase⟩
          some { st1 with transcripts := st.transcripts ++ [t] }
        else
          match st.transcripts.getLast? with
          | none => none
          | some tr =>
            let sameTranscriptCode := decide (tr.code = code)
            let tr1 := (tr.AddRefBase r).AddRefBase q
            let tr2 :=
              if code = TranscriptCode.INSERTION ∨ code = TranscriptCode.SNV then
                { tr1 with altEnd := pathIdx + 1 }
              else tr1
            let tr3 :=
              if code = TranscriptCode.DELETION ∨ code = TranscriptCode.SNV then
                { tr2 with refEnd := refIdx + 1 }
              else tr2
            if sameTranscriptCode = true ∧ code = TranscriptCode.INSERTION ∧
                tr3.position = genomeRefPos then
              some { st1 with transcripts := setLast st.transcripts tr3 }
            else
              let deletedRefLen := tr3.altSeq.length
              if sameTranscriptCode = true ∧ code = TranscriptCode.DELETION ∧
                  tr3.position + deletedRefLen = genomeRefPos then
                some { st1 with transcripts := setLast st.transcripts tr3 }
              else
                let tr4 : Transcript := { tr3 with code := TranscriptCode.COMPLEX }
                some { st1 with transcripts := setLast st.transcripts tr4 }
      | _, _ => none
  | _, _ => none

/-- The `for` loop of `ProcessPath` over all columns of the trimmed alignment: the
transcripts it builds. -/
def walkAlignment (aligned : AlignedSequencesView) (anchorGenomeStart : Nat) :
    Option (List Transcript) :=
  ((List.range aligned.ref.length).foldlM (walkColumn aligned anchorGenomeStart)
    ⟨0, 0, 0, TranscriptCode.REF_MATCH, []⟩).map (fun st => st.transcripts)

/-- The function `Graph::ProcessPath`: the results vector after the call. -/
def ProcessPath (E : Env) (window : RefWindow) (kmerSize : Nat) (path : Path)
    (einfo : SrcSnkResult) (results : List Variant) : Option (List Variant) :=
  let pathSeq := E.PathSeq path
  if einfo.startOffset > window.seq.length then none
  else
    let refAnchorSeq := substr window.seq einfo.startOffset (RefAnchorLen einfo)
    if pathSeq = refAnchorSeq then some results
    else
      let alignedOpt : Option AlignedSequencesView :=
        if HammingDistWithin refAnchorSeq pathSeq 5 then some ⟨refAnchorSeq, pathSeq⟩
        else (E.Align refAnchorSeq pathSeq).map (fun a => ⟨a.1, a.2⟩)
      match alignedOpt with
      | none => none
      | some aligned =>
        match TrimEndGaps aligned with
        | none => none
        | some (trimmed, refStartTrim) =>
          let anchorGenomeStart := window.start0 + einfo.startOffset + refStartTrim
          match walkAlignment trimmed anchorGenomeStart with
          | none => none
          | some transcripts =>
            some (results ++ (transcripts.filter (E.IsEmitted path)).map
              (fun t => (⟨t, kmerSize⟩ : Variant)))

/-! ## The pipeline (`graph.cpp`, `ProcessGraph`) -/

/-- The `while (pathPtr != nullptr)` loop of `ProcessGraph`: the results vector and whether the
loop left the function with `shouldIncrementK = true`. `npFuel` is the fuel of each
`NextPath` call. -/
def pathLoop (E : Env) (p : CliParams) (window : RefWindow) (kmerSize npFuel : Nat)
    (einfo : SrcSnkResult) :
    Nat → EdmondKarpMaxFlow → Option Path → List Variant → Option (List Variant × Bool)
  | _, _, none, results => some (results, false)
  | 0, _, some _, _ => none
  | fuel + 1, flow, some path, results =>
    if E.HasAlmostRepeatKmer (E.PathSeq path) kmerSize p.maxRptMismatch then some (results, true)
    else
      match ProcessPath E window kmerSize path einfo results with
      | none => none
      | some results1 =>
        match NextPath npFuel flow with
        | none => none
        | some (pathPtr, flow1) =>
          pathLoop E p window kmerSize npFuel einfo fuel flow1 pathPtr results1

/-- The pruning calls of `ProcessGraph` for one component (lines 49 to 53), in the order in
which the code makes them: `CompressGraph`, `RemoveLowCovNodes`, `CompressGraph`,
`RemoveTips`, `RemoveShortLinks`. Writing the dot files and `rehash` are left out. -/
def pruneComponent (E : Env) (p : CliParams) (kmerSize : Nat) (nc : NodeContainer)
    (comp_id : Nat) : Option NodeContainer :=
  match CompressGraph E kmerSize nc comp_id with
  | none => none
  | some (nc2, _) =>
    let nc3 := (RemoveLowCovNodes E p nc2 comp_id).1
    match CompressGraph E kmerSize nc3 comp_id with
    | none => none
    | some (nc4, _) =>
      match RemoveTips E p kmerSize nc4 comp_id with
      | none => none
      | some (nc5, _) =>
        match RemoveShortLinks E kmerSize nc5 comp_id with
        | none => none
        | some (nc6, _) => some nc6

/-- The path enumeration of `ProcessGraph` for one component (lines 63 to 83): the results
vector and whether the function was left with `shouldIncrementK = true`. -/
def enumeratePaths (E : Env) (p : CliParams) (window : RefWindow) (kmerSize fuel : Nat)
    (nc : NodeContainer) (markResult : SrcSnkResult) (results : List Variant) :
    Option (List Variant × Bool) :=
  let maxPathLength := (RefAnchorLen markResult + p.maxIndelLength) % SIZE_MOD
  match EdmondKarpMaxFlow.new nc kmerSize maxPathLength p.graphTraversalLimit p.tenxMode with
  | none => none
  | some flow =>
    match NextPath fuel flow with
    | none => none
    | some (pathPtr, flow1) =>
      pathLoop E p window kmerSize fuel markResult fuel flow1 pathPtr results

/-- The body of the `for` loop of `ProcessGraph` for one component: the node map, the results
vector and whether the body left the function with `shouldIncrementK = true`. -/
def processComponent (E : Env) (p : CliParams) (window : RefWindow)
    (refMerIDs : List NodeIdentifier) (kmerSize fuel : Nat) (nc : NodeContainer)
    (results : List Variant) (comp : ComponentInfo) :
    Option (NodeContainer × List Variant × Bool) :=
  match MarkSourceSink p refMerIDs nc comp.ID with
  | none => none
  | some (nc1, markResult) =>
    if !markResult.foundSrcAndSnk then some (nc1, results, false)
    else
      match HasCycle nc1 with
      | none => none
      | some true => some (nc1, results, true)
      | some false =>
        match pruneComponent E p kmerSize nc1 comp.ID with
        | none => none
        | some nc6 =>
          match HasCycle nc6 with
          | none => none
          | some true => some (nc6, results, true)
          | some false =>
            match enumeratePaths E p window kmerSize fuel nc6 markResult results with
            | none => none
            | some (results1, stop) => some (nc6, results1, stop)

/-- The `for` loop of `ProcessGraph` over the components. -/
def componentsLoop (E : Env) (p : CliParams) (window : RefWindow)
    (refMerIDs : List NodeIdentifier) (kmerSize fuel : Nat) :
    List ComponentInfo → NodeContainer → List Variant →
    Option (NodeContainer × List Variant × Bool)
  | [], nc, results => some (nc, results, false)
  | comp :: comps, nc, results =>
    match processComponent E p window refMerIDs kmerSize fuel nc results comp with
    | none => none
    | some (nc1, results1, true) => some (nc1, results1, true)
    | some (nc1, results1, false) =>
      componentsLoop E p window refMerIDs kmerSize fuel comps nc1 results1

/-- The function `Graph::ProcessGraph`: the node map, the results vector and
`shouldIncrementK` when it returns. `refMerIDs` is `CanonicalKmerHashes(window.seq, kmerSize)`
and `fuel` bounds the visits of one `NextPath` call and the number of paths of a component. -/
def ProcessGraph (E : Env) (p : CliParams) (window : RefWindow) (refMerIDs : List NodeIdentifier)
    (kmerSize fuel : Nat) (nc : NodeContainer) (results : List Variant) :
    Option (NodeContainer × List Variant × Bool) :=
  let nc1 := (RemoveLowCovNodes E p nc 0).1
  match MarkConnectedComponents nc1 with
  | none => none
  | some (nc2, componentsInfo) =>
    componentsLoop E p window refMerIDs kmerSize fuel componentsInfo nc2 results

/-! ## Properties and proof devices -/

/-- Edge symmetry: every edge `u --kind--> v` between two nodes of the map has its reverse
edge `v --reverse(kind)--> u`. -/
def EdgeSymmetric (nc : NodeContainer) : Prop :=
  ∀ u ∈ nc, ∀ e ∈ u.edges, ∀ v ∈ nc, v.id = e.destId →
    (⟨u.id, ReverseEdgeKind e.kind⟩ : Edge) ∈ v.edges

instance (nc : NodeContainer) : Decidable (EdgeSymmetric nc) := by
  unfold EdgeSymmetric; infer_instance

/-- The node map `G` with the component id of every node replaced by `f id`. -/
def assignComp (G : NodeContainer) (f : NodeIdentifier → Nat) : NodeContainer :=
  G.map (fun n => { n with ComponentID := f n.id })

/-- Work left for the component search: every unassigned node will be assigned once and push
its edges once. -/
def unassignedWork (G : NodeContainer) (f : NodeIdentifier → Nat) : Nat :=
  (G.map (fun n => if f n.id = 0 then n.edges.length + 2 else 0)).sum

/-- Invariant of the component search for component `c`: an edge out of an assigned node leads
to a node of the same component, or to an unassigned node waiting in the queue. -/
def CompInv (G : NodeContainer) (c : Nat) (f : NodeIdentifier → Nat)
    (queue : List NodeIdentifier) : Prop :=
  ∀ u ∈ G, f u.id ≠ 0 → ∀ e ∈ u.edges, ∀ v ∈ G, v.id = e.destId →
    f v.id = f u.id ∨ (f u.id = c ∧ f v.id = 0 ∧ v.id ∈ queue)

/-- An edge between two real nodes of the map. -/
def realEdge (nc : NodeContainer) (u v : Node) : Prop :=
  u ∈ nc ∧ v ∈ nc ∧ u.IsMockNode = false ∧ v.IsMockNode = false ∧ ∃ e ∈ u.edges, e.destId = v.id

/-- A strand-consistent walk from node `cur` entered on strand `dir`: every edge is an edge of
the node the walk stands on, its source strand is the current strand, and it does not
lead to a mock node. -/
def isStrandWalk (nc : NodeContainer) : NodeIdentifier → Strand → List Edge → Bool
  | _, _, [] => true
  | cur, dir, e :: es =>
    match findNode nc cur with
    | none => false
    | some n =>
      decide (e ∈ n.edges) && decide (e.SrcDirection = dir) &&
        decide (e.destId ≠ MOCK_SOURCE_ID) && decide (e.destId ≠ MOCK_SINK_ID) &&
        isStrandWalk nc e.destId e.DstDirection es

/-! ## Example inputs -/

/-- Sequence and coverage of the example nodes: a 3-mer seen three times in each sample. -/
def examplePayload : NodeData := ⟨Strand.FWD, ['A', 'C', 'G'], 3, 3, 6, 3⟩

/-- Two separate chains `1 - 2` and `3 - 4` next to the unconnected mock nodes. -/
def twoChainsGraph : NodeContainer :=
  [ ⟨MOCK_SOURCE_ID, 0, [], examplePayload⟩, ⟨MOCK_SINK_ID, 0, [], examplePayload⟩,
    ⟨1, 0, [⟨2, .FF⟩], examplePayload⟩, ⟨2, 0, [⟨1, .RR⟩], examplePayload⟩,
    ⟨3, 0, [⟨4, .FF⟩], examplePayload⟩, ⟨4, 0, [⟨3, .RR⟩], examplePayload⟩ ]

/-- The mock source leads to node 1, which branches to the dead end 2 and to node 3, and node
3 has an edge to itself. -/
def branchCycleGraph : NodeContainer :=
  [ ⟨MOCK_SOURCE_ID, 1, [⟨1, .FF⟩], examplePayload⟩, ⟨MOCK_SINK_ID, 1, [], examplePayload⟩,
    ⟨1, 1, [⟨MOCK_SOURCE_ID, .RR⟩, ⟨2, .FF⟩, ⟨3, .FF⟩], examplePayload⟩,
    ⟨2, 1, [⟨1, .RR⟩], examplePayload⟩,
    ⟨3, 1, [⟨1, .RR⟩, ⟨3, .FF⟩, ⟨3, .RR⟩], examplePayload⟩ ]

/-- Collaborators for the examples: any two different real nodes can be merged, merging
keeps the payload of the node, no tandem repeat and no repeated k-mer is ever found, the
sequence of a path is that of its first node, the aligner fails and every transcript is
emitted. -/
def exampleEnv : Env :=
  { ceilCovRatio := 0
    floorSqrtCov := 0
    CanMerge := fun s b _ _ => !s.IsMockNode && !b.IsMockNode && decide (s.id ≠ b.id)
    MergeBuddy := fun s _ _ _ => s.data
    foundSTR := fun _ _ => false
    HasAlmostRepeatKmer := fun _ _ _ => false
    PathSeq := fun path => match path.nodes with
      | [] => []
      | n :: _ => n.data.seq
    Align := fun _ _ => none
    IsEmitted := fun _ _ => true }

/-- Node 1 and node 2 are joined by a strand-switching edge, and node 2 has a hairpin edge
to itself on its other side. -/
def hairpinGraph : NodeContainer :=
  [ ⟨MOCK_SOURCE_ID, 0, [], examplePayload⟩, ⟨MOCK_SINK_ID, 0, [], examplePayload⟩,
    ⟨1, 1, [⟨2, .FR⟩], examplePayload⟩,
    ⟨2, 1, [⟨1, .FR⟩, ⟨2, .RF⟩], examplePayload⟩ ]

/-- The graph that `CompressGraph` makes of `hairpinGraph`. -/
def hairpinCompressed : NodeContainer :=
  [ ⟨MOCK_SOURCE_ID, 0, [], examplePayload⟩, ⟨MOCK_SINK_ID, 0, [], examplePayload⟩,
    ⟨1, 1, [⟨1, .FF⟩], examplePayload⟩ ]

/-- What `updateNode` does to one node. -/
def upd (id : NodeIdentifier) (f : Node → Node) (n : Node) : Node :=
  if n.id = id then f n else n

/-- What `DisconnectEdgesTo` for the node `t` with neighbours `D` does to one node. -/
def disc (D : List NodeIdentifier) (t : NodeIdentifier) (n : Node) : Node :=
  if n.id ∈ D then n.EraseEdgesTo t else n

/-- What the first half of `MarkSourceSink` (component ids, disconnecting and clearing the
mock nodes) does to one node; `D1` and `D2` are the old neighbours of the mock nodes. -/
def markNodeA (comp : Nat) (D1 D2 : List NodeIdentifier) (n : Node) : Node :=
  upd MOCK_SINK_ID Node.ClearEdges
    (disc D2 MOCK_SINK_ID
      (upd MOCK_SINK_ID (fun m => { m with ComponentID := comp })
        (upd MOCK_SOURCE_ID Node.ClearEdges
          (disc D1 MOCK_SOURCE_ID
            (upd MOCK_SOURCE_ID (fun m => { m with ComponentID := comp }) n)))))

/-- What the second half of `MarkSourceSink` (the four new edges) does to one node. -/
def markNodeB (srcId snkId : NodeIdentifier) (k1 k2 : EdgeKind) (n : Node) : Node :=
  upd snkId (fun m => m.EmplaceEdge MOCK_SINK_ID (ReverseEdgeKind k2))
    (upd MOCK_SINK_ID (fun m => m.EmplaceEdge snkId k2)
      (upd srcId (fun m => m.EmplaceEdge MOCK_SOURCE_ID (ReverseEdgeKind k1))
        (upd MOCK_SOURCE_ID (fun m => m.EmplaceEdge srcId k1) n)))

/-- The kind of the edge from the mock sink to a data sink of the given orientation. -/
def sinkKind (o : Strand) : EdgeKind :=
  if decide (o = Strand.REV) then EdgeKind.FF else EdgeKind.RR

/-- Default parameters: `min_node_cov` 2, `min_anchor_cov` 5, tip length 11, indel length 500,
traversal limit 100000, repeat mismatches 2, no 10x mode. -/
def exampleParams : CliParams := ⟨2, 5, 11, 500, 100000, 2, false⟩

/-- A chain `1 - 2 - 3` of component 1 next to the unconnected mock nodes. -/
def chainGraph : NodeContainer :=
  [ ⟨MOCK_SOURCE_ID, 0, [], examplePayload⟩, ⟨MOCK_SINK_ID, 0, [], examplePayload⟩,
    ⟨1, 1, [⟨2, .FF⟩], examplePayload⟩,
    ⟨2, 1, [⟨1, .RR⟩, ⟨3, .FF⟩], examplePayload⟩,
    ⟨3, 1, [⟨2, .RR⟩], examplePayload⟩ ]

/-- The node map that `MarkSourceSink` makes of `chainGraph` for the reference k-mer ids
1, 2, 3: the mock source is linked to node 1 and the mock sink to node 3. -/
def chainAnchored : NodeContainer :=
  [ ⟨MOCK_SOURCE_ID, 1, [⟨1, .FF⟩], examplePayload⟩, ⟨MOCK_SINK_ID, 1, [⟨3, .RR⟩], examplePayload⟩,
    ⟨1, 1, [⟨2, .FF⟩, ⟨MOCK_SOURCE_ID, .RR⟩], examplePayload⟩,
    ⟨2, 1, [⟨1, .RR⟩, ⟨3, .FF⟩], examplePayload⟩,
    ⟨3, 1, [⟨2, .RR⟩, ⟨MOCK_SINK_ID, .FF⟩], examplePayload⟩ ]

/-- A window with two 3-mers; its sequence plays no part in the examples. -/
def exampleWindow : RefWindow := ⟨['A', 'C', 'G', 'T'], 100⟩

/-- Two consecutive edges of a walk: the second leaves the node the first arrives at, on the
strand the first arrives on. -/
def EdgeFollows (a b : EdgeRef) : Prop :=
  b.edge.SrcDirection = a.edge.DstDirection ∧ b.owner = a.edge.destId

/-- Invariant of the builders in the deque of `NextPath`; `src` is the mock source node. -/
structure ValidBuilder (src : Node) (b : PathBuilder) : Prop where
  lengths : b.nodesList.length = b.edgesList.length
  first : ∀ e, b.edgesList.head? = some e →
    e.owner = MOCK_SOURCE_ID ∧ e.edge ∈ src.edges ∧ e.edge.SrcDirection = Strand.FWD
  chain : List.Chain' EdgeFollows b.edgesList
  fresh : b.edgesList = [] → b.pathDir = Strand.FWD ∧ b.pathScore = 0
  last : ∀ eL, b.edgesList.getLast? = some eL →
    b.pathDir = eL.edge.DstDirection ∧ ∃ nL, b.nodesList.getLast? = some nL ∧ nL.id = eL.edge.destId
  sink : b.touchedSink = true →
    0 < b.pathScore ∧ ∃ nL, b.nodesList.getLast? = some nL ∧ ∃ e ∈ nL.edges, e.destId = MOCK_SINK_ID

/-- The node `lastNode` is the node a builder stands on: the mock source for the empty
builder, else its last node. -/
def StandsOn (src : Node) (b : PathBuilder) (lastNode : Node) : Prop :=
  (b.edgesList = [] → lastNode = src) ∧
  (b.edgesList ≠ [] → b.nodesList.getLast? = some lastNode)

/-- The enumerator over `chainAnchored` with k = 3, `max_path_len` 505 and the default
traversal limit, before any path was yielded. -/
def chainFlow : EdmondKarpMaxFlow :=
  ⟨chainAnchored, 3, 505, 100000, false, ⟨MOCK_SOURCE_ID, 1, [⟨1, .FF⟩], examplePayload⟩, []⟩

/-- The edges of the only path through `chainAnchored`. -/
def chainPathEdges : List EdgeRef :=
  [⟨MOCK_SOURCE_ID, ⟨1, .FF⟩⟩, ⟨1, ⟨2, .FF⟩⟩, ⟨2, ⟨3, .FF⟩⟩]

/-- The only path through `chainAnchored`: nodes 1, 2, 3, score 3 and length 5. -/
def chainPath : Path :=
  ⟨[⟨1, 1, [⟨2, .FF⟩, ⟨MOCK_SOURCE_ID, .RR⟩], examplePayload⟩,
    ⟨2, 1, [⟨1, .RR⟩, ⟨3, .FF⟩], examplePayload⟩,
    ⟨3, 1, [⟨2, .RR⟩, ⟨MOCK_SINK_ID, .FF⟩], examplePayload⟩], chainPathEdges, 3, 5⟩

/-- Collaborators for the restart example: as `exampleEnv`, but every path reads `AATTG`. -/
def restartEnv : Env :=
  { exampleEnv with PathSeq := fun _ => ['A', 'A', 'T', 'T', 'G'] }

/-- The window of the restart example, with six 3-mers; the reference anchor of the first
component is `AACTG`. -/
def restartWindow : RefWindow := ⟨['A', 'A', 'C', 'T', 'G', 'G', 'A', 'C'], 100⟩

/-- Two components before `ProcessGraph` runs: the chain `1 - 2 - 3`, and the chain `4 - 5 - 6`
with the extra edge `6 -> 5` that closes a cycle on the forward strand. -/
def restartGraph : NodeContainer :=
  [ ⟨MOCK_SOURCE_ID, 0, [], examplePayload⟩, ⟨MOCK_SINK_ID, 0, [], examplePayload⟩,
    ⟨1, 0, [⟨2, .FF⟩], examplePayload⟩,
    ⟨2, 0, [⟨1, .RR⟩, ⟨3, .FF⟩], examplePayload⟩,
    ⟨3, 0, [⟨2, .RR⟩], examplePayload⟩,
    ⟨4, 0, [⟨5, .FF⟩], examplePayload⟩,
    ⟨5, 0, [⟨4, .RR⟩, ⟨6, .FF⟩, ⟨6, .RR⟩], examplePayload⟩,
    ⟨6, 0, [⟨5, .RR⟩, ⟨5, .FF⟩], examplePayload⟩ ]

/-- The variant of the restart example: the SNV `C > T` at position 103. -/
def restartVariant : Variant := ⟨⟨103, TranscriptCode.SNV, 2, 2, 3, 3, ['C'], ['T'], 'A', 'A'⟩, 3⟩

/-- The node map in which `ProcessGraph` leaves `restartGraph`: the first component is
compressed into node 1, the mock nodes are linked to the second component. -/
def restartFinal : NodeContainer :=
  [ ⟨MOCK_SOURCE_ID, 4, [⟨4, .FF⟩], examplePayload⟩, ⟨MOCK_SINK_ID, 4, [⟨6, .RR⟩], examplePayload⟩,
    ⟨1, 3, [], examplePayload⟩,
    ⟨4, 4, [⟨5, .FF⟩, ⟨MOCK_SOURCE_ID, .RR⟩], examplePayload⟩,
    ⟨5, 4, [⟨4, .RR⟩, ⟨6, .FF⟩, ⟨6, .RR⟩], examplePayload⟩,
    ⟨6, 4, [⟨5, .RR⟩, ⟨5, .FF⟩, ⟨MOCK_SINK_ID, .FF⟩], examplePayload⟩ ]

/-- The paths handed to `ProcessPath` one after the other, from the results vector `results` on;
`none` as soon as one call fails. -/
def processPaths (E : Env) (window : RefWindow) (kmerSize : Nat) (einfo : SrcSnkResult) :
    List Path → List Variant → Option (List Variant)
  | [], results => some results
  | q :: qs, results =>
    match ProcessPath E window kmerSize q einfo results with
    | none => none
    | some results1 => processPaths E window kmerSize einfo qs results1

/-- The node `n2` is the node `n` after edges to `t` were erased: the same id, component and
payload, no new edge, and every edge that does not lead to `t` still there. -/
def Shrinks (t : NodeIdentifier) (n n2 : Node) : Prop :=
  n2.id = n.id ∧ n2.ComponentID = n.ComponentID ∧ n2.data = n.data ∧
    (∀ e ∈ n2.edges, e ∈ n.edges) ∧ (∀ e ∈ n.edges, e.destId ≠ t → e ∈ n2.edges)

/-! ## K-mers (`kmer.cpp`) -/

/-- Modelled from the spec: the complement of a base (`utils::RevComp` is declared in
utils.h, which is not part of the sources). The spec fixes it on the alphabet {A,C,G,T}
only; a character outside the alphabet is sent to `N` here, and the theorems about k-mers
are stated for sequences over the alphabet. -/
def RevCompBase : Char → Char
  | 'A' => 'T'
  | 'C' => 'G'
  | 'G' => 'C'
  | 'T' => 'A'
  | _ => 'N'

/-- Modelled from the spec: `utils::RevComp`, the reverse complement of a sequence. -/
def RevComp (sv : List Char) : List Char := (sv.map RevCompBase).reverse

/-- A sequence over the nucleotide alphabet {A,C,G,T}. -/
def IsNucleotideSeq (s : List Char) : Prop :=
  ∀ c ∈ s, c = 'A' ∨ c = 'C' ∨ c = 'G' ∨ c = 'T'

instance (s : List Char) : Decidable (IsNucleotideSeq s) := by
  unfold IsNucleotideSeq; infer_instance

/-- The members `seq` and `strand` of a `Kmer`. -/
structure Kmer where
  seq : List Char
  strand : Strand
deriving DecidableEq, Repr

/-- The function `Kmer::Canonicalize`: the members it sets. The test `sv < revComp` of
`std::string_view` is the lexicographic order of the character lists. -/
def Kmer.Canonicalize (sv : List Char) : Kmer :=
  let revComp := RevComp sv
  if sv < revComp then ⟨sv, Strand.FWD⟩
  else ⟨revComp, Strand.REV⟩

/-- The constructor `Kmer::Kmer(std::string_view)`. -/
def Kmer.new (sv : List Char) : Kmer := Kmer.Canonicalize sv

def Kmer.FwdSeq (k : Kmer) : List Char :=
  if k.strand = Strand.REV then RevComp k.seq else k.seq

def Kmer.IsCanonical (sv : List Char) : Bool := decide (sv < RevComp sv)

/-- The function `Kmer::ID`: `CityHash64WithSeeds` with the two fixed seeds is the parameter
`hash`, an arbitrary function of the characters of `seq`. -/
def Kmer.ID (hash : List Char → Nat) (k : Kmer) : Nat := hash k.seq

/-- The count the spec names for `ref_start_trim`: the number of non-gap reference
characters among the leading columns that have a gap (the columns the leading trim
removes). -/
def leadingRefBases (aln : AlignedSequencesView) : Nat :=
  (((aln.ref.zip aln.qry).takeWhile (fun c => c.1 == ALIGN_GAP || c.2 == ALIGN_GAP)).filter
    (fun c => c.1 != ALIGN_GAP)).length

/-- The `while` loop of `NextPath` together with a count of the builders it examines: the
count `examined` grows by one each time an iteration passes the test
`numVisits > bfsLimit` and goes on to look at the front builder. Apart from the count it
is `nextPathLoop` line by line. -/
def nextPathLoopCount (flow : EdmondKarpMaxFlow) :
    Nat → Nat → Nat → PathBuilder → List PathBuilder → Option (PathBuilder × Nat)
  | _, _, examined, bestBuilder, [] => some (bestBuilder, examined)
  | 0, _, _, _, _ :: _ => none
  | fuel + 1, numVisits, examined, bestBuilder, currBuilder :: rest =>
    let numVisits1 := (numVisits + 1) % U32_MOD
    if numVisits1 > flow.bfsLimit then some (bestBuilder, examined)
    else
      let lastNode :=
        if currBuilder.NumNodes = 0 ∧ numVisits1 = 1 then some flow.sourcePtr
        else currBuilder.LastNode
      if currBuilder.pathLen > flow.maxPathLen then
        nextPathLoopCount flow fuel numVisits1 (examined + 1) bestBuilder rest
      else if currBuilder.touchedSink = true ∧ currBuilder.pathScore > 0 then
        some (currBuilder, examined + 1)
      else
        match lastNode with
        | none => none
        | some lastNode =>
          match expandEdges flow lastNode.id currBuilder bestBuilder lastNode.edges with
          | none => none
          | some pushed =>
            nextPathLoopCount flow fuel numVisits1 (examined + 1) bestBuilder (rest ++ pushed)

/-- The node map is closed under its edges: every edge leads to a node of the map (the
assertion `neighbourItr != nodesMap->end()` of `NextPath`). -/
def EdgesClosed (nc : NodeContainer) : Prop :=
  ∀ n ∈ nc, ∀ e ∈ n.edges, (findNode nc e.destId).isSome = true

instance (nc : NodeContainer) : Decidable (EdgesClosed nc) := by
  unfold EdgesClosed; infer_instance

/-- The builder stands on a node of the map `nc`. -/
def HasLastIn (nc : NodeContainer) (b : PathBuilder) : Prop :=
  ∃ nL, b.nodesList.getLast? = some nL ∧ nL ∈ nc

/-- The homopolymer 3-mer `AAA` of the wrap-around example: it follows itself on the forward
strand, and it is both the data source and the data sink. -/
def wrapNode : Node :=
  ⟨1, 1, [⟨MOCK_SOURCE_ID, .RR⟩, ⟨1, .FF⟩, ⟨1, .RR⟩, ⟨MOCK_SINK_ID, .FF⟩],
    ⟨Strand.FWD, ['A', 'A', 'A'], 3, 3, 6, 3⟩⟩

/-- The anchored node map of the wrap-around example. -/
def wrapGraph : NodeContainer :=
  [ ⟨MOCK_SOURCE_ID, 1, [⟨1, .FF⟩], examplePayload⟩, ⟨MOCK_SINK_ID, 1, [⟨1, .RR⟩], examplePayload⟩,
    wrapNode ]

/-- The enumerator over `wrapGraph` with k = 3, `bfs_limit` 2^32 - 1 (the largest
`std::uint32_t`) and `max_path_len` 2^32 + 8, after the two paths
source - AAA - sink and source - AAA - AAA - sink were yielded: both forward edges are marked. -/
def wrapFlow : EdmondKarpMaxFlow :=
  ⟨wrapGraph, 3, U32_MOD + 8, U32_MOD - 1, false, ⟨MOCK_SOURCE_ID, 1, [⟨1, .FF⟩], examplePayload⟩,
    [⟨MOCK_SOURCE_ID, ⟨1, .FF⟩⟩, ⟨1, ⟨1, .FF⟩⟩]⟩
/-- The enumerator `chainFlow` with the traversal limit lowered to 2. -/
def chainFlowLimit2 : EdmondKarpMaxFlow := { chainFlow with bfsLimit := 2 }

/-- Sequence and coverage of the nodes of the short-link example: a 5-mer seen three times in
each sample. -/
def linkPayload : NodeData := ⟨Strand.FWD, ['A', 'C', 'G', 'T', 'A'], 3, 3, 6, 3⟩

/-- Collaborators for the short-link example: as `exampleEnv`, with
`floor(sqrt(avg_coverage)) = 3` and no two nodes mergeable. -/
def linkEnv : Env :=
  { exampleEnv with floorSqrtCov := 3, CanMerge := fun _ _ _ _ => false }

/-- Two chains of 5-mers, `1 - 2 - 3` in component 1 and `4 - 5 - 6` in component 2; the
middle nodes 2 and 5 are short links. -/
def twoLinksGraph : NodeContainer :=
  [ ⟨MOCK_SOURCE_ID, 0, [], examplePayload⟩, ⟨MOCK_SINK_ID, 0, [], examplePayload⟩,
    ⟨1, 1, [⟨2, .FF⟩], linkPayload⟩,
    ⟨2, 1, [⟨1, .RR⟩, ⟨3, .FF⟩], linkPayload⟩,
    ⟨3, 1, [⟨2, .RR⟩], linkPayload⟩,
    ⟨4, 2, [⟨5, .FF⟩], linkPayload⟩,
    ⟨5, 2, [⟨4, .RR⟩, ⟨6, .FF⟩], linkPayload⟩,
    ⟨6, 2, [⟨5, .RR⟩], linkPayload⟩ ]

/-- What `RemoveShortLinks(1)` makes of `twoLinksGraph`: node 5 of component 2 is gone, the
short link 2 of component 1 is still there. -/
def twoLinksPruned : NodeContainer :=
  [ ⟨MOCK_SOURCE_ID, 0, [], examplePayload⟩, ⟨MOCK_SINK_ID, 0, [], examplePayload⟩,
    ⟨1, 1, [⟨2, .FF⟩], linkPayload⟩,
    ⟨2, 1, [⟨1, .RR⟩, ⟨3, .FF⟩], linkPayload⟩,
    ⟨3, 1, [⟨2, .RR⟩], linkPayload⟩,
    ⟨4, 2, [], linkPayload⟩,
    ⟨6, 2, [], linkPayload⟩ ]

/-- The node map `branchCycleGraph` without its tip, node 2. -/
def branchCyclePruned : NodeContainer :=
  [ ⟨MOCK_SOURCE_ID, 1, [⟨1, .FF⟩], examplePayload⟩, ⟨MOCK_SINK_ID, 1, [], examplePayload⟩,
    ⟨1, 1, [⟨MOCK_SOURCE_ID, .RR⟩, ⟨3, .FF⟩], examplePayload⟩,
    ⟨3, 1, [⟨1, .RR⟩, ⟨3, .FF⟩, ⟨3, .RR⟩], examplePayload⟩ ]

/-- The keys of the node map in iteration order. -/
def nodeIds (nc : NodeContainer) : List NodeIdentifier := nc.map (fun n => n.id)

/-- Number of keys of the node map that are not in the set `s`. -/
def keysOutside (nc : NodeContainer) (s : List NodeIdentifier) : Nat :=
  ((nodeIds nc).dedup.filter (fun x => decide (x ∉ s))).length

/-- The node and strand at which a walk of edges `es` from `(start, dir)` stands. -/
def walkEnd (start : NodeIdentifier) (dir : Strand) (es : List Edge) : NodeIdentifier × Strand :=
  match es.getLast? with
  | none => (start, dir)
  | some e => (e.destId, e.DstDirection)

/-- The node `n2` is the node `n` with some of its edges erased: the same id, component id
and payload, and no new edge. -/
def Pruned (n n2 : Node) : Prop :=
  n2.id = n.id ∧ n2.ComponentID = n.ComponentID ∧ n2.data = n.data ∧
    ∀ e ∈ n2.edges, e ∈ n.edges

/-- An id that is not one of the two mock ids. -/
def isRealId (x : NodeIdentifier) : Bool := x != MOCK_SOURCE_ID && x != MOCK_SINK_ID
/-- The nodes that the spec has `remove_low_cov_nodes(comp)` remove: the non-mock nodes of
the component that are singletons in both samples or whose minimum base coverage is at
most `max(min_node_cov, ceil(min_cov_ratio * avg_coverage))`. -/
def lowCovSelected (minNodeCov ceilCovRatio comp : Nat) (n : Node) : Bool :=
  !n.IsMockNode && decide (n.ComponentID = comp) &&
    ((decide (n.data.sampleCountNormal = 1) && decide (n.data.sampleCountTumor = 1)) ||
      decide (n.data.minSampleBaseCov ≤ max minNodeCov ceilCovRatio))

/-- A chain `1 - 2 - 3` of component 1 whose middle node has minimum base coverage 1. -/
def lowCovGraph : NodeContainer :=
  [ ⟨MOCK_SOURCE_ID, 0, [], examplePayload⟩, ⟨MOCK_SINK_ID, 0, [], examplePayload⟩,
    ⟨1, 1, [⟨2, .FF⟩], examplePayload⟩,
    ⟨2, 1, [⟨1, .RR⟩, ⟨3, .FF⟩], ⟨Strand.FWD, ['C', 'G', 'T'], 3, 3, 6, 1⟩⟩,
    ⟨3, 1, [⟨2, .RR⟩], examplePayload⟩ ]

/-- The keys of `nc2` are the keys of `nc` without some real (non-mock) ids. -/
def KeysRemoved (nc nc2 : NodeContainer) : Prop :=
  ∃ removed : List NodeIdentifier, (∀ x ∈ removed, isRealId x = true) ∧
    nodeIds nc2 = (nodeIds nc).filter (fun x => decide (x ∉ removed))
/-- The four pruning operators of the graph, each called for a component id. -/
inductive PruneOp where
  | lowCov (comp : Nat)
  | compress (comp : Nat)
  | tips (comp : Nat)
  | shortLinks (comp : Nat)
deriving DecidableEq, Repr

/-- One pruning operator applied to the node map: `RemoveLowCovNodes`, `CompressGraph`,
`RemoveTips` or `RemoveShortLinks`. -/
def applyPruneOp (E : Env) (p : CliParams) (kmerSize : Nat) (nc : NodeContainer) :
    PruneOp → Option NodeContainer
  | .lowCov c => some (RemoveLowCovNodes E p nc c).1
  | .compress c => (CompressGraph E kmerSize nc c).map Prod.fst
  | .tips c => (RemoveTips E p kmerSize nc c).map Prod.fst
  | .shortLinks c => (RemoveShortLinks E kmerSize nc c).map Prod.fst

/-- A sequence of pruning operators applied one after the other. -/
def applyPruneOps (E : Env) (p : CliParams) (kmerSize : Nat) :
    List PruneOp → NodeContainer → Option NodeContainer
  | [], nc => some nc
  | op :: ops, nc =>
    match applyPruneOp E p kmerSize nc op with
    | none => none
    | some nc1 => applyPruneOps E p kmerSize ops nc1

/-- The order in which the spec has the pruning operators applied to a component. -/
def specPruneOrder (comp : Nat) : List PruneOp :=
  [.lowCov comp, .compress comp, .lowCov comp, .compress comp, .tips comp, .shortLinks comp]

/-- The order in which `ProcessGraph` calls the pruning operators for a component (lines 49
to 53). -/
def codePruneOrder (comp : Nat) : List PruneOp :=
  [.compress comp, .lowCov comp, .compress comp, .tips comp, .shortLinks comp]

/-- The collaborators `E` with `CanMerge` refusing every placement of the buddy but `d`. -/
def onlyPlacement (E : Env) (d : BuddyPosition) : Env :=
  { E with CanMerge := fun s b dir k => decide (dir = d) && E.CanMerge s b dir k }

/-- Every edge of the node map as an `EdgeRef`: the edge with the key of the node that
holds it. -/
def allEdgeRefs (nc : NodeContainer) : List EdgeRef :=
  nc.flatMap (fun n => n.edges.map (fun e => (⟨n.id, e⟩ : EdgeRef)))

/-- The number of edges of the node map. -/
def numEdges (nc : NodeContainer) : Nat := (nc.map (fun n => n.edges.length)).sum

/-- Invariant of the builders of `NextPath` for the marked edges of the enumerator: the score
counts the edges of the builder that are not marked, and every edge of the builder is an
edge of a node of the map. -/
def ScoreInv (flow : EdmondKarpMaxFlow) (b : PathBuilder) : Prop :=
  b.pathScore = (b.edgesList.filter (fun e => decide (e ∉ flow.markedEdges))).length ∧
  ∀ r ∈ b.edgesList, r ∈ allEdgeRefs flow.nodesMap

/-- Successive calls of `NextPath` that each yield a path: `YieldsChain fuel flow paths flow2`
holds when the calls, started on the enumerator `flow`, yield the paths `paths` in this
order and leave the enumerator `flow2`. -/
inductive YieldsChain (fuel : Nat) : EdmondKarpMaxFlow → List Path → EdmondKarpMaxFlow → Prop
  | done (flow : EdmondKarpMaxFlow) : YieldsChain fuel flow [] flow
  | step {flow flow1 flow2 : EdmondKarpMaxFlow} {path : Path} {paths : List Path} :
      NextPath fuel flow = some (some path, flow1) → YieldsChain fuel flow1 paths flow2 →
      YieldsChain fuel flow (path :: paths) flow2

/-- An alignment of five columns: columns 0, 2 and 4 have a gap, columns 1 and 3 have none. -/
def gappedAlignment : AlignedSequencesView :=
  ⟨['-', 'A', 'C', 'G', '-'], ['T', 'A', '-', 'G', 'T']⟩

/-- The call `s.subspan(pos, len)` of an `absl::Span`: the elements from `pos` on, at most
`len` of them; `none` when `pos > size()`, where the call throws. -/
def subspan {α : Type} (s : List α) (pos len : Nat) : Option (List α) :=
  if pos > s.length then none else some ((s.drop pos).take len)

/-- The function `Graph::ClampToSourceSink` over the two spans of per-base reference
records (arithmetic of `std::size_t`). -/
def ClampToSourceSink {α : Type} (refs : List α × List α) (ends : SrcSnkResult) :
    Option (List α × List α) :=
  let length := (ends.endOffset + SIZE_MOD - ends.startOffset % SIZE_MOD) % SIZE_MOD
  match subspan refs.1 ends.startOffset length, subspan refs.2 ends.startOffset length with
  | some a, some b => some (a, b)
  | _, _ => none

/-- A window with the three 3-mers that the reference k-mer ids 1, 2, 3 of `chainGraph`
stand for. -/
def chainWindow : RefWindow := ⟨['A', 'C', 'G', 'A', 'C'], 100⟩

/-- The test of `RemoveLowCovNodes` on the counts of a node (line 202): the node is a
singleton in both samples, or its minimum base coverage is at most `minReqCov`. -/
def lowCovData (E : Env) (p : CliParams) (n : Node) : Bool :=
  (decide (n.data.sampleCountNormal = 1) && decide (n.data.sampleCountTumor = 1)) ||
    decide (n.data.minSampleBaseCov ≤ max (toU16 p.minNodeCov) (toU16 E.ceilCovRatio))

/-- Every node of `nc2` comes from a node of `nc` with the same key, the same component id
(a mock node may change it) and the same payload. -/
def SameData (nc nc2 : NodeContainer) : Prop :=
  ∀ n2 ∈ nc2, ∃ n ∈ nc, n.id = n2.id ∧ (n2.IsMockNode = false → n.ComponentID = n2.ComponentID) ∧
    n.data = n2.data

/-- Every node of `nc2` comes from a node of `nc` with the same key and the same component id
(a mock node may change it), and with the same payload unless its key is that of a real
node of component `c`. -/
def Frame (c : Nat) (nc nc2 : NodeContainer) : Prop :=
  ∀ n2 ∈ nc2, ∃ n ∈ nc, n.id = n2.id ∧ (n2.IsMockNode = false → n.ComponentID = n2.ComponentID) ∧
    (n.data = n2.data ∨ ∃ s ∈ nc, s.id = n.id ∧ s.IsMockNode = false ∧ s.ComponentID = c)

/-- No real node of a component in `cs` passes the test of `RemoveLowCovNodes`. -/
def Clean (E : Env) (p : CliParams) (cs : List Nat) (nc : NodeContainer) : Prop :=
  ∀ n ∈ nc, n.IsMockNode = false → n.ComponentID ∈ cs → lowCovData E p n = false

/-- The body of the `for` loop of `ProcessGraph` as the spec has it: after source/sink
marking and the initial cycle check the pruning operators run in the order
remove_low_cov_nodes, compress, remove_low_cov_nodes, compress, remove_tips,
remove_short_links, then the cycle check runs again and the paths are enumerated. -/
def specProcessComponent (E : Env) (p : CliParams) (window : RefWindow)
    (refMerIDs : List NodeIdentifier) (kmerSize fuel : Nat) (nc : NodeContainer)
    (results : List Variant) (comp : ComponentInfo) :
    Option (NodeContainer × List Variant × Bool) :=
  match MarkSourceSink p refMerIDs nc comp.ID with
  | none => none
  | some (nc1, markResult) =>
    if !markResult.foundSrcAndSnk then some (nc1, results, false)
    else
      match HasCycle nc1 with
      | none => none
      | some true => some (nc1, results, true)
      | some false =>
        match applyPruneOps E p kmerSize (specPruneOrder comp.ID) nc1 with
        | none => none
        | some nc6 =>
          match HasCycle nc6 with
          | none => none
          | some true => some (nc6, results, true)
          | some false =>
            match enumeratePaths E p window kmerSize fuel nc6 markResult results with
            | none => none
            | some (results1, stop) => some (nc6, results1, stop)

/-- The loop over the components with the loop body of the spec. -/
def specComponentsLoop (E : Env) (p : CliParams) (window : RefWindow)
    (refMerIDs : List NodeIdentifier) (kmerSize fuel : Nat) :
    List ComponentInfo → NodeContainer → List Variant →
    Option (NodeContainer × List Variant × Bool)
  | [], nc, results => some (nc, results, false)
  | comp :: comps, nc, results =>
    match specProcessComponent E p window refMerIDs kmerSize fuel nc results comp with
    | none => none
    | some (nc1, results1, true) => some (nc1, results1, true)
    | some (nc1, results1, false) =>
      specComponentsLoop E p window refMerIDs kmerSize fuel comps nc1 results1

/-- The pipeline of `ProcessGraph` with the pruning order of the spec in every component. -/
def specProcessGraph (E : Env) (p : CliParams) (window : RefWindow)
    (refMerIDs : List NodeIdentifier) (kmerSize fuel : Nat) (nc : NodeContainer)
    (results : List Variant) : Option (NodeContainer × List Variant × Bool) :=
  let nc1 := (RemoveLowCovNodes E p nc 0).1
  match MarkConnectedComponents nc1 with
  | none => none
  | some (nc2, componentsInfo) =>
    specComponentsLoop E p window refMerIDs kmerSize fuel componentsInfo nc2 results
/-- A node map before `ProcessGraph` runs (no component id assigned): the chain
`1 - 2 - 3 - 4` whose last node has minimum base coverage 1. -/
def unmarkedGraph : NodeContainer :=
  [ ⟨MOCK_SOURCE_ID, 0, [], examplePayload⟩, ⟨MOCK_SINK_ID, 0, [], examplePayload⟩,
    ⟨1, 0, [⟨2, .FF⟩], examplePayload⟩,
    ⟨2, 0, [⟨1, .RR⟩, ⟨3, .FF⟩], examplePayload⟩,
    ⟨3, 0, [⟨2, .RR⟩, ⟨4, .FF⟩], examplePayload⟩,
    ⟨4, 0, [⟨3, .RR⟩], ⟨Strand.FWD, ['C', 'G', 'T'], 3, 3, 6, 1⟩⟩ ]

/-- The node map in which `ProcessGraph` leaves `unmarkedGraph`: node 4 is removed for low
coverage, the chain `1 - 2 - 3` is component 3 and is compressed into node 1 between the
mock nodes. -/
def unmarkedFinal : NodeContainer :=
  [ ⟨MOCK_SOURCE_ID, 3, [⟨1, .FF⟩], examplePayload⟩, ⟨MOCK_SINK_ID, 3, [⟨1, .RR⟩], examplePayload⟩,
    ⟨1, 3, [⟨MOCK_SOURCE_ID, .RR⟩, ⟨MOCK_SINK_ID, .FF⟩], examplePayload⟩ ]

/-! # Theorems -/

theorem findNode_some {nc : NodeContainer} {x : NodeIdentifier} {n : Node}
    (h : findNode nc x = some n) : n ∈ nc ∧ n.id = x := by
  unfold findNode at h
  refine ⟨List.mem_of_find?_eq_some h, ?_⟩
  have := List.find?_some h
  simpa using this

theorem findNode_none {nc : NodeContainer} {x : NodeIdentifier}
    (h : findNode nc x = none) : ∀ n ∈ nc, n.id ≠ x := by
  unfold findNode at h
  intro n hn
  have := List.find?_eq_none.mp h n hn
  simpa using this

theorem findNode_of_mem {nc : NodeContainer} (hu : UniqueKeys nc) {n : Node} (hn : n ∈ nc) :
    findNode nc n.id = some n := by
  induction nc with
  | nil => cases hn
  | cons a l ih =>
    unfold UniqueKeys at hu
    simp only [List.map_cons, List.nodup_cons] at hu
    rcases List.mem_cons.mp hn with h | h
    · subst h; simp [findNode]
    · have hne : a.id ≠ n.id := by
        intro he
        exact hu.1 (he ▸ List.mem_map_of_mem (fun n => n.id) h)
      have := ih hu.2 h
      unfold findNode at this ⊢
      rw [List.find?_cons, this]
      have hb : (a.id == n.id) = false := by simpa using hne
      rw [hb]

theorem findNode_assignComp (G : NodeContainer) (f : NodeIdentifier → Nat) (x : NodeIdentifier) :
    findNode (assignComp G f) x = (findNode G x).map (fun n => { n with ComponentID := f n.id }) := by
  unfold findNode assignComp
  rw [List.find?_map]
  rfl

theorem updateNode_assignComp (G : NodeContainer) (f : NodeIdentifier → Nat) (id : NodeIdentifier)
    (c : Nat) :
    updateNode (assignComp G f) id (fun n => { n with ComponentID := c })
      = assignComp G (Function.update f id c) := by
  unfold updateNode assignComp
  rw [List.map_map]
  apply List.map_congr_left
  intro n _
  by_cases h : n.id = id
  · subst h; simp
  · simp [h, Function.update]

theorem sum_map_drop {α : Type} (g g2 : α → Nat) (k : Nat) (x : α) :
    ∀ l : List α, x ∈ l → (∀ a ∈ l, g2 a ≤ g a) → g2 x + k ≤ g x →
      (l.map g2).sum + k ≤ (l.map g).sum := by
  intro l
  induction l with
  | nil => intro h; cases h
  | cons a l ih =>
    intro hx hle hk
    simp only [List.map_cons, List.sum_cons]
    have hrest : (l.map g2).sum ≤ (l.map g).sum := by
      apply List.sum_le_sum
      intro b hb
      exact hle b (List.mem_cons_of_mem _ hb)
    rcases List.mem_cons.mp hx with h | h
    · subst h; omega
    · have := ih h (fun b hb => hle b (List.mem_cons_of_mem _ hb)) hk
      have := hle a (List.mem_cons_self _ _)
      omega

theorem unassignedWork_update (G : NodeContainer) (f : NodeIdentifier → Nat) (n0 : Node)
    (hn : n0 ∈ G) (h0 : f n0.id = 0) (c : Nat) (hc : c ≠ 0) :
    unassignedWork G (Function.update f n0.id c) + (n0.edges.length + 2) ≤ unassignedWork G f := by
  unfold unassignedWork
  apply sum_map_drop _ _ _ n0 G hn
  · intro a _
    by_cases h : a.id = n0.id
    · rw [h]; simp [hc, h0]
    · simp [Function.update, h]
  · simp [hc, h0]

theorem bfsComponent_spec (G : NodeContainer) (hu : UniqueKeys G) (hs : EdgeSymmetric G)
    (c : Nat) (hc : c ≠ 0) :
    ∀ (fuel : Nat) (f : NodeIdentifier → Nat) (queue : List NodeIdentifier) (num : Nat),
      CompInv G c f queue → queue.length + unassignedWork G f ≤ fuel →
      ∃ f2 num2, bfsComponent c fuel (assignComp G f) queue num = some (assignComp G f2, num2) ∧
        CompInv G c f2 [] ∧ (∀ x, f x ≠ 0 → f2 x = f x) ∧
        (∀ x ∈ queue, (∃ n ∈ G, n.id = x) → f2 x ≠ 0) := by
  intro fuel
  induction fuel with
  | zero =>
    intro f queue num hinv hfuel
    have hq : queue = [] := by
      cases queue with
      | nil => rfl
      | cons a l => simp at hfuel
    subst hq
    exact ⟨f, num, by simp [bfsComponent], hinv, fun _ _ => rfl, by simp⟩
  | succ fuel ih =>
    intro f queue num hinv hfuel
    cases queue with
    | nil => exact ⟨f, num, by simp [bfsComponent], hinv, fun _ _ => rfl, by simp⟩
    | cons id rest =>
      simp only [List.length_cons] at hfuel
      rw [bfsComponent, findNode_assignComp]
      cases hfind : findNode G id with
      | none =>
        have habs := findNode_none hfind
        simp only [Option.map_none']
        have hinv2 : CompInv G c f rest := by
          intro u hu1 hfu e he v hv hve
          rcases hinv u hu1 hfu e he v hv hve with h | ⟨h1, h2, h3⟩
          · exact Or.inl h
          · rcases List.mem_cons.mp h3 with h4 | h4
            · exact absurd h4 (habs v hv)
            · exact Or.inr ⟨h1, h2, h4⟩
        obtain ⟨f2, num2, h1, h2, h3, h4⟩ := ih f rest num hinv2 (by omega)
        refine ⟨f2, num2, h1, h2, h3, ?_⟩
        intro x hx hex
        rcases List.mem_cons.mp hx with h | h
        · obtain ⟨n, hn, hnx⟩ := hex
          exact absurd (hnx.trans h) (habs n hn)
        · exact h4 x h hex
      | some n0 =>
        obtain ⟨hn0, hid⟩ := findNode_some hfind
        simp only [Option.map_some']
        by_cases hass : f n0.id = 0
        · -- the node is unassigned: assign it and push its neighbours
          simp only [hass, ne_eq, not_true_eq_false, if_false]
          rw [← hid, updateNode_assignComp]
          set pushed := (List.filter (fun e => (findNode (assignComp G f) e.destId).isSome)
            n0.edges).map (fun e => e.destId) with hpushed
          have hplen : pushed.length ≤ n0.edges.length := by
            rw [hpushed, List.length_map]; exact List.length_filter_le _ _
          have hpmem : ∀ e ∈ n0.edges, ∀ v ∈ G, v.id = e.destId → v.id ∈ pushed := by
            intro e he v hv hve
            rw [hpushed, List.mem_map]
            refine ⟨e, ?_, hve.symm⟩
            rw [List.mem_filter]
            refine ⟨he, ?_⟩
            rw [findNode_assignComp]
            cases hf : findNode G e.destId with
            | none => exact absurd hve (findNode_none hf v hv)
            | some w => simp
          have hinv2 : CompInv G c (Function.update f n0.id c) (rest ++ pushed) := by
            intro u hu1 hfu e he v hv hve
            by_cases huid : u.id = n0.id
            · have hun : u = n0 := by
                have h1 := findNode_of_mem hu hu1
                rw [huid, hid, hfind] at h1
                exact (Option.some.inj h1).symm
              subst hun
              by_cases hfv : f v.id = 0
              · by_cases hvid : v.id = u.id
                · left; rw [hvid]
                · right
                  refine ⟨by simp [Function.update], by simp [Function.update, hvid, hfv], ?_⟩
                  exact List.mem_append_right _ (hpmem e he v hv hve)
              · have hvid : v.id ≠ u.id := fun h => hfv (h ▸ hass)
                have hback := hs u hu1 e he v hv hve
                rcases hinv v hv hfv _ hback u hu1 rfl with h | ⟨h1, _, _⟩
                · exact absurd (h ▸ hass) hfv
                · left; simp [Function.update, hvid, h1]
            · have hfu2 : f u.id ≠ 0 := by simpa [Function.update, huid] using hfu
              rcases hinv u hu1 hfu2 e he v hv hve with h | ⟨h1, h2, h3⟩
              · have hvid : v.id ≠ n0.id := fun hh => hfu2 (by rw [← h, hh, hass])
                left; simp [Function.update, hvid, huid, h]
              · by_cases hvid : v.id = n0.id
                · left; simp [Function.update, hvid, huid, h1]
                · right
                  refine ⟨by simp [Function.update, huid, h1],
                    by simp [Function.update, hvid, h2], ?_⟩
                  rcases List.mem_cons.mp h3 with h4 | h4
                  · exact absurd (h4.trans hid.symm) hvid
                  · exact List.mem_append_left _ h4
          have hwork := unassignedWork_update G f n0 hn0 hass c hc
          obtain ⟨f2, num2, h1, h2, h3, h4⟩ :=
            ih (Function.update f n0.id c) (rest ++ pushed) (num + 1) hinv2
              (by rw [List.length_append]; omega)
          refine ⟨f2, num2, h1, h2, ?_, ?_⟩
          · intro x hx
            have hxne : x ≠ n0.id := fun h => hx (h ▸ hass)
            rw [h3 x (by simpa [Function.update, hxne] using hx)]
            simp [Function.update, hxne]
          · intro x hx hex
            rcases List.mem_cons.mp hx with h | h
            · have : f2 x = c := by
                rw [h3 x (by simp [Function.update, h, hid, hc])]
                simp [Function.update, h, hid]
              rw [this]; exact hc
            · exact h4 x (List.mem_append_left _ h) hex
        · -- the node already has a component: it is dropped from the queue
          simp only [ne_eq, hass, not_false_eq_true, if_true]
          have hinv2 : CompInv G c f rest := by
            intro u hu1 hfu e he v hv hve
            rcases hinv u hu1 hfu e he v hv hve with h | ⟨h1, h2, h3⟩
            · exact Or.inl h
            · rcases List.mem_cons.mp h3 with h4 | h4
              · exact absurd (by rw [hid, ← h4]; exact h2) hass
              · exact Or.inr ⟨h1, h2, h4⟩
          obtain ⟨f2, num2, h1, h2, h3, h4⟩ := ih f rest num hinv2 (by omega)
          refine ⟨f2, num2, h1, h2, h3, ?_⟩
          intro x hx hex
          rcases List.mem_cons.mp hx with h | h
          · rw [h3 x (by rw [h, ← hid]; exact hass), h, ← hid]; exact hass
          · exact h4 x h hex

theorem bfsFuel_assignComp (G : NodeContainer) (f : NodeIdentifier → Nat) :
    bfsFuel (assignComp G f) = bfsFuel G := by
  unfold bfsFuel assignComp
  rw [List.map_map]
  rfl

theorem unassignedWork_lt_bfsFuel (G : NodeContainer) (f : NodeIdentifier → Nat) :
    unassignedWork G f + 1 ≤ bfsFuel G := by
  unfold unassignedWork bfsFuel
  have : (G.map (fun n => if f n.id = 0 then n.edges.length + 2 else 0)).sum
      ≤ (G.map (fun n => n.edges.length + 2)).sum := by
    apply List.sum_le_sum
    intro n _
    split <;> omega
  omega

theorem CompInv_start {G : NodeContainer} {c d : Nat} {f : NodeIdentifier → Nat}
    (h : CompInv G c f []) (q : List NodeIdentifier) : CompInv G d f q := by
  intro u hu hfu e he v hv hve
  rcases h u hu hfu e he v hv hve with h1 | ⟨_, _, h3⟩
  · exact Or.inl h1
  · cases h3

theorem markLoop_spec (G : NodeContainer) (hu : UniqueKeys G) (hs : EdgeSymmetric G) :
    ∀ (ids : List NodeIdentifier) (f : NodeIdentifier → Nat) (cur : Nat) (infos : List ComponentInfo),
      CompInv G 0 f [] →
      ∃ f2 infos2, markLoop ids (assignComp G f) cur infos = some (assignComp G f2, infos2) ∧
        CompInv G 0 f2 [] ∧ (∀ x, f x ≠ 0 → f2 x = f x) ∧
        (∀ x ∈ ids, (∃ n ∈ G, n.id = x) → f2 x ≠ 0) := by
  intro ids
  induction ids with
  | nil =>
    intro f cur infos hinv
    exact ⟨f, infos, by simp [markLoop], hinv, fun _ _ => rfl, by simp⟩
  | cons id ids ih =>
    intro f cur infos hinv
    rw [markLoop, findNode_assignComp]
    cases hfind : findNode G id with
    | none =>
      simp only [Option.map_none']
      obtain ⟨f2, infos2, h1, h2, h3, h4⟩ := ih f cur infos hinv
      refine ⟨f2, infos2, h1, h2, h3, ?_⟩
      intro x hx hex
      rcases List.mem_cons.mp hx with h | h
      · obtain ⟨n, hn, hnx⟩ := hex
        exact absurd (hnx.trans h) (findNode_none hfind n hn)
      · exact h4 x h hex
    | some n0 =>
      obtain ⟨hn0, hid⟩ := findNode_some hfind
      simp only [Option.map_some']
      by_cases hass : f n0.id = 0
      · simp only [hass, ne_eq, not_true_eq_false, if_false]
        obtain ⟨f1, num1, hb1, hb2, hb3, hb4⟩ :=
          bfsComponent_spec G hu hs (cur + 1) (Nat.succ_ne_zero cur) (bfsFuel (assignComp G f)) f
            [id] 0 (CompInv_start hinv _)
            (by rw [bfsFuel_assignComp]; have := unassignedWork_lt_bfsFuel G f
                simp only [List.length_singleton]; omega)
        rw [hb1]
        obtain ⟨f2, infos2, h1, h2, h3, h4⟩ :=
          ih f1 (cur + 1) (infos ++ [⟨cur + 1, num1⟩]) (CompInv_start hb2 _)
        refine ⟨f2, infos2, h1, h2, ?_, ?_⟩
        · intro x hx
          rw [h3 x (by rw [hb3 x hx]; exact hx), hb3 x hx]
        · intro x hx hex
          rcases List.mem_cons.mp hx with h | h
          · have h5 := hb4 id (List.mem_singleton_self id) ⟨n0, hn0, hid⟩
            rw [h, h3 id h5]; exact h5
          · exact h4 x h hex
      · simp only [ne_eq, hass, not_false_eq_true, if_true]
        obtain ⟨f2, infos2, h1, h2, h3, h4⟩ := ih f cur infos hinv
        refine ⟨f2, infos2, h1, h2, h3, ?_⟩
        intro x hx hex
        rcases List.mem_cons.mp hx with h | h
        · rw [h3 x (by rw [h, ← hid]; exact hass), h, ← hid]; exact hass
        · exact h4 x h hex

/-- C5. Component partition: on an edge-symmetric graph whose nodes all start with component
id 0, `MarkConnectedComponents` returns; it changes nothing but component ids; afterwards
every real node has a nonzero component id, and two real nodes joined by a path of edges
over real nodes have the same component id. -/
theorem MarkConnectedComponents_partition (nc : NodeContainer) (hu : UniqueKeys nc)
    (hs : EdgeSymmetric nc) (h0 : ∀ n ∈ nc, n.ComponentID = 0) :
    ∃ nc2 infos, MarkConnectedComponents nc = some (nc2, infos) ∧
      nc2.map (fun n => (n.id, n.edges, n.data)) = nc.map (fun n => (n.id, n.edges, n.data)) ∧
      (∀ n ∈ nc2, n.IsMockNode = false → n.ComponentID ≠ 0) ∧
      (∀ u v, Relation.ReflTransGen (realEdge nc2) u v → u.ComponentID = v.ComponentID) := by
  have hstart : assignComp nc (fun _ => 0) = nc := by
    unfold assignComp
    conv_rhs => rw [← List.map_id nc]
    apply List.map_congr_left
    intro n hn
    have := h0 n hn
    cases n
    simp_all
  have hinv : CompInv nc 0 (fun _ => 0) [] := by
    intro u _ hfu
    exact absurd rfl hfu
  obtain ⟨f2, infos2, h1, h2, _, h4⟩ :=
    markLoop_spec nc hu hs (nc.map (fun n => n.id)) (fun _ => 0) 0 [] hinv
  rw [hstart] at h1
  have hmem : ∀ n ∈ assignComp nc f2, ∃ m ∈ nc, n = { m with ComponentID := f2 m.id } := by
    intro n hn
    unfold assignComp at hn
    obtain ⟨m, hm, hmn⟩ := List.mem_map.mp hn
    exact ⟨m, hm, hmn.symm⟩
  refine ⟨assignComp nc f2, infos2, h1, ?_, ?_, ?_⟩
  · unfold assignComp
    rw [List.map_map]
    rfl
  · intro n hn _
    obtain ⟨m, hm, rfl⟩ := hmem n hn
    exact h4 m.id (List.mem_map_of_mem (fun n => n.id) hm) ⟨m, hm, rfl⟩
  · intro u v huv
    induction huv with
    | refl => rfl
    | tail _ hstep ih =>
      rw [ih]
      obtain ⟨hb, hc, _, _, e, he, hev⟩ := hstep
      obtain ⟨mb, hmb, rfl⟩ := hmem _ hb
      obtain ⟨mc, hmc, rfl⟩ := hmem _ hc
      have hfb := h4 mb.id (List.mem_map_of_mem (fun n => n.id) hmb) ⟨mb, hmb, rfl⟩
      rcases h2 mb hmb hfb e he mc hmc hev.symm with h | ⟨_, _, h⟩
      · exact h.symm
      · cases h

theorem MarkConnectedComponents_partition_witness :
    UniqueKeys twoChainsGraph ∧ EdgeSymmetric twoChainsGraph ∧
    (∀ n ∈ twoChainsGraph, n.ComponentID = 0) ∧
    ∃ nc2 infos, MarkConnectedComponents twoChainsGraph = some (nc2, infos) ∧
      nc2.map (fun n => (n.id, n.edges, n.data))
        = twoChainsGraph.map (fun n => (n.id, n.edges, n.data)) ∧
      (∀ n ∈ nc2, n.IsMockNode = false → n.ComponentID ≠ 0) ∧
      (∀ u v, Relation.ReflTransGen (realEdge nc2) u v → u.ComponentID = v.ComponentID) :=
  ⟨by decide, by decide, by decide,
    MarkConnectedComponents_partition twoChainsGraph (by decide) (by decide) (by decide)⟩

/-- C2 (code defect). The alignment of ref `ACGTACGT` with path `ACGATCGT` (two adjacent
mismatches, no gap) gives one transcript with ref range [3, 5) and alt range [3, 5), but
its REF bases are `TAT` instead of `TA` and its ALT bases are `A` instead of `AT`: the
extension step appends the path base to the REF bases. -/
theorem walkAlignment_extension_appends_alt_to_ref :
    walkAlignment ⟨['A', 'C', 'G', 'T', 'A', 'C', 'G', 'T'], ['A', 'C', 'G', 'A', 'T', 'C', 'G', 'T']⟩ 100
      = some [⟨104, TranscriptCode.COMPLEX, 3, 3, 5, 5, ['T', 'A', 'T'], ['A'], 'G', 'G'⟩] ∧
    substr ['A', 'C', 'G', 'T', 'A', 'C', 'G', 'T'] 3 (5 - 3) = ['T', 'A'] ∧
    substr ['A', 'C', 'G', 'A', 'T', 'C', 'G', 'T'] 3 (5 - 3) = ['A', 'T'] := by
  refine ⟨by decide, by decide, by decide⟩

/-- C3 (code defect). In `branchCycleGraph` the walk mock source -> 1 -> 3 -> 3 is
strand-consistent, avoids the mock nodes and comes back to node 3, yet `HasCycle` answers
false: at node 1 the search returns the result of the first traversable edge (to the dead
end 2) and never tries the edge to node 3. -/
theorem HasCycle_misses_cycle_behind_second_edge :
    UniqueKeys branchCycleGraph ∧ EdgeSymmetric branchCycleGraph ∧
    isStrandWalk branchCycleGraph MOCK_SOURCE_ID Strand.FWD [⟨1, .FF⟩, ⟨3, .FF⟩, ⟨3, .FF⟩] = true ∧
    HasCycle branchCycleGraph = some false := by
  refine ⟨by decide, by decide, by decide, by decide⟩

/-- C4 (code defect). `hairpinGraph` is edge-symmetric, and `CompressGraph` merges node 2
into node 1 across their strand-switching edge; the hairpin edge of node 2 becomes the
edge `1 --FF--> 1` without its reverse `1 --RR--> 1`, so the result is not edge-symmetric. -/
theorem CompressGraph_breaks_symmetry_at_hairpin :
    UniqueKeys hairpinGraph ∧ EdgeSymmetric hairpinGraph ∧
    CompressGraph exampleEnv 3 hairpinGraph 1 = some (hairpinCompressed, true) ∧
    ¬ EdgeSymmetric hairpinCompressed := by
  refine ⟨by decide, by decide, by decide, by decide⟩

/-- C10 (code defect). For ref `-ACG` and qry `TACG` the gap-free columns are 1 to 3, but
`TrimEndGaps` keeps columns 1 and 2 only; for ref `-A-G` the last column it keeps has a gap. -/
theorem TrimEndGaps_drops_last_gap_free_column :
    TrimEndGaps ⟨['-', 'A', 'C', 'G'], ['T', 'A', 'C', 'G']⟩
      = some (⟨['A', 'C'], ['A', 'C']⟩, 1) ∧
    TrimEndGaps ⟨['-', 'A', '-', 'G'], ['T', 'A', 'C', 'G']⟩
      = some (⟨['A', '-'], ['A', 'C']⟩, 1) := by
  refine ⟨by decide, by decide⟩

theorem findNode_map (nc : NodeContainer) (g : Node → Node) (hg : ∀ n, (g n).id = n.id)
    (x : NodeIdentifier) : findNode (nc.map g) x = (findNode nc x).map g := by
  unfold findNode
  rw [List.find?_map]
  congr 1
  apply congrArg (fun q => List.find? q nc)
  funext n
  simp [hg n]

theorem foldl_eraseEdgesTo (t : NodeIdentifier) :
    ∀ (es : List Edge) (nc : NodeContainer),
      es.foldl (fun acc e => updateNode acc e.destId (fun nb => nb.EraseEdgesTo t)) nc
        = nc.map (fun n => if n.id ∈ es.map (fun e => e.destId) then n.EraseEdgesTo t else n) := by
  intro es
  induction es with
  | nil => intro nc; simp
  | cons e es ih =>
    intro nc
    rw [List.foldl_cons, ih]
    unfold updateNode
    rw [List.map_map]
    apply List.map_congr_left
    intro n _
    simp only [Function.comp_apply]
    have hid : (n.EraseEdgesTo t).id = n.id := rfl
    have hidem : (n.EraseEdgesTo t).EraseEdgesTo t = n.EraseEdgesTo t := by
      simp [Node.EraseEdgesTo, List.filter_filter]
    have hmem : n.id ∈ (e :: es).map (fun e => e.destId) ↔
        n.id = e.destId ∨ n.id ∈ es.map (fun e => e.destId) := by
      rw [List.map_cons, List.mem_cons]
    by_cases h1 : n.id = e.destId
    · have hl : (if n.id = e.destId then n.EraseEdgesTo t else n) = n.EraseEdgesTo t := if_pos h1
      rw [hl, hid, if_pos (hmem.mpr (Or.inl h1))]
      by_cases h2 : n.id ∈ es.map (fun e => e.destId)
      · rw [if_pos h2, hidem]
      · rw [if_neg h2]
    · have hl : (if n.id = e.destId then n.EraseEdgesTo t else n) = n := if_neg h1
      rw [hl]
      by_cases h2 : n.id ∈ es.map (fun e => e.destId)
      · rw [if_pos h2, if_pos (hmem.mpr (Or.inr h2))]
      · rw [if_neg h2, if_neg (fun h => (hmem.mp h).elim h1 h2)]

theorem updateNode_eq_map (nc : NodeContainer) (id : NodeIdentifier) (f : Node → Node) :
    updateNode nc id f = nc.map (upd id f) := rfl

theorem DisconnectEdgesTo_eq_map {nc : NodeContainer} {id : NodeIdentifier} {v : Node}
    (h : findNode nc id = some v) :
    DisconnectEdgesTo nc id = nc.map (disc (v.edges.map (fun e => e.destId)) id) := by
  unfold DisconnectEdgesTo
  rw [h]
  simp only
  rw [foldl_eraseEdgesTo, (findNode_some h).2]
  rfl

theorem upd_id (id : NodeIdentifier) (f : Node → Node) (n : Node)
    (hf : ∀ m, (f m).id = m.id) : (upd id f n).id = n.id := by
  unfold upd; split
  · exact hf n
  · rfl

theorem upd_data (id : NodeIdentifier) (f : Node → Node) (n : Node)
    (hf : ∀ m, (f m).data = m.data) : (upd id f n).data = n.data := by
  unfold upd; split
  · exact hf n
  · rfl

theorem disc_id (D : List NodeIdentifier) (t : NodeIdentifier) (n : Node) :
    (disc D t n).id = n.id := by
  unfold disc; split <;> rfl

theorem disc_data (D : List NodeIdentifier) (t : NodeIdentifier) (n : Node) :
    (disc D t n).data = n.data := by
  unfold disc; split <;> rfl

theorem EmplaceEdge_id (d : NodeIdentifier) (k : EdgeKind) (m : Node) :
    (m.EmplaceEdge d k).id = m.id := by
  unfold Node.EmplaceEdge; split <;> rfl

theorem EmplaceEdge_data (d : NodeIdentifier) (k : EdgeKind) (m : Node) :
    (m.EmplaceEdge d k).data = m.data := by
  unfold Node.EmplaceEdge; split <;> rfl

theorem EmplaceEdge_comp (d : NodeIdentifier) (k : EdgeKind) (m : Node) :
    (m.EmplaceEdge d k).ComponentID = m.ComponentID := by
  unfold Node.EmplaceEdge; split <;> rfl

theorem clearEdges_id (m : Node) : m.ClearEdges.id = m.id := rfl

theorem clearEdges_data (m : Node) : m.ClearEdges.data = m.data := rfl

theorem setComp_id (c : Nat) (m : Node) : ({ m with ComponentID := c } : Node).id = m.id := rfl

theorem setComp_data (c : Nat) (m : Node) : ({ m with ComponentID := c } : Node).data = m.data :=
  rfl

theorem markNodeA_id (comp : Nat) (D1 D2 : List NodeIdentifier) (n : Node) :
    (markNodeA comp D1 D2 n).id = n.id := by
  unfold markNodeA
  rw [upd_id _ _ _ clearEdges_id, disc_id, upd_id _ _ _ (setComp_id comp),
    upd_id _ _ _ clearEdges_id, disc_id, upd_id _ _ _ (setComp_id comp)]

theorem markNodeA_data (comp : Nat) (D1 D2 : List NodeIdentifier) (n : Node) :
    (markNodeA comp D1 D2 n).data = n.data := by
  unfold markNodeA
  rw [upd_data _ _ _ clearEdges_data, disc_data, upd_data _ _ _ (setComp_data comp),
    upd_data _ _ _ clearEdges_data, disc_data, upd_data _ _ _ (setComp_data comp)]

theorem markNodeB_id (srcId snkId : NodeIdentifier) (k1 k2 : EdgeKind) (n : Node) :
    (markNodeB srcId snkId k1 k2 n).id = n.id := by
  unfold markNodeB
  rw [upd_id _ _ _ (EmplaceEdge_id _ _), upd_id _ _ _ (EmplaceEdge_id _ _),
    upd_id _ _ _ (EmplaceEdge_id _ _), upd_id _ _ _ (EmplaceEdge_id _ _)]

theorem markNodeB_data (srcId snkId : NodeIdentifier) (k1 k2 : EdgeKind) (n : Node) :
    (markNodeB srcId snkId k1 k2 n).data = n.data := by
  unfold markNodeB
  rw [upd_data _ _ _ (EmplaceEdge_data _ _), upd_data _ _ _ (EmplaceEdge_data _ _),
    upd_data _ _ _ (EmplaceEdge_data _ _), upd_data _ _ _ (EmplaceEdge_data _ _)]

theorem findNode_updateNode (nc : NodeContainer) (id : NodeIdentifier) (f : Node → Node)
    (hf : ∀ m, (f m).id = m.id) (x : NodeIdentifier) :
    findNode (updateNode nc id f) x = (findNode nc x).map (upd id f) := by
  rw [updateNode_eq_map]
  exact findNode_map nc _ (fun n => upd_id id f n hf) x

theorem MarkSourceSink_found_eq {p : CliParams} {refMerIDs : List NodeIdentifier}
    {nc nc2 : NodeContainer} {comp : Nat} {res : SrcSnkResult}
    (h : MarkSourceSink p refMerIDs nc comp = some (nc2, res))
    (hf : res.foundSrcAndSnk = true) :
    (FindRefEnd p nc GraphEnd.SOURCE comp refMerIDs).foundEnd = true ∧
    (FindRefEnd p nc GraphEnd.SINK comp refMerIDs.reverse).foundEnd = true ∧
    (FindRefEnd p nc GraphEnd.SOURCE comp refMerIDs).nodeId
      ≠ (FindRefEnd p nc GraphEnd.SINK comp refMerIDs.reverse).nodeId ∧
    ∃ D1 D2 dataSrc dataSnk,
      findNode nc (FindRefEnd p nc GraphEnd.SOURCE comp refMerIDs).nodeId = some dataSrc ∧
      findNode nc (FindRefEnd p nc GraphEnd.SINK comp refMerIDs.reverse).nodeId = some dataSnk ∧
      (findNode nc MOCK_SOURCE_ID).isSome = true ∧ (findNode nc MOCK_SINK_ID).isSome = true ∧
      nc2 = nc.map (fun n => markNodeB dataSrc.id dataSnk.id
        (MakeEdgeKind Strand.FWD dataSrc.Orientation) (sinkKind dataSnk.Orientation)
        (markNodeA comp D1 D2 n)) ∧
      res = ⟨true, (FindRefEnd p nc GraphEnd.SOURCE comp refMerIDs).refMerIdx,
        (FindRefEnd p nc GraphEnd.SINK comp refMerIDs.reverse).refMerIdx + dataSnk.Length⟩ := by
  unfold MarkSourceSink at h
  simp only at h
  generalize FindRefEnd p nc GraphEnd.SOURCE comp refMerIDs = srcR at h ⊢
  generalize FindRefEnd p nc GraphEnd.SINK comp refMerIDs.reverse = snkR at h ⊢
  by_cases h1 : srcR.foundEnd = true
  swap
  · simp only [h1, Bool.not_false, if_true, Option.some.injEq, Prod.mk.injEq] at h
    rw [← h.2] at hf; cases hf
  by_cases h2 : snkR.foundEnd = true
  swap
  · simp [h1, h2] at h
    rw [← h.2] at hf; cases hf
  by_cases h3 : srcR.nodeId = snkR.nodeId
  · simp [h1, h2, h3] at h
    rw [← h.2] at hf; cases hf
  refine ⟨h1, h2, h3, ?_⟩
  simp only [h1, h2, Bool.not_true, Bool.false_or, beq_iff_eq, h3, if_false] at h
  cases hs : findNode nc MOCK_SOURCE_ID with
  | none => rw [hs] at h; cases h
  | some s =>
    rw [hs] at h
    simp only [Bool.false_eq_true, if_false] at h
    have e1 : findNode (updateNode nc MOCK_SOURCE_ID (fun n => { n with ComponentID := comp }))
        MOCK_SOURCE_ID = some (upd MOCK_SOURCE_ID (fun n => { n with ComponentID := comp }) s) := by
      rw [findNode_updateNode _ _ _ (setComp_id comp), hs]; rfl
    rw [DisconnectEdgesTo_eq_map e1] at h
    generalize (List.map (fun e => e.destId)
      (upd MOCK_SOURCE_ID (fun n => { n with ComponentID := comp }) s).edges) = D1 at h
    simp only [updateNode_eq_map, List.map_map] at h
    have hA3 : ∀ m, ((upd MOCK_SOURCE_ID Node.ClearEdges ∘ disc D1 MOCK_SOURCE_ID ∘
        upd MOCK_SOURCE_ID fun n => { n with ComponentID := comp }) m).id = m.id := by
      intro m
      simp only [Function.comp_apply]
      rw [upd_id _ _ _ clearEdges_id, disc_id, upd_id _ _ _ (setComp_id comp)]
    rw [findNode_map _ _ hA3] at h
    cases ht : findNode nc MOCK_SINK_ID with
    | none => rw [ht] at h; cases h
    | some t =>
      rw [ht] at h
      simp only [Option.map_some'] at h
      have hA4 : ∀ m, (((upd MOCK_SINK_ID fun n => { n with ComponentID := comp }) ∘
          upd MOCK_SOURCE_ID Node.ClearEdges ∘ disc D1 MOCK_SOURCE_ID ∘
          upd MOCK_SOURCE_ID fun n => { n with ComponentID := comp }) m).id = m.id := by
        intro m
        simp only [Function.comp_apply]
        rw [upd_id _ _ _ (setComp_id comp), upd_id _ _ _ clearEdges_id, disc_id,
          upd_id _ _ _ (setComp_id comp)]
      have e2 := findNode_map nc _ hA4 MOCK_SINK_ID
      rw [ht, Option.map_some'] at e2
      rw [DisconnectEdgesTo_eq_map e2] at h
      generalize (List.map (fun e => e.destId)
        (((upd MOCK_SINK_ID fun n => { n with ComponentID := comp }) ∘
          upd MOCK_SOURCE_ID Node.ClearEdges ∘ disc D1 MOCK_SOURCE_ID ∘
          upd MOCK_SOURCE_ID fun n => { n with ComponentID := comp }) t).edges) = D2 at h
      simp only [List.map_map] at h
      have hG : (upd MOCK_SINK_ID Node.ClearEdges ∘ disc D2 MOCK_SINK_ID ∘
          (upd MOCK_SINK_ID fun n => { n with ComponentID := comp }) ∘
          upd MOCK_SOURCE_ID Node.ClearEdges ∘ disc D1 MOCK_SOURCE_ID ∘
          upd MOCK_SOURCE_ID fun n => { n with ComponentID := comp }) = markNodeA comp D1 D2 := rfl
      rw [hG] at h
      rw [findNode_map _ _ (markNodeA_id comp D1 D2), findNode_map _ _ (markNodeA_id comp D1 D2)] at h
      cases hds : findNode nc srcR.nodeId with
      | none => rw [hds] at h; simp at h
      | some dataSrc =>
        cases hdk : findNode nc snkR.nodeId with
        | none => rw [hds, hdk] at h; simp at h
        | some dataSnk =>
          rw [hds, hdk] at h
          simp only [Option.map_some', Option.some.injEq, Prod.mk.injEq] at h
          refine ⟨D1, D2, dataSrc, dataSnk, rfl, rfl, rfl, rfl, ?_, ?_⟩
          · rw [← h.1]
            simp only [markNodeA_id, Node.Orientation, markNodeA_data, List.map_map]
            rfl
          · rw [← h.2]
            simp only [Node.Length, markNodeA_data]

theorem mem_EmplaceEdge (m : Node) (d : NodeIdentifier) (k : EdgeKind) :
    (⟨d, k⟩ : Edge) ∈ (m.EmplaceEdge d k).edges := by
  unfold Node.EmplaceEdge
  split
  · assumption
  · simp

theorem mock_ids_ne : MOCK_SOURCE_ID ≠ MOCK_SINK_ID := by decide

theorem markNodeA_source (comp : Nat) (D1 D2 : List NodeIdentifier) (n : Node)
    (h : n.id = MOCK_SOURCE_ID) :
    markNodeA comp D1 D2 n = ⟨n.id, comp, [], n.data⟩ := by
  have hne : ¬ MOCK_SOURCE_ID = MOCK_SINK_ID := mock_ids_ne
  unfold markNodeA upd disc
  simp only [h, hne, if_true, if_false, Node.ClearEdges, Node.EraseEdgesTo]
  split_ifs <;> simp_all

theorem markNodeA_sink (comp : Nat) (D1 D2 : List NodeIdentifier) (n : Node)
    (h : n.id = MOCK_SINK_ID) :
    markNodeA comp D1 D2 n = ⟨n.id, comp, [], n.data⟩ := by
  have hne : ¬ MOCK_SINK_ID = MOCK_SOURCE_ID := mock_ids_ne.symm
  unfold markNodeA upd disc
  simp only [h, hne, if_true, if_false, Node.ClearEdges, Node.EraseEdgesTo]
  split_ifs <;> simp_all

theorem markNode_source {comp : Nat} {D1 D2 : List NodeIdentifier} {srcId snkId : NodeIdentifier}
    {k1 k2 : EdgeKind} {n : Node} (h : n.id = MOCK_SOURCE_ID)
    (h1 : srcId ≠ MOCK_SOURCE_ID) (h2 : snkId ≠ MOCK_SOURCE_ID) :
    markNodeB srcId snkId k1 k2 (markNodeA comp D1 D2 n) = ⟨n.id, comp, [⟨srcId, k1⟩], n.data⟩ := by
  have hne : ¬ MOCK_SOURCE_ID = MOCK_SINK_ID := mock_ids_ne
  rw [markNodeA_source comp D1 D2 n h]
  unfold markNodeB upd
  simp [h, hne, h1.symm, h2.symm, Node.EmplaceEdge]

theorem markNode_sink {comp : Nat} {D1 D2 : List NodeIdentifier} {srcId snkId : NodeIdentifier}
    {k1 k2 : EdgeKind} {n : Node} (h : n.id = MOCK_SINK_ID)
    (h1 : srcId ≠ MOCK_SINK_ID) (h2 : snkId ≠ MOCK_SINK_ID) :
    markNodeB srcId snkId k1 k2 (markNodeA comp D1 D2 n) = ⟨n.id, comp, [⟨snkId, k2⟩], n.data⟩ := by
  have hne : ¬ MOCK_SINK_ID = MOCK_SOURCE_ID := mock_ids_ne.symm
  rw [markNodeA_sink comp D1 D2 n h]
  unfold markNodeB upd
  simp [h, hne, h1.symm, h2.symm, Node.EmplaceEdge]

theorem markNode_dataSrc {comp : Nat} {D1 D2 : List NodeIdentifier} {srcId snkId : NodeIdentifier}
    {k1 k2 : EdgeKind} {n : Node} (h : n.id = srcId)
    (h1 : srcId ≠ MOCK_SOURCE_ID) (h2 : srcId ≠ MOCK_SINK_ID) (h3 : srcId ≠ snkId) :
    (⟨MOCK_SOURCE_ID, ReverseEdgeKind k1⟩ : Edge)
      ∈ (markNodeB srcId snkId k1 k2 (markNodeA comp D1 D2 n)).edges := by
  have hA := markNodeA_id comp D1 D2 n
  generalize markNodeA comp D1 D2 n = m at hA
  rw [h] at hA
  unfold markNodeB upd
  simp only [hA, h1, if_false, if_true, EmplaceEdge_id, h2, h3]
  exact mem_EmplaceEdge _ _ _

theorem markNode_dataSnk {comp : Nat} {D1 D2 : List NodeIdentifier} {srcId snkId : NodeIdentifier}
    {k1 k2 : EdgeKind} {n : Node} (h : n.id = snkId)
    (h1 : snkId ≠ MOCK_SOURCE_ID) (h2 : snkId ≠ MOCK_SINK_ID) (h3 : srcId ≠ snkId) :
    (⟨MOCK_SINK_ID, ReverseEdgeKind k2⟩ : Edge)
      ∈ (markNodeB srcId snkId k1 k2 (markNodeA comp D1 D2 n)).edges := by
  have hA := markNodeA_id comp D1 D2 n
  generalize markNodeA comp D1 D2 n = m at hA
  rw [h] at hA
  have h3b : ¬ snkId = srcId := fun e => h3 e.symm
  unfold markNodeB upd
  simp only [hA, h1, if_false, if_true, EmplaceEdge_id, h2, h3b]
  exact mem_EmplaceEdge _ _ _

theorem findRefEndLoop_spec (nc : NodeContainer) (k : GraphEnd) (comp minEndCov N : Nat) :
    ∀ (hs : List NodeIdentifier) (off : Nat),
      ((findRefEndLoop nc k comp minEndCov N hs off).foundEnd = false ∧
        ∀ h ∈ hs, isAnchor nc comp minEndCov h = false) ∨
      ∃ i h, hs[i]? = some h ∧ isAnchor nc comp minEndCov h = true ∧
        (∀ j h2, j < i → hs[j]? = some h2 → isAnchor nc comp minEndCov h2 = false) ∧
        findRefEndLoop nc k comp minEndCov N hs off
          = ⟨h, if k = GraphEnd.SOURCE then off + i else N - (off + i) - 1, true⟩ := by
  intro hs
  induction hs with
  | nil => intro off; left; simp [findRefEndLoop]
  | cons a hs ih =>
    intro off
    have step : ∀ (hna : isAnchor nc comp minEndCov a = false)
        (heq : findRefEndLoop nc k comp minEndCov N (a :: hs) off
          = findRefEndLoop nc k comp minEndCov N hs (off + 1)),
        ((findRefEndLoop nc k comp minEndCov N (a :: hs) off).foundEnd = false ∧
          ∀ h ∈ a :: hs, isAnchor nc comp minEndCov h = false) ∨
        ∃ i h, (a :: hs)[i]? = some h ∧ isAnchor nc comp minEndCov h = true ∧
          (∀ j h2, j < i → (a :: hs)[j]? = some h2 → isAnchor nc comp minEndCov h2 = false) ∧
          findRefEndLoop nc k comp minEndCov N (a :: hs) off
            = ⟨h, if k = GraphEnd.SOURCE then off + i else N - (off + i) - 1, true⟩ := by
      intro hna heq
      rcases ih (off + 1) with ⟨h1, h2⟩ | ⟨i, h, h1, h2, h3, h4⟩
      · left
        refine ⟨by rw [heq]; exact h1, ?_⟩
        intro h hh
        rcases List.mem_cons.mp hh with e | e
        · rw [e]; exact hna
        · exact h2 h e
      · right
        refine ⟨i + 1, h, by rw [List.getElem?_cons_succ]; exact h1, h2, ?_, ?_⟩
        · intro j h2' hj hget
          cases j with
          | zero =>
            rw [List.getElem?_cons_zero] at hget
            rw [← Option.some.inj hget]; exact hna
          | succ j =>
            rw [List.getElem?_cons_succ] at hget
            exact h3 j h2' (by omega) hget
        · rw [heq, h4]
          have e1 : off + 1 + i = off + (i + 1) := by omega
          rw [e1]
    cases hf : findNode nc a with
    | none =>
      apply step
      · simp [isAnchor, hf]
      · rw [findRefEndLoop, hf]
    | some n =>
      by_cases hc : n.ComponentID ≠ comp ∨ n.data.totalSampleCount < minEndCov
      · apply step
        · rcases hc with hc | hc <;> simp [isAnchor, hf, hc]
        · rw [findRefEndLoop, hf]; simp only [hc, if_true]
      · right
        refine ⟨0, a, List.getElem?_cons_zero, ?_, ?_, ?_⟩
        · simp only [not_or, not_not, not_lt] at hc
          simp [isAnchor, hf, hc.1, hc.2]
        · intro j _ hj; omega
        · rw [findRefEndLoop, hf]
          simp only [hc, if_false, Nat.add_zero]
          rw [(findNode_some hf).2]

theorem findNode_isSome_map (nc : NodeContainer) (g : Node → Node) (hg : ∀ n, (g n).id = n.id)
    (x : NodeIdentifier) : (findNode (nc.map g) x).isSome = (findNode nc x).isSome := by
  rw [findNode_map nc g hg]
  cases findNode nc x <;> rfl

theorem findNode_isSome_updateNode (nc : NodeContainer) (id : NodeIdentifier) (f : Node → Node)
    (hf : ∀ m, (f m).id = m.id) (x : NodeIdentifier) :
    (findNode (updateNode nc id f) x).isSome = (findNode nc x).isSome := by
  rw [findNode_updateNode nc id f hf]
  cases findNode nc x <;> rfl

theorem findNode_isSome_disconnect (nc : NodeContainer) (id x : NodeIdentifier) :
    (findNode (DisconnectEdgesTo nc id) x).isSome = (findNode nc x).isSome := by
  cases h : findNode nc id with
  | none => unfold DisconnectEdgesTo; rw [h]
  | some v =>
    rw [DisconnectEdgesTo_eq_map h]
    exact findNode_isSome_map nc _ (disc_id _ _) x

theorem MarkSourceSink_cases {p : CliParams} {refMerIDs : List NodeIdentifier}
    {nc nc2 : NodeContainer} {comp : Nat} {res : SrcSnkResult}
    (h : MarkSourceSink p refMerIDs nc comp = some (nc2, res)) :
    (res = ⟨false, 0, 0⟩ ∧ nc2 = nc ∧
      ¬ ((FindRefEnd p nc GraphEnd.SOURCE comp refMerIDs).foundEnd = true ∧
        (FindRefEnd p nc GraphEnd.SINK comp refMerIDs.reverse).foundEnd = true ∧
        (FindRefEnd p nc GraphEnd.SOURCE comp refMerIDs).nodeId
          ≠ (FindRefEnd p nc GraphEnd.SINK comp refMerIDs.reverse).nodeId)) ∨
    (res.foundSrcAndSnk = true ∧
      (FindRefEnd p nc GraphEnd.SOURCE comp refMerIDs).foundEnd = true ∧
      (FindRefEnd p nc GraphEnd.SINK comp refMerIDs.reverse).foundEnd = true ∧
      (FindRefEnd p nc GraphEnd.SOURCE comp refMerIDs).nodeId
        ≠ (FindRefEnd p nc GraphEnd.SINK comp refMerIDs.reverse).nodeId) := by
  unfold MarkSourceSink at h
  simp only at h
  generalize FindRefEnd p nc GraphEnd.SOURCE comp refMerIDs = srcR at h ⊢
  generalize FindRefEnd p nc GraphEnd.SINK comp refMerIDs.reverse = snkR at h ⊢
  by_cases h1 : srcR.foundEnd = true
  swap
  · simp only [h1, Bool.not_false, if_true, Option.some.injEq, Prod.mk.injEq] at h
    left; exact ⟨h.2.symm, h.1.symm, fun hh => h1 hh.1⟩
  by_cases h2 : snkR.foundEnd = true
  swap
  · simp [h1, h2] at h
    left; exact ⟨h.2.symm, h.1.symm, fun hh => h2 hh.2.1⟩
  by_cases h3 : srcR.nodeId = snkR.nodeId
  · simp [h1, h2, h3] at h
    left; exact ⟨h.2.symm, h.1.symm, fun hh => hh.2.2 h3⟩
  right
  refine ⟨?_, h1, h2, h3⟩
  simp only [h1, h2, Bool.not_true, Bool.false_or, beq_iff_eq, h3, if_false, Bool.false_eq_true] at h
  split at h
  · cases h
  · split at h
    · cases h
    · split at h
      · simp only [Option.some.injEq, Prod.mk.injEq] at h
        rw [← h.2]
      · cases h

theorem MarkSourceSink_total (p : CliParams) (refMerIDs : List NodeIdentifier)
    (nc : NodeContainer) (comp : Nat)
    (hsrc : (findNode nc MOCK_SOURCE_ID).isSome = true)
    (hsnk : (findNode nc MOCK_SINK_ID).isSome = true)
    (hds : (FindRefEnd p nc GraphEnd.SOURCE comp refMerIDs).foundEnd = true →
      (findNode nc (FindRefEnd p nc GraphEnd.SOURCE comp refMerIDs).nodeId).isSome = true)
    (hdk : (FindRefEnd p nc GraphEnd.SINK comp refMerIDs.reverse).foundEnd = true →
      (findNode nc (FindRefEnd p nc GraphEnd.SINK comp refMerIDs.reverse).nodeId).isSome = true) :
    ∃ r, MarkSourceSink p refMerIDs nc comp = some r := by
  unfold MarkSourceSink
  simp only
  generalize FindRefEnd p nc GraphEnd.SOURCE comp refMerIDs = srcR at hds ⊢
  generalize FindRefEnd p nc GraphEnd.SINK comp refMerIDs.reverse = snkR at hdk ⊢
  split
  · exact ⟨_, rfl⟩
  · split
    · exact ⟨_, rfl⟩
    · rename_i h1 h2
      simp only [Bool.not_eq_true, Bool.not_eq_false', Bool.or_eq_true, not_or,
        Bool.not_eq_true', beq_iff_eq] at h1 h2
      split
      · rename_i hx; rw [hx] at hsrc; cases hsrc
      · split
        · rename_i hx
          have := findNode_isSome_updateNode
            (DisconnectEdgesTo (updateNode nc MOCK_SOURCE_ID
              (fun n => { n with ComponentID := comp })) MOCK_SOURCE_ID)
            MOCK_SOURCE_ID Node.ClearEdges clearEdges_id MOCK_SINK_ID
          rw [hx, findNode_isSome_disconnect,
            findNode_isSome_updateNode _ _ _ (setComp_id comp), hsnk] at this
          cases this
        · split
          · exact ⟨_, rfl⟩
          · rename_i hx
            exfalso
            have key : ∀ x, (findNode (updateNode (DisconnectEdgesTo (updateNode (updateNode
                (DisconnectEdgesTo (updateNode nc MOCK_SOURCE_ID
                  (fun n => { n with ComponentID := comp })) MOCK_SOURCE_ID)
                MOCK_SOURCE_ID Node.ClearEdges) MOCK_SINK_ID
                (fun n => { n with ComponentID := comp })) MOCK_SINK_ID)
                MOCK_SINK_ID Node.ClearEdges) x).isSome = (findNode nc x).isSome := by
              intro x
              rw [findNode_isSome_updateNode _ _ _ clearEdges_id, findNode_isSome_disconnect,
                findNode_isSome_updateNode _ _ _ (setComp_id comp),
                findNode_isSome_updateNode _ _ _ clearEdges_id, findNode_isSome_disconnect,
                findNode_isSome_updateNode _ _ _ (setComp_id comp)]
            have k1 := key srcR.nodeId
            have k2 := key snkR.nodeId
            rw [hds (by simpa using h1)] at k1
            rw [hdk (by simpa using h2.1)] at k2
            revert hx k1 k2
            generalize findNode _ srcR.nodeId = a
            generalize findNode _ snkR.nodeId = b
            intro hx k1 k2
            cases a with
            | none => cases k1
            | some va =>
              cases b with
              | none => cases k2
              | some vb => exact hx va vb rfl rfl

theorem isAnchor_isSome {nc : NodeContainer} {comp cov : Nat} {h : NodeIdentifier}
    (ha : isAnchor nc comp cov h = true) : (findNode nc h).isSome = true := by
  unfold isAnchor at ha
  cases hf : findNode nc h with
  | none => rw [hf] at ha; cases ha
  | some n => rfl

theorem FindRefEnd_source_spec (p : CliParams) (nc : NodeContainer) (comp : Nat)
    (ids : List NodeIdentifier) :
    ((FindRefEnd p nc GraphEnd.SOURCE comp ids).foundEnd = false ∧
      ∀ h ∈ ids, isAnchor nc comp (toU16 p.minAnchorCov) h = false) ∨
    ∃ i h, ids[i]? = some h ∧ isAnchor nc comp (toU16 p.minAnchorCov) h = true ∧
      (∀ j h2, j < i → ids[j]? = some h2 → isAnchor nc comp (toU16 p.minAnchorCov) h2 = false) ∧
      FindRefEnd p nc GraphEnd.SOURCE comp ids = ⟨h, i, true⟩ := by
  unfold FindRefEnd
  rcases findRefEndLoop_spec nc GraphEnd.SOURCE comp (toU16 p.minAnchorCov) ids.length ids 0 with
    h | ⟨i, h, h1, h2, h3, h4⟩
  · exact Or.inl h
  · right
    refine ⟨i, h, h1, h2, h3, ?_⟩
    rw [h4]; simp

theorem FindRefEnd_sink_spec (p : CliParams) (nc : NodeContainer) (comp : Nat)
    (ids : List NodeIdentifier) :
    ((FindRefEnd p nc GraphEnd.SINK comp ids.reverse).foundEnd = false ∧
      ∀ h ∈ ids, isAnchor nc comp (toU16 p.minAnchorCov) h = false) ∨
    ∃ j h, ids[j]? = some h ∧ isAnchor nc comp (toU16 p.minAnchorCov) h = true ∧
      (∀ j2 h2, j < j2 → ids[j2]? = some h2 → isAnchor nc comp (toU16 p.minAnchorCov) h2 = false) ∧
      FindRefEnd p nc GraphEnd.SINK comp ids.reverse = ⟨h, j, true⟩ := by
  unfold FindRefEnd
  rcases findRefEndLoop_spec nc GraphEnd.SINK comp (toU16 p.minAnchorCov) ids.reverse.length
    ids.reverse 0 with ⟨h1, h2⟩ | ⟨i, h, h1, h2, h3, h4⟩
  · left
    exact ⟨h1, fun h hh => h2 h (List.mem_reverse.mpr hh)⟩
  · right
    have hi : i < ids.length := by
      have := (List.getElem?_eq_some.mp h1).1
      simpa using this
    rw [List.getElem?_reverse hi] at h1
    refine ⟨ids.length - 1 - i, h, h1, h2, ?_, ?_⟩
    · intro j2 h2' hj hget
      have hj2 : j2 < ids.length := (List.getElem?_eq_some.mp hget).1
      apply h3 (ids.length - 1 - j2) h2' (by omega)
      rw [List.getElem?_reverse (by omega)]
      have e : ids.length - 1 - (ids.length - 1 - j2) = j2 := by omega
      rw [e]; exact hget
    · rw [h4]
      simp only [List.length_reverse, reduceCtorEq, if_false, Nat.zero_add]
      congr 1
      omega

theorem firstAnchor_unique {ids : List NodeIdentifier} {P : NodeIdentifier → Bool}
    {i i2 : Nat} {h h2 : NodeIdentifier}
    (hi : ids[i]? = some h) (ha : P h = true)
    (hfirst : ∀ j x, j < i → ids[j]? = some x → P x = false)
    (hi2 : ids[i2]? = some h2) (ha2 : P h2 = true)
    (hfirst2 : ∀ j x, j < i2 → ids[j]? = some x → P x = false) : i = i2 ∧ h = h2 := by
  have e : i = i2 := by
    rcases Nat.lt_trichotomy i i2 with hlt | heq | hgt
    · have := hfirst2 i h hlt hi; rw [ha] at this; cases this
    · exact heq
    · have := hfirst i2 h2 hgt hi2; rw [ha2] at this; cases this
  subst e
  rw [hi] at hi2
  exact ⟨rfl, Option.some.inj hi2⟩

theorem lastAnchor_unique {ids : List NodeIdentifier} {P : NodeIdentifier → Bool}
    {i i2 : Nat} {h h2 : NodeIdentifier}
    (hi : ids[i]? = some h) (ha : P h = true)
    (hlast : ∀ j x, i < j → ids[j]? = some x → P x = false)
    (hi2 : ids[i2]? = some h2) (ha2 : P h2 = true)
    (hlast2 : ∀ j x, i2 < j → ids[j]? = some x → P x = false) : i = i2 ∧ h = h2 := by
  have e : i = i2 := by
    rcases Nat.lt_trichotomy i i2 with hlt | heq | hgt
    · have := hlast i2 h2 hlt hi2; rw [ha2] at this; cases this
    · exact heq
    · have := hlast2 i h hgt hi; rw [ha] at this; cases this
  subst e
  rw [hi] at hi2
  exact ⟨rfl, Option.some.inj hi2⟩

theorem MarkSourceSink_found_lookup {p : CliParams} {refMerIDs : List NodeIdentifier}
    {nc nc2 : NodeContainer} {comp : Nat} {res : SrcSnkResult}
    (hreal : ∀ h ∈ refMerIDs, h ≠ MOCK_SOURCE_ID ∧ h ≠ MOCK_SINK_ID)
    (h : MarkSourceSink p refMerIDs nc comp = some (nc2, res))
    (hf : res.foundSrcAndSnk = true) :
    ∃ s t ds dk D1 D2,
      findNode nc MOCK_SOURCE_ID = some s ∧ findNode nc MOCK_SINK_ID = some t ∧
      findNode nc (FindRefEnd p nc GraphEnd.SOURCE comp refMerIDs).nodeId = some ds ∧
      findNode nc (FindRefEnd p nc GraphEnd.SINK comp refMerIDs.reverse).nodeId = some dk ∧
      (ds.id ≠ MOCK_SOURCE_ID ∧ ds.id ≠ MOCK_SINK_ID) ∧
      (dk.id ≠ MOCK_SOURCE_ID ∧ dk.id ≠ MOCK_SINK_ID) ∧ ds.id ≠ dk.id ∧
      (∀ x, findNode nc2 x = (findNode nc x).map (fun n =>
        markNodeB ds.id dk.id (MakeEdgeKind Strand.FWD ds.Orientation)
          (sinkKind dk.Orientation) (markNodeA comp D1 D2 n))) ∧
      res = ⟨true, (FindRefEnd p nc GraphEnd.SOURCE comp refMerIDs).refMerIdx,
        (FindRefEnd p nc GraphEnd.SINK comp refMerIDs.reverse).refMerIdx + dk.Length⟩ := by
  obtain ⟨h1, h2, h3, D1, D2, ds, dk, hds, hdk, hs, ht, hnc, hres⟩ := MarkSourceSink_found_eq h hf
  have hsrcmem : (FindRefEnd p nc GraphEnd.SOURCE comp refMerIDs).nodeId ∈ refMerIDs := by
    rcases FindRefEnd_source_spec p nc comp refMerIDs with ⟨e, _⟩ | ⟨i, x, hx, _, _, e⟩
    · rw [h1] at e; cases e
    · rw [e]; exact List.mem_iff_getElem?.mpr ⟨i, hx⟩
  have hsnkmem : (FindRefEnd p nc GraphEnd.SINK comp refMerIDs.reverse).nodeId ∈ refMerIDs := by
    rcases FindRefEnd_sink_spec p nc comp refMerIDs with ⟨e, _⟩ | ⟨i, x, hx, _, _, e⟩
    · rw [h2] at e; cases e
    · rw [e]; exact List.mem_iff_getElem?.mpr ⟨i, hx⟩
  have hdsid := (findNode_some hds).2
  have hdkid := (findNode_some hdk).2
  have r1 := hreal _ hsrcmem
  have r2 := hreal _ hsnkmem
  rw [← hdsid] at r1 h3
  rw [← hdkid] at r2 h3
  cases hs0 : findNode nc MOCK_SOURCE_ID with
  | none => rw [hs0] at hs; cases hs
  | some s =>
  cases ht0 : findNode nc MOCK_SINK_ID with
  | none => rw [ht0] at ht; cases ht
  | some t =>
  refine ⟨s, t, ds, dk, D1, D2, rfl, rfl, hds, hdk, r1, r2, h3, ?_, hres⟩
  intro x
  rw [hnc]
  exact findNode_map nc _ (fun n => by rw [markNodeB_id, markNodeA_id]) x

/-- C6. When `MarkSourceSink` reports found (and no reference k-mer id is a mock id),
afterwards both mock nodes have exactly one edge and the component id `comp_id`; the edge
of the mock source goes to the data source with kind `MakeEdgeKind(FWD, orientation)`, the
edge of the mock sink goes to the data sink with kind FF if its orientation is REV and RR
otherwise, and data source and data sink hold the reverse-kind edge back to their mock
node. -/
theorem MarkSourceSink_wires_mock_nodes (p : CliParams) (refMerIDs : List NodeIdentifier)
    (nc nc2 : NodeContainer) (comp : Nat) (res : SrcSnkResult)
    (hreal : ∀ h ∈ refMerIDs, h ≠ MOCK_SOURCE_ID ∧ h ≠ MOCK_SINK_ID)
    (h : MarkSourceSink p refMerIDs nc comp = some (nc2, res))
    (hf : res.foundSrcAndSnk = true) :
    ∃ fauxSrc fauxSnk dataSrc dataSnk,
      findNode nc2 MOCK_SOURCE_ID = some fauxSrc ∧ findNode nc2 MOCK_SINK_ID = some fauxSnk ∧
      findNode nc2 (FindRefEnd p nc GraphEnd.SOURCE comp refMerIDs).nodeId = some dataSrc ∧
      findNode nc2 (FindRefEnd p nc GraphEnd.SINK comp refMerIDs.reverse).nodeId = some dataSnk ∧
      dataSrc.IsMockNode = false ∧ dataSnk.IsMockNode = false ∧
      fauxSrc.ComponentID = comp ∧ fauxSnk.ComponentID = comp ∧
      fauxSrc.edges = [⟨dataSrc.id, MakeEdgeKind Strand.FWD dataSrc.Orientation⟩] ∧
      fauxSnk.edges
        = [⟨dataSnk.id, if dataSnk.Orientation = Strand.REV then EdgeKind.FF else EdgeKind.RR⟩] ∧
      (⟨MOCK_SOURCE_ID, ReverseEdgeKind (MakeEdgeKind Strand.FWD dataSrc.Orientation)⟩ : Edge)
        ∈ dataSrc.edges ∧
      (⟨MOCK_SINK_ID, ReverseEdgeKind
          (if dataSnk.Orientation = Strand.REV then EdgeKind.FF else EdgeKind.RR)⟩ : Edge)
        ∈ dataSnk.edges := by
  obtain ⟨s, t, ds, dk, D1, D2, hs0, ht0, hds, hdk, r1, r2, h3, hfind, _⟩ :=
    MarkSourceSink_found_lookup hreal h hf
  have hsk : ∀ o : Strand, sinkKind o
      = if o = Strand.REV then EdgeKind.FF else EdgeKind.RR := by
    intro o; unfold sinkKind; simp
  have hsid := (findNode_some hs0).2
  have htid := (findNode_some ht0).2
  refine ⟨_, _, _, _, by rw [hfind, hs0]; rfl, by rw [hfind, ht0]; rfl,
    by rw [hfind, hds]; rfl, by rw [hfind, hdk]; rfl, ?_, ?_, ?_, ?_, ?_, ?_, ?_, ?_⟩
  · beta_reduce
    simp only [Node.IsMockNode, markNodeB_id, markNodeA_id]
    simp [r1.1, r1.2]
  · beta_reduce
    simp only [Node.IsMockNode, markNodeB_id, markNodeA_id]
    simp [r2.1, r2.2]
  · beta_reduce
    rw [markNode_source hsid r1.1 r2.1]
  · beta_reduce
    rw [markNode_sink htid r1.2 r2.2]
  · beta_reduce
    rw [markNode_source hsid r1.1 r2.1]
    simp only [markNodeB_id, markNodeA_id, Node.Orientation, markNodeB_data, markNodeA_data]
  · beta_reduce
    rw [markNode_sink htid r1.2 r2.2]
    simp only [markNodeB_id, markNodeA_id, Node.Orientation, markNodeB_data, markNodeA_data]
    rw [hsk]
  · beta_reduce
    simp only [Node.Orientation, markNodeB_data, markNodeA_data]
    exact markNode_dataSrc rfl r1.1 r1.2 h3
  · beta_reduce
    simp only [Node.Orientation, markNodeB_data, markNodeA_data]
    rw [← hsk]
    exact markNode_dataSnk rfl r2.1 r2.2 h3

theorem MarkSourceSink_wires_mock_nodes_witness :
    (∀ h ∈ [1, 2, 3], h ≠ MOCK_SOURCE_ID ∧ h ≠ MOCK_SINK_ID) ∧
    MarkSourceSink exampleParams [1, 2, 3] chainGraph 1 = some (chainAnchored, ⟨true, 0, 5⟩) ∧
    ∃ fauxSrc fauxSnk dataSrc dataSnk,
      findNode chainAnchored MOCK_SOURCE_ID = some fauxSrc ∧
      findNode chainAnchored MOCK_SINK_ID = some fauxSnk ∧
      findNode chainAnchored
        (FindRefEnd exampleParams chainGraph GraphEnd.SOURCE 1 [1, 2, 3]).nodeId = some dataSrc ∧
      findNode chainAnchored
        (FindRefEnd exampleParams chainGraph GraphEnd.SINK 1 [1, 2, 3].reverse).nodeId
          = some dataSnk ∧
      dataSrc.IsMockNode = false ∧ dataSnk.IsMockNode = false ∧
      fauxSrc.ComponentID = 1 ∧ fauxSnk.ComponentID = 1 ∧
      fauxSrc.edges = [⟨dataSrc.id, MakeEdgeKind Strand.FWD dataSrc.Orientation⟩] ∧
      fauxSnk.edges
        = [⟨dataSnk.id, if dataSnk.Orientation = Strand.REV then EdgeKind.FF else EdgeKind.RR⟩] ∧
      (⟨MOCK_SOURCE_ID, ReverseEdgeKind (MakeEdgeKind Strand.FWD dataSrc.Orientation)⟩ : Edge)
        ∈ dataSrc.edges ∧
      (⟨MOCK_SINK_ID, ReverseEdgeKind
          (if dataSnk.Orientation = Strand.REV then EdgeKind.FF else EdgeKind.RR)⟩ : Edge)
        ∈ dataSnk.edges :=
  ⟨by decide, by decide,
    MarkSourceSink_wires_mock_nodes exampleParams [1, 2, 3] chainGraph chainAnchored 1
      ⟨true, 0, 5⟩ (by decide) (by decide) rfl⟩

/-- C7. Anchor selection (for `min_anchor_cov` below 2^16, the width it is cast to): when
`MarkSourceSink` reports found, the mock source is linked to the node of the first
reference k-mer that is an anchor (node in the map, in the component, with total sample
count of at least `min_anchor_cov`) and `startOffset` is the index of that k-mer; the mock
sink is linked to the node of the last such k-mer and `endOffset` is the index of that
k-mer plus the length of the sink node. -/
theorem MarkSourceSink_anchor_selection (p : CliParams) (refMerIDs : List NodeIdentifier)
    (nc nc2 : NodeContainer) (comp : Nat) (res : SrcSnkResult)
    (hfit : p.minAnchorCov < 65536)
    (hreal : ∀ h ∈ refMerIDs, h ≠ MOCK_SOURCE_ID ∧ h ≠ MOCK_SINK_ID)
    (h : MarkSourceSink p refMerIDs nc comp = some (nc2, res))
    (hf : res.foundSrcAndSnk = true) :
    ∃ i j hsrc hsnk dataSnk fauxSrc fauxSnk,
      refMerIDs[i]? = some hsrc ∧ isAnchor nc comp p.minAnchorCov hsrc = true ∧
      (∀ i2 h2, i2 < i → refMerIDs[i2]? = some h2 → isAnchor nc comp p.minAnchorCov h2 = false) ∧
      refMerIDs[j]? = some hsnk ∧ isAnchor nc comp p.minAnchorCov hsnk = true ∧
      (∀ j2 h2, j < j2 → refMerIDs[j2]? = some h2 → isAnchor nc comp p.minAnchorCov h2 = false) ∧
      res.startOffset = i ∧
      findNode nc hsnk = some dataSnk ∧ res.endOffset = j + dataSnk.Length ∧
      findNode nc2 MOCK_SOURCE_ID = some fauxSrc ∧
      fauxSrc.edges.map (fun e => e.destId) = [hsrc] ∧
      findNode nc2 MOCK_SINK_ID = some fauxSnk ∧
      fauxSnk.edges.map (fun e => e.destId) = [hsnk] := by
  have hcov : toU16 p.minAnchorCov = p.minAnchorCov := Nat.mod_eq_of_lt hfit
  obtain ⟨s, t, ds, dk, D1, D2, hs0, ht0, hds, hdk, r1, r2, _, hfind, hres⟩ :=
    MarkSourceSink_found_lookup hreal h hf
  have hfnd := (MarkSourceSink_found_eq h hf)
  rcases FindRefEnd_source_spec p nc comp refMerIDs with ⟨e, _⟩ | ⟨i, hsrc, a1, a2, a3, a4⟩
  · rw [hfnd.1] at e; cases e
  rcases FindRefEnd_sink_spec p nc comp refMerIDs with ⟨e, _⟩ | ⟨j, hsnk, b1, b2, b3, b4⟩
  · rw [hfnd.2.1] at e; cases e
  rw [hcov] at a2 a3 b2 b3
  rw [a4] at hds hres
  rw [b4] at hdk hres
  simp only at hds hdk hres
  have hsid := (findNode_some hs0).2
  have htid := (findNode_some ht0).2
  refine ⟨i, j, hsrc, hsnk, dk, _, _, a1, a2, a3, b1, b2, b3, by rw [hres],
    hdk, by rw [hres], by rw [hfind, hs0]; rfl, ?_, by rw [hfind, ht0]; rfl, ?_⟩
  · beta_reduce
    rw [markNode_source hsid r1.1 r2.1, List.map_cons, List.map_nil, (findNode_some hds).2]
  · beta_reduce
    rw [markNode_sink htid r1.2 r2.2, List.map_cons, List.map_nil, (findNode_some hdk).2]

theorem MarkSourceSink_anchor_selection_witness :
    exampleParams.minAnchorCov < 65536 ∧
    (∀ h ∈ [1, 2, 3], h ≠ MOCK_SOURCE_ID ∧ h ≠ MOCK_SINK_ID) ∧
    MarkSourceSink exampleParams [1, 2, 3] chainGraph 1 = some (chainAnchored, ⟨true, 0, 5⟩) ∧
    ∃ i j hsrc hsnk dataSnk fauxSrc fauxSnk,
      [1, 2, 3][i]? = some hsrc ∧ isAnchor chainGraph 1 exampleParams.minAnchorCov hsrc = true ∧
      (∀ i2 h2, i2 < i → [1, 2, 3][i2]? = some h2 →
        isAnchor chainGraph 1 exampleParams.minAnchorCov h2 = false) ∧
      [1, 2, 3][j]? = some hsnk ∧ isAnchor chainGraph 1 exampleParams.minAnchorCov hsnk = true ∧
      (∀ j2 h2, j < j2 → [1, 2, 3][j2]? = some h2 →
        isAnchor chainGraph 1 exampleParams.minAnchorCov h2 = false) ∧
      (⟨true, 0, 5⟩ : SrcSnkResult).startOffset = i ∧
      findNode chainGraph hsnk = some dataSnk ∧
      (⟨true, 0, 5⟩ : SrcSnkResult).endOffset = j + dataSnk.Length ∧
      findNode chainAnchored MOCK_SOURCE_ID = some fauxSrc ∧
      fauxSrc.edges.map (fun e => e.destId) = [hsrc] ∧
      findNode chainAnchored MOCK_SINK_ID = some fauxSnk ∧
      fauxSnk.edges.map (fun e => e.destId) = [hsnk] :=
  ⟨by decide, by decide, by decide,
    MarkSourceSink_anchor_selection exampleParams [1, 2, 3] chainGraph chainAnchored 1
      ⟨true, 0, 5⟩ (by decide) (by decide) (by decide) rfl⟩

/-- C8. With both mock nodes in the map (and `min_anchor_cov` below 2^16), `MarkSourceSink`
returns, and it reports `found = false` exactly when no reference k-mer is an anchor of the
component, or the first and the last anchor k-mer have the same node; in that case the
node map is returned unchanged and the loop body of `ProcessGraph` leaves the node map,
the results vector and `shouldIncrementK` as they are. -/
theorem MarkSourceSink_unanchored (E : Env) (p : CliParams) (window : RefWindow)
    (refMerIDs : List NodeIdentifier) (kmerSize fuel : Nat) (nc : NodeContainer)
    (results : List Variant) (comp : ComponentInfo)
    (hfit : p.minAnchorCov < 65536)
    (hsrc : (findNode nc MOCK_SOURCE_ID).isSome = true)
    (hsnk : (findNode nc MOCK_SINK_ID).isSome = true) :
    ∃ nc2 res, MarkSourceSink p refMerIDs nc comp.ID = some (nc2, res) ∧
      (res.foundSrcAndSnk = false ↔
        (∀ h ∈ refMerIDs, isAnchor nc comp.ID p.minAnchorCov h = false) ∨
        ∃ (i j : Nat) (h : NodeIdentifier), refMerIDs[i]? = some h ∧ refMerIDs[j]? = some h ∧
          isAnchor nc comp.ID p.minAnchorCov h = true ∧
          (∀ (i2 : Nat) (h2 : NodeIdentifier), i2 < i → refMerIDs[i2]? = some h2 →
            isAnchor nc comp.ID p.minAnchorCov h2 = false) ∧
          (∀ (j2 : Nat) (h2 : NodeIdentifier), j < j2 → refMerIDs[j2]? = some h2 →
            isAnchor nc comp.ID p.minAnchorCov h2 = false)) ∧
      (res.foundSrcAndSnk = false → nc2 = nc ∧ res = ⟨false, 0, 0⟩ ∧
        processComponent E p window refMerIDs kmerSize fuel nc results comp
          = some (nc, results, false)) := by
  have hcov : toU16 p.minAnchorCov = p.minAnchorCov := Nat.mod_eq_of_lt hfit
  have hS := FindRefEnd_source_spec p nc comp.ID refMerIDs
  have hK := FindRefEnd_sink_spec p nc comp.ID refMerIDs
  rw [hcov] at hS hK
  obtain ⟨⟨nc2, res⟩, hr⟩ := MarkSourceSink_total p refMerIDs nc comp.ID hsrc hsnk
    (by
      intro hfound
      rcases hS with ⟨e, _⟩ | ⟨i, x, _, hx, _, e⟩
      · rw [hfound] at e; cases e
      · rw [e]; exact isAnchor_isSome hx)
    (by
      intro hfound
      rcases hK with ⟨e, _⟩ | ⟨i, x, _, hx, _, e⟩
      · rw [hfound] at e; cases e
      · rw [e]; exact isAnchor_isSome hx)
  refine ⟨nc2, res, hr, ?_, ?_⟩
  · rcases MarkSourceSink_cases hr with ⟨e1, _, hnot⟩ | ⟨e1, c1, c2, c3⟩
    · -- not found
      constructor
      · intro _
        rcases hS with ⟨_, hno⟩ | ⟨i, x, a1, a2, a3, a4⟩
        · exact Or.inl hno
        · rcases hK with ⟨_, hno⟩ | ⟨j, y, b1, b2, b3, b4⟩
          · have := hno x (List.mem_iff_getElem?.mpr ⟨i, a1⟩)
            rw [a2] at this; cases this
          · right
            have hxy : x = y := by
              by_contra hne
              apply hnot
              rw [a4, b4]
              exact ⟨rfl, rfl, hne⟩
            subst hxy
            exact ⟨i, j, x, a1, b1, a2, a3, b3⟩
      · intro _; rw [e1]
    · -- found
      constructor
      · intro hff; rw [e1] at hff; cases hff
      · intro hcase
        exfalso
        rcases hS with ⟨e, _⟩ | ⟨i, x, a1, a2, a3, a4⟩
        · rw [c1] at e; cases e
        rcases hK with ⟨e, _⟩ | ⟨j, y, b1, b2, b3, b4⟩
        · rw [c2] at e; cases e
        rcases hcase with hno | ⟨i2, j2, z, z1, z2, z3, z4, z5⟩
        · have := hno x (List.mem_iff_getElem?.mpr ⟨i, a1⟩)
          rw [a2] at this; cases this
        · have u1 := firstAnchor_unique a1 a2 a3 z1 z3 z4
          have u2 := lastAnchor_unique b1 b2 b3 z2 z3 z5
          apply c3
          rw [a4, b4]
          simp only
          rw [u1.2, u2.2]
  · intro hff
    rcases MarkSourceSink_cases hr with ⟨e1, e2, _⟩ | ⟨e1, _⟩
    · refine ⟨e2, e1, ?_⟩
      unfold processComponent
      rw [hr, e1, e2]
      rfl
    · rw [e1] at hff; cases hff

theorem MarkSourceSink_unanchored_witness :
    exampleParams.minAnchorCov < 65536 ∧
    (findNode chainGraph MOCK_SOURCE_ID).isSome = true ∧
    (findNode chainGraph MOCK_SINK_ID).isSome = true ∧
    ∃ nc2 res, MarkSourceSink exampleParams [7, 8] chainGraph 1 = some (nc2, res) ∧
      (res.foundSrcAndSnk = false ↔
        (∀ h ∈ [7, 8], isAnchor chainGraph 1 exampleParams.minAnchorCov h = false) ∨
        ∃ (i j : Nat) (h : NodeIdentifier), [7, 8][i]? = some h ∧ [7, 8][j]? = some h ∧
          isAnchor chainGraph 1 exampleParams.minAnchorCov h = true ∧
          (∀ (i2 : Nat) (h2 : NodeIdentifier), i2 < i → [7, 8][i2]? = some h2 →
            isAnchor chainGraph 1 exampleParams.minAnchorCov h2 = false) ∧
          (∀ (j2 : Nat) (h2 : NodeIdentifier), j < j2 → [7, 8][j2]? = some h2 →
            isAnchor chainGraph 1 exampleParams.minAnchorCov h2 = false)) ∧
      (res.foundSrcAndSnk = false → nc2 = chainGraph ∧ res = ⟨false, 0, 0⟩ ∧
        processComponent exampleEnv exampleParams exampleWindow [7, 8] 3 10 chainGraph []
          ⟨1, 3⟩ = some (chainGraph, [], false)) :=
  ⟨by decide, by decide, by decide,
    MarkSourceSink_unanchored exampleEnv exampleParams exampleWindow [7, 8] 3 10 chainGraph []
      ⟨1, 3⟩ (by decide) (by decide) (by decide)⟩

theorem validBuilder_empty (src : Node) : ValidBuilder src PathBuilder.empty := by
  refine ⟨rfl, ?_, ?_, ?_, ?_, ?_⟩
  · intro e he; cases he
  · exact List.chain'_nil
  · intro _; exact ⟨rfl, rfl⟩
  · intro e he; cases he
  · intro h; cases h

theorem validBuilder_extend {src lastNode : Node} {b : PathBuilder} (k : Nat) {e : Edge}
    {nb : Node} (score : Nat)
    (hv : ValidBuilder src b) (hts : b.touchedSink = false) (hst : StandsOn src b lastNode)
    (hsid : src.id = MOCK_SOURCE_ID) (he : e ∈ lastNode.edges) (hdir : e.SrcDirection = b.pathDir)
    (hnb : nb.id = e.destId) :
    ValidBuilder src (PathBuilder.Extend k { b with pathScore := score } ⟨lastNode.id, e⟩ nb) := by
  unfold PathBuilder.Extend
  refine ⟨?_, ?_, ?_, ?_, ?_, ?_⟩
  · simp [hv.lengths]
  · intro e0 he0
    simp only at he0
    by_cases hnil : b.edgesList = []
    · rw [hnil] at he0
      simp only [List.nil_append, List.head?_cons, Option.some.injEq] at he0
      subst he0
      have := hst.1 hnil
      subst this
      exact ⟨hsid, he, by rw [hdir]; exact (hv.fresh hnil).1⟩
    · rw [List.head?_append_of_ne_nil _ hnil] at he0
      exact hv.first e0 he0
  · simp only
    apply List.Chain'.append hv.chain (List.chain'_singleton _)
    intro x hx y hy
    simp only [List.head?_cons, Option.mem_def, Option.some.injEq] at hy
    subst hy
    have hx2 : b.edgesList.getLast? = some x := hx
    obtain ⟨h1, nL, h2, h3⟩ := hv.last x hx2
    have hne : b.edgesList ≠ [] := by
      intro hn; rw [hn] at hx2; cases hx2
    have h4 := hst.2 hne
    rw [h2] at h4
    have : nL = lastNode := Option.some.inj h4
    subst this
    exact ⟨by simp only; rw [hdir, h1], h3⟩
  · intro h; simp at h
  · intro eL heL
    simp only [List.getLast?_concat, Option.some.injEq] at heL
    subst heL
    exact ⟨rfl, nb, by simp, hnb⟩
  · intro h
    simp only at h
    rw [hts] at h; cases h

theorem validBuilder_sinkTouch {src lastNode : Node} {b : PathBuilder} {e : Edge}
    (hv : ValidBuilder src b) (hst : StandsOn src b lastNode)
    (he : e ∈ lastNode.edges) (hsnk : e.destId = MOCK_SINK_ID) (hscore : 0 < b.pathScore) :
    ValidBuilder src b.MarkSinkTouch := by
  have hne : b.edgesList ≠ [] := by
    intro hn
    have := (hv.fresh hn).2
    omega
  unfold PathBuilder.MarkSinkTouch
  refine ⟨hv.lengths, hv.first, hv.chain, fun h => absurd h hne, hv.last, ?_⟩
  intro _
  exact ⟨hscore, lastNode, hst.2 hne, e, he, hsnk⟩

theorem expandEdges_valid (flow : EdmondKarpMaxFlow) {src lastNode : Node}
    {curr best : PathBuilder}
    (hv : ValidBuilder src curr) (hts : curr.touchedSink = false)
    (hst : StandsOn src curr lastNode) (hsid : src.id = MOCK_SOURCE_ID)
    (hbest : best.pathScore = 0) :
    ∀ (es : List Edge) (pushed : List PathBuilder), (∀ e ∈ es, e ∈ lastNode.edges) →
      expandEdges flow lastNode.id curr best es = some pushed →
      ∀ b ∈ pushed, ValidBuilder src b ∧ b.edgesList ≠ [] := by
  intro es
  induction es with
  | nil =>
    intro pushed _ h b hb
    simp only [expandEdges, Option.some.injEq] at h
    subst h; cases hb
  | cons e es ih =>
    intro pushed hes h
    have hes2 : ∀ e2 ∈ es, e2 ∈ lastNode.edges := fun e2 h2 => hes e2 (List.mem_cons_of_mem _ h2)
    have hemem : e ∈ lastNode.edges := hes e (List.mem_cons_self _ _)
    rw [expandEdges] at h
    by_cases hsink : e.destId = MOCK_SINK_ID
    · simp only [hsink, if_true] at h
      by_cases hsc : curr.pathScore ≤ best.pathScore
      · simp only [hsc, if_true] at h
        exact ih pushed hes2 h
      · simp only [hsc, if_false] at h
        cases hrec : expandEdges flow lastNode.id curr best es with
        | none => rw [hrec] at h; cases h
        | some l =>
          rw [hrec] at h
          simp only [Option.map_some', Option.some.injEq] at h
          subst h
          intro b hb
          rcases List.mem_cons.mp hb with hb | hb
          · subst hb
            have hv2 := validBuilder_sinkTouch hv hst hemem hsink (by omega)
            refine ⟨hv2, ?_⟩
            intro hn
            have := (hv.fresh hn).2
            omega
          · exact ih l hes2 hrec b hb
    · simp only [hsink, if_false] at h
      by_cases hskip : e.destId = MOCK_SOURCE_ID ∨ e.SrcDirection ≠ curr.pathDir
      · simp only [hskip, if_true] at h
        exact ih pushed hes2 h
      · simp only [hskip, if_false] at h
        have hdir : e.SrcDirection = curr.pathDir := by
          by_contra hc; exact hskip (Or.inr hc)
        cases hfind : findNode flow.nodesMap e.destId with
        | none => rw [hfind] at h; cases h
        | some nb =>
          rw [hfind] at h
          simp only at h
          cases hrec : expandEdges flow lastNode.id curr best es with
          | none => rw [hrec] at h; cases h
          | some l =>
            rw [hrec] at h
            simp only [Option.map_some', Option.some.injEq] at h
            subst h
            intro b hb
            rcases List.mem_cons.mp hb with hb | hb
            · subst hb
              have hnb := (findNode_some hfind).2
              constructor
              · split
                · exact validBuilder_extend flow.kmerSize (curr.pathScore + 1) hv hts hst hsid
                    hemem hdir hnb
                · exact validBuilder_extend flow.kmerSize curr.pathScore hv hts hst hsid
                    hemem hdir hnb
              · split <;> simp [PathBuilder.Extend]
            · exact ih l hes2 hrec b hb

theorem nextPathLoop_valid (flow : EdmondKarpMaxFlow)
    (hsid : flow.sourcePtr.id = MOCK_SOURCE_ID) :
    ∀ (fuel numVisits : Nat) (queue : List PathBuilder) (r : PathBuilder),
      (∀ b ∈ queue, ValidBuilder flow.sourcePtr b) →
      ((numVisits = 0 ∧ queue = [PathBuilder.empty]) ∨ ∀ b ∈ queue, b.edgesList ≠ []) →
      nextPathLoop flow fuel numVisits PathBuilder.empty queue = some r →
      r = PathBuilder.empty ∨
        (ValidBuilder flow.sourcePtr r ∧ r.touchedSink = true ∧ r.pathLen ≤ flow.maxPathLen) := by
  intro fuel
  induction fuel with
  | zero =>
    intro numVisits queue r _ _ h
    cases queue with
    | nil => simp only [nextPathLoop, Option.some.injEq] at h; exact Or.inl h.symm
    | cons a l => simp [nextPathLoop] at h
  | succ fuel ih =>
    intro numVisits queue r hval hq h
    cases queue with
    | nil => simp only [nextPathLoop, Option.some.injEq] at h; exact Or.inl h.symm
    | cons curr rest =>
      rw [nextPathLoop] at h
      simp only at h
      by_cases hlim : (numVisits + 1) % U32_MOD > flow.bfsLimit
      · simp only [hlim, if_true, Option.some.injEq] at h
        exact Or.inl h.symm
      simp only [hlim, if_false] at h
      have hvc := hval curr (List.mem_cons_self _ _)
      have hvrest : ∀ b ∈ rest, ValidBuilder flow.sourcePtr b :=
        fun b hb => hval b (List.mem_cons_of_mem _ hb)
      have hrest_ne : ∀ b ∈ rest, b.edgesList ≠ [] := by
        rcases hq with ⟨_, hq2⟩ | hq2
        · intro b hb
          have : rest = [] := by
            have := congrArg List.tail hq2
            simpa using this
          rw [this] at hb; cases hb
        · exact fun b hb => hq2 b (List.mem_cons_of_mem _ hb)
      -- the node the current builder stands on
      have hlast : ∃ lastNode, (if curr.NumNodes = 0 ∧ (numVisits + 1) % U32_MOD = 1
          then some flow.sourcePtr else curr.LastNode) = some lastNode ∧
          StandsOn flow.sourcePtr curr lastNode := by
        rcases hq with ⟨hnv, hq2⟩ | hq2
        · have hc : curr = PathBuilder.empty := by
            have := congrArg List.head? hq2
            simpa using this
          subst hc hnv
          refine ⟨flow.sourcePtr, ?_, fun _ => rfl, fun hne => absurd rfl hne⟩
          rw [if_pos ⟨rfl, by decide⟩]
        · have hne := hq2 curr (List.mem_cons_self _ _)
          have hnn : curr.NumNodes ≠ 0 := by
            unfold PathBuilder.NumNodes
            rw [hvc.lengths]
            intro h0
            exact hne (List.length_eq_zero.mp h0)
          rw [if_neg (fun hh => hnn hh.1)]
          cases hl : curr.LastNode with
          | none =>
            exfalso
            unfold PathBuilder.LastNode at hl
            rw [List.getLast?_eq_none_iff] at hl
            apply hnn
            unfold PathBuilder.NumNodes
            rw [hl]; rfl
          | some nL =>
            exact ⟨nL, rfl, fun hh => absurd hh hne, fun _ => hl⟩
      obtain ⟨lastNode, hln, hst⟩ := hlast
      by_cases hlen : curr.pathLen > flow.maxPathLen
      · simp only [hlen, if_true] at h
        exact ih _ rest r hvrest (Or.inr hrest_ne) h
      simp only [hlen, if_false] at h
      by_cases hdone : curr.touchedSink = true ∧ curr.pathScore > 0
      · simp only [hdone, and_self, if_true, Option.some.injEq] at h
        subst h
        exact Or.inr ⟨hvc, hdone.1, by omega⟩
      simp only [hdone, if_false] at h
      rw [hln] at h
      simp only at h
      have hts : curr.touchedSink = false := by
        cases hc : curr.touchedSink with
        | false => rfl
        | true => exact absurd ⟨hc, (hvc.sink hc).1⟩ hdone
      cases hex : expandEdges flow lastNode.id curr PathBuilder.empty lastNode.edges with
      | none => rw [hex] at h; cases h
      | some pushed =>
        rw [hex] at h
        simp only at h
        have hp := expandEdges_valid flow hvc hts hst hsid rfl lastNode.edges pushed
          (fun e he => he) hex
        apply ih _ (rest ++ pushed) r _ _ h
        · intro b hb
          rcases List.mem_append.mp hb with hb | hb
          · exact hvrest b hb
          · exact (hp b hb).1
        · right
          intro b hb
          rcases List.mem_append.mp hb with hb | hb
          · exact hrest_ne b hb
          · exact (hp b hb).2

/-- C1. Path validity: a path returned by `NextPath` (whatever edges are marked) starts with
an edge of the mock source taken on strand FWD, its last node has an edge to the mock
sink, every edge leaves the node the edge before arrives at on the strand it arrives on,
and the length of the path is at most `max_path_len`. -/
theorem NextPath_path_valid (fuel : Nat) (flow flow2 : EdmondKarpMaxFlow) (path : Path)
    (hsrc : findNode flow.nodesMap MOCK_SOURCE_ID = some flow.sourcePtr)
    (h : NextPath fuel flow = some (some path, flow2)) :
    (∃ e rest, path.edges = e :: rest ∧ e.owner = MOCK_SOURCE_ID ∧
      e.edge ∈ flow.sourcePtr.edges ∧ e.edge.SrcDirection = Strand.FWD) ∧
    (∃ last, path.nodes.getLast? = some last ∧ ∃ e ∈ last.edges, e.destId = MOCK_SINK_ID) ∧
    List.Chain' EdgeFollows path.edges ∧
    path.length ≤ flow.maxPathLen := by
  have hsid := (findNode_some hsrc).2
  unfold NextPath at h
  cases hloop : nextPathLoop flow fuel 0 PathBuilder.empty [PathBuilder.empty] with
  | none => rw [hloop] at h; cases h
  | some r =>
    rw [hloop] at h
    simp only at h
    by_cases hemp : r.IsEmpty = true
    · rw [if_pos hemp] at h
      simp at h
    · rw [if_neg hemp] at h
      simp only [Option.some.injEq, Prod.mk.injEq] at h
      have hp := h.1
      have hr := nextPathLoop_valid flow hsid fuel 0 [PathBuilder.empty] r
        (by
          intro b hb
          rw [List.mem_singleton.mp hb]
          exact validBuilder_empty _)
        (Or.inl ⟨rfl, rfl⟩) hloop
      rcases hr with hr | ⟨hv, hts, hlen⟩
      · rw [hr] at hemp; exact absurd rfl hemp
      · obtain ⟨hscore, nL, hnL, e, he, hes⟩ := hv.sink hts
        have hne : r.edgesList ≠ [] := by
          intro hn
          have := (hv.fresh hn).2
          omega
        rw [← hp]
        unfold PathBuilder.BuildPath
        refine ⟨?_, ⟨nL, hnL, e, he, hes⟩, hv.chain, hlen⟩
        cases hl : r.edgesList with
        | nil => exact absurd hl hne
        | cons e0 rest =>
          exact ⟨e0, rest, rfl, hv.first e0 (by rw [hl]; rfl)⟩

theorem NextPath_path_valid_witness :
    findNode chainFlow.nodesMap MOCK_SOURCE_ID = some chainFlow.sourcePtr ∧
    NextPath 100 chainFlow
      = some (some chainPath, { chainFlow with markedEdges := chainPathEdges }) ∧
    (∃ e rest, chainPath.edges = e :: rest ∧ e.owner = MOCK_SOURCE_ID ∧
      e.edge ∈ chainFlow.sourcePtr.edges ∧ e.edge.SrcDirection = Strand.FWD) ∧
    (∃ last, chainPath.nodes.getLast? = some last ∧ ∃ e ∈ last.edges, e.destId = MOCK_SINK_ID) ∧
    List.Chain' EdgeFollows chainPath.edges ∧
    chainPath.length ≤ chainFlow.maxPathLen :=
  ⟨by decide, by decide,
    NextPath_path_valid 100 chainFlow { chainFlow with markedEdges := chainPathEdges } chainPath
      (by decide) (by decide)⟩

/-- C9 (counterexample). On `restartGraph` the first anchored component yields a path whose
SNV is appended to the results vector; then the second component is found to have a
cycle, and `ProcessGraph` finishes with `shouldIncrementK = true` and the variant still in
the results vector. -/
theorem ProcessGraph_restart_keeps_earlier_variant :
    ProcessGraph restartEnv exampleParams restartWindow [1, 2, 3, 4, 5, 6] 3 20 restartGraph []
      = some (restartFinal, [restartVariant], true) := by
  decide

theorem componentsLoop_restart (E : Env) (p : CliParams) (window : RefWindow)
    (refMerIDs : List NodeIdentifier) (kmerSize fuel : Nat) :
    ∀ (comps : List ComponentInfo) (nc nc2 : NodeContainer) (results results2 : List Variant),
      componentsLoop E p window refMerIDs kmerSize fuel comps nc results
        = some (nc2, results2, true) →
      ∃ pre comp post nc1 results1, comps = pre ++ comp :: post ∧
        componentsLoop E p window refMerIDs kmerSize fuel pre nc results
          = some (nc1, results1, false) ∧
        processComponent E p window refMerIDs kmerSize fuel nc1 results1 comp
          = some (nc2, results2, true) := by
  intro comps
  induction comps with
  | nil =>
    intro nc nc2 results results2 h
    simp [componentsLoop] at h
  | cons c cs ih =>
    intro nc nc2 results results2 h
    rw [componentsLoop] at h
    cases hc : processComponent E p window refMerIDs kmerSize fuel nc results c with
    | none => rw [hc] at h; cases h
    | some r =>
      obtain ⟨ncA, resultsA, stop⟩ := r
      rw [hc] at h
      cases stop with
      | true =>
        simp only [Option.some.injEq, Prod.mk.injEq] at h
        obtain ⟨h1, h2, _⟩ := h
        subst h1 h2
        exact ⟨[], c, cs, nc, results, rfl, by simp [componentsLoop], hc⟩
      | false =>
        simp only at h
        obtain ⟨pre, comp, post, nc1, results1, e1, e2, e3⟩ := ih ncA nc2 resultsA results2 h
        refine ⟨c :: pre, comp, post, nc1, results1, by rw [e1]; rfl, ?_, e3⟩
        rw [componentsLoop, hc]
        exact e2

theorem pathLoop_restart (E : Env) (p : CliParams) (window : RefWindow) (kmerSize npFuel : Nat)
    (einfo : SrcSnkResult) :
    ∀ (fuel : Nat) (flow : EdmondKarpMaxFlow) (pathPtr : Option Path)
      (results results2 : List Variant),
      pathLoop E p window kmerSize npFuel einfo fuel flow pathPtr results = some (results2, true) →
      ∃ processed bad,
        (∀ q ∈ processed, E.HasAlmostRepeatKmer (E.PathSeq q) kmerSize p.maxRptMismatch = false) ∧
        E.HasAlmostRepeatKmer (E.PathSeq bad) kmerSize p.maxRptMismatch = true ∧
        processPaths E window kmerSize einfo processed results = some results2 := by
  intro fuel
  induction fuel with
  | zero =>
    intro flow pathPtr results results2 h
    cases pathPtr with
    | none => simp [pathLoop] at h
    | some q => simp [pathLoop] at h
  | succ fuel ih =>
    intro flow pathPtr results results2 h
    cases pathPtr with
    | none => simp [pathLoop] at h
    | some q =>
      rw [pathLoop] at h
      by_cases hrep : E.HasAlmostRepeatKmer (E.PathSeq q) kmerSize p.maxRptMismatch = true
      · simp only [hrep, if_true, Option.some.injEq, Prod.mk.injEq, and_true] at h
        subst h
        exact ⟨[], q, by simp, hrep, rfl⟩
      · simp only [hrep, if_false] at h
        cases hpp : ProcessPath E window kmerSize q einfo results with
        | none => rw [hpp] at h; cases h
        | some results1 =>
          rw [hpp] at h
          simp only at h
          cases hnp : NextPath npFuel flow with
          | none => rw [hnp] at h; cases h
          | some r =>
            obtain ⟨pathPtr1, flow1⟩ := r
            rw [hnp] at h
            simp only at h
            obtain ⟨processed, bad, e1, e2, e3⟩ := ih flow1 pathPtr1 results1 results2 h
            refine ⟨q :: processed, bad, ?_, e2, ?_⟩
            · intro x hx
              rcases List.mem_cons.mp hx with hx | hx
              · rw [hx]; simpa using hrep
              · exact e1 x hx
            · rw [processPaths, hpp]
              exact e3

/-- C9 (amended). When `ProcessGraph` finishes with `shouldIncrementK = true`, it stopped in
one component `comp` after the components before it were processed in full (leaving the
results vector `results1`), and it appended nothing from the trigger on: if the trigger
was a cycle, found before or after pruning, the results vector is `results1`; if it was
a path with a near-repeat k-mer, the results vector is what `ProcessPath` made of
`results1` on the paths enumerated before that path. -/
theorem ProcessGraph_restart_appends_nothing_more (E : Env) (p : CliParams) (window : RefWindow)
    (refMerIDs : List NodeIdentifier) (kmerSize fuel : Nat) (nc nc2 : NodeContainer)
    (results results2 : List Variant)
    (h : ProcessGraph E p window refMerIDs kmerSize fuel nc results = some (nc2, results2, true)) :
    ∃ nc0 pre comp post nc1 results1 ncA markResult,
      MarkConnectedComponents (RemoveLowCovNodes E p nc 0).1 = some (nc0, pre ++ comp :: post) ∧
      componentsLoop E p window refMerIDs kmerSize fuel pre nc0 results
        = some (nc1, results1, false) ∧
      MarkSourceSink p refMerIDs nc1 comp.ID = some (ncA, markResult) ∧
      markResult.foundSrcAndSnk = true ∧
      (((HasCycle ncA = some true ∨
          ∃ ncB, pruneComponent E p kmerSize ncA comp.ID = some ncB ∧ HasCycle ncB = some true) ∧
          results2 = results1) ∨
        ∃ processed bad,
          (∀ q ∈ processed,
            E.HasAlmostRepeatKmer (E.PathSeq q) kmerSize p.maxRptMismatch = false) ∧
          E.HasAlmostRepeatKmer (E.PathSeq bad) kmerSize p.maxRptMismatch = true ∧
          processPaths E window kmerSize markResult processed results1 = some results2) := by
  unfold ProcessGraph at h
  simp only at h
  cases hm : MarkConnectedComponents (RemoveLowCovNodes E p nc 0).1 with
  | none => rw [hm] at h; cases h
  | some r =>
    obtain ⟨nc0, comps⟩ := r
    rw [hm] at h
    simp only at h
    obtain ⟨pre, comp, post, nc1, results1, e1, e2, e3⟩ :=
      componentsLoop_restart E p window refMerIDs kmerSize fuel comps nc0 nc2 results results2 h
    subst e1
    unfold processComponent at e3
    cases hms : MarkSourceSink p refMerIDs nc1 comp.ID with
    | none => rw [hms] at e3; cases e3
    | some r =>
      obtain ⟨ncA, markResult⟩ := r
      rw [hms] at e3
      simp only at e3
      by_cases hfound : markResult.foundSrcAndSnk = true
      swap
      · simp [hfound] at e3
      simp only [hfound, Bool.not_true, Bool.false_eq_true, if_false] at e3
      refine ⟨nc0, pre, comp, post, nc1, results1, ncA, markResult, rfl, e2, hms, hfound, ?_⟩
      cases hc1 : HasCycle ncA with
      | none => rw [hc1] at e3; cases e3
      | some b1 =>
        rw [hc1] at e3
        cases b1 with
        | true =>
          simp only [Option.some.injEq, Prod.mk.injEq, and_true] at e3
          exact Or.inl ⟨Or.inl rfl, e3.2.symm⟩
        | false =>
          simp only at e3
          cases hpr : pruneComponent E p kmerSize ncA comp.ID with
          | none => rw [hpr] at e3; cases e3
          | some ncB =>
            rw [hpr] at e3
            simp only at e3
            cases hc2 : HasCycle ncB with
            | none => rw [hc2] at e3; cases e3
            | some b2 =>
              rw [hc2] at e3
              cases b2 with
              | true =>
                simp only [Option.some.injEq, Prod.mk.injEq, and_true] at e3
                exact Or.inl ⟨Or.inr ⟨ncB, rfl, hc2⟩, e3.2.symm⟩
              | false =>
                simp only at e3
                right
                cases hen : enumeratePaths E p window kmerSize fuel ncB markResult results1 with
                | none => rw [hen] at e3; cases e3
                | some r =>
                  obtain ⟨resultsE, stop⟩ := r
                  rw [hen] at e3
                  simp only [Option.some.injEq, Prod.mk.injEq] at e3
                  obtain ⟨_, e4, e5⟩ := e3
                  subst e4 e5
                  unfold enumeratePaths at hen
                  simp only at hen
                  split at hen
                  · cases hen
                  · split at hen
                    · cases hen
                    · exact pathLoop_restart E p window kmerSize fuel markResult fuel _ _ _ _ hen

theorem ProcessGraph_restart_appends_nothing_more_witness :
    ProcessGraph restartEnv exampleParams restartWindow [1, 2, 3, 4, 5, 6] 3 20 restartGraph []
      = some (restartFinal, [restartVariant], true) ∧
    ∃ nc0 pre comp post nc1 results1 ncA markResult,
      MarkConnectedComponents (RemoveLowCovNodes restartEnv exampleParams restartGraph 0).1
        = some (nc0, pre ++ comp :: post) ∧
      componentsLoop restartEnv exampleParams restartWindow [1, 2, 3, 4, 5, 6] 3 20 pre nc0 []
        = some (nc1, results1, false) ∧
      MarkSourceSink exampleParams [1, 2, 3, 4, 5, 6] nc1 comp.ID = some (ncA, markResult) ∧
      markResult.foundSrcAndSnk = true ∧
      (((HasCycle ncA = some true ∨
          ∃ ncB, pruneComponent restartEnv exampleParams 3 ncA comp.ID = some ncB ∧
            HasCycle ncB = some true) ∧
          [restartVariant] = results1) ∨
        ∃ processed bad,
          (∀ q ∈ processed, restartEnv.HasAlmostRepeatKmer (restartEnv.PathSeq q) 3
            exampleParams.maxRptMismatch = false) ∧
          restartEnv.HasAlmostRepeatKmer (restartEnv.PathSeq bad) 3
            exampleParams.maxRptMismatch = true ∧
          processPaths restartEnv restartWindow 3 markResult processed results1
            = some [restartVariant]) :=
  ⟨by decide,
    ProcessGraph_restart_appends_nothing_more restartEnv exampleParams restartWindow
      [1, 2, 3, 4, 5, 6] 3 20 restartGraph restartFinal [] [restartVariant] (by decide)⟩

theorem Shrinks_refl (t : NodeIdentifier) (n : Node) : Shrinks t n n :=
  ⟨rfl, rfl, rfl, fun _ h => h, fun _ h _ => h⟩

theorem Shrinks_trans {t : NodeIdentifier} {a b c : Node} (h1 : Shrinks t a b)
    (h2 : Shrinks t b c) : Shrinks t a c :=
  ⟨h2.1.trans h1.1, h2.2.1.trans h1.2.1, h2.2.2.1.trans h1.2.2.1,
    fun e he => h1.2.2.2.1 e (h2.2.2.2.1 e he),
    fun e he hne => h2.2.2.2.2 e (h1.2.2.2.2 e he hne) hne⟩

theorem Shrinks_eraseEdge (t : NodeIdentifier) (k : EdgeKind) (n : Node) :
    Shrinks t n (n.EraseEdge t k) := by
  refine ⟨rfl, rfl, rfl, ?_, ?_⟩
  · intro e he
    exact (List.mem_filter.mp he).1
  · intro e he hne
    unfold Node.EraseEdge
    simp only [List.mem_filter, decide_eq_true_eq]
    refine ⟨he, ?_⟩
    intro hc
    rw [hc] at hne
    exact hne rfl

theorem foldl_eraseEdge_shrinks (t : NodeIdentifier) :
    ∀ (es : List Edge) (nc : NodeContainer),
      ∃ g : Node → Node, (∀ n, Shrinks t n (g n)) ∧
        es.foldl (fun acc e => updateNode acc e.destId
          (fun nb => nb.EraseEdge t (ReverseEdgeKind e.kind))) nc = nc.map g := by
  intro es
  induction es with
  | nil => intro nc; exact ⟨fun n => n, fun n => Shrinks_refl t n, by simp⟩
  | cons e es ih =>
    intro nc
    obtain ⟨g, hg, heq⟩ := ih (updateNode nc e.destId
      (fun nb => nb.EraseEdge t (ReverseEdgeKind e.kind)))
    refine ⟨fun n => g (upd e.destId (fun nb => nb.EraseEdge t (ReverseEdgeKind e.kind)) n),
      ?_, ?_⟩
    · intro n
      apply Shrinks_trans _ (hg _)
      unfold upd
      split
      · exact Shrinks_eraseEdge t _ n
      · exact Shrinks_refl t n
    · rw [List.foldl_cons, heq, updateNode_eq_map, List.map_map]
      rfl

theorem EdgeSymmetric_eraseKey_map {nc : NodeContainer} {t : NodeIdentifier} {g : Node → Node}
    (hs : EdgeSymmetric nc) (hg : ∀ n, Shrinks t n (g n)) :
    EdgeSymmetric (eraseKey (nc.map g) t) := by
  intro u2 hu2 e he v2 hv2 hve
  unfold eraseKey at hu2 hv2
  rw [List.mem_filter, List.mem_map] at hu2 hv2
  obtain ⟨⟨u, hu, rfl⟩, hut⟩ := hu2
  obtain ⟨⟨v, hv, rfl⟩, _⟩ := hv2
  have hut2 : u.id ≠ t := by
    rw [(hg u).1] at hut
    simpa using hut
  have he2 := (hg u).2.2.2.1 e he
  have hback := hs u hu e he2 v hv (by rw [← (hg v).1]; exact hve)
  rw [(hg u).1]
  exact (hg v).2.2.2.2 _ hback hut2

/-- Erasing a node keeps the node map edge-symmetric. -/
theorem EraseNode_symmetric (nc : NodeContainer) (node_id : NodeIdentifier)
    (hs : EdgeSymmetric nc) : EdgeSymmetric (EraseNode nc node_id) := by
  unfold EraseNode
  cases hf : findNode nc node_id with
  | none => exact hs
  | some v =>
    simp only
    split
    · exact hs
    · obtain ⟨g, hg, heq⟩ := foldl_eraseEdge_shrinks v.id v.edges nc
      rw [heq]
      exact EdgeSymmetric_eraseKey_map hs hg

/-- Erasing a list of nodes keeps the node map edge-symmetric. -/
theorem RemoveNodes_symmetric (ids : List NodeIdentifier) :
    ∀ nc : NodeContainer, EdgeSymmetric nc → EdgeSymmetric (RemoveNodes nc ids) := by
  induction ids with
  | nil => intro nc hs; exact hs
  | cons id ids ih =>
    intro nc hs
    unfold RemoveNodes
    rw [List.foldl_cons]
    exact ih (EraseNode nc id) (EraseNode_symmetric nc id hs)

/-- Removing the low-coverage nodes keeps the node map edge-symmetric. -/
theorem RemoveLowCovNodes_symmetric (E : Env) (p : CliParams) (nc : NodeContainer)
    (comp_id : Nat) (hs : EdgeSymmetric nc) :
    EdgeSymmetric (RemoveLowCovNodes E p nc comp_id).1 := by
  unfold RemoveLowCovNodes
  simp only
  split
  · exact hs
  · exact RemoveNodes_symmetric _ nc hs

theorem RevCompBase_involutive {c : Char} (h : c = 'A' ∨ c = 'C' ∨ c = 'G' ∨ c = 'T') :
    RevCompBase (RevCompBase c) = c := by
  rcases h with h | h | h | h <;> subst h <;> rfl

theorem RevComp_RevComp {s : List Char} (h : IsNucleotideSeq s) : RevComp (RevComp s) = s := by
  unfold RevComp
  rw [List.map_reverse, List.reverse_reverse, List.map_map]
  calc s.map (RevCompBase ∘ RevCompBase) = s.map id :=
        List.map_congr_left (fun c hc => RevCompBase_involutive (h c hc))
    _ = s := List.map_id s

/-- C16. The canonical sequence stored by `Kmer(s)` is the lexicographic minimum of `s` and
its reverse complement. -/
theorem Kmer_seq_is_lex_min (s : List Char) : (Kmer.new s).seq = min s (RevComp s) := by
  unfold Kmer.new Kmer.Canonicalize
  simp only
  rcases lt_trichotomy s (RevComp s) with h | h | h
  · rw [if_pos h, min_eq_left h.le]
  · rw [if_neg (by rw [← h]; exact lt_irrefl s), ← h, min_self]
  · rw [if_neg (not_lt.mpr h.le), min_eq_right h.le]

/-- C17 (counterexample). The sequence ACGT equals its reverse complement, so it is `≤` its
reverse complement, and `Kmer(ACGT)` has strand REV. -/
theorem Kmer_palindrome_gets_REV :
    RevComp ['A', 'C', 'G', 'T'] = ['A', 'C', 'G', 'T'] ∧
    ¬ ((Kmer.new ['A', 'C', 'G', 'T']).strand = Strand.FWD ↔
        ['A', 'C', 'G', 'T'] ≤ RevComp ['A', 'C', 'G', 'T']) := by
  decide

/-- C17 (amended). The strand recorded by `Canonicalize` is FWD exactly when `s` is strictly
smaller than its reverse complement; when the two are equal the strand is REV. -/
theorem Kmer_strand_FWD_iff_lt (s : List Char) :
    ((Kmer.new s).strand = Strand.FWD ↔ s < RevComp s) ∧
    (s = RevComp s → (Kmer.new s).strand = Strand.REV) := by
  unfold Kmer.new Kmer.Canonicalize
  simp only
  constructor
  · by_cases h : s < RevComp s
    · rw [if_pos h]; exact ⟨fun _ => h, fun _ => rfl⟩
    · rw [if_neg h]
      constructor
      · intro hc; cases hc
      · intro hc; exact absurd hc h
  · intro h
    rw [if_neg (by rw [← h]; exact lt_irrefl s)]
/-- C18 (counterexample). Canonicalising TTT gives (AAA, REV); canonicalising that
canonical sequence AAA gives (AAA, FWD): the strands differ. -/
theorem Kmer_canonicalize_twice_changes_strand :
    Kmer.Canonicalize ['T', 'T', 'T'] = ⟨['A', 'A', 'A'], Strand.REV⟩ ∧
    Kmer.Canonicalize (Kmer.Canonicalize ['T', 'T', 'T']).seq = ⟨['A', 'A', 'A'], Strand.FWD⟩ ∧
    Kmer.Canonicalize (Kmer.Canonicalize ['T', 'T', 'T']).seq ≠ Kmer.Canonicalize ['T', 'T', 'T'] := by
  decide

/-- C18 (amended). For a sequence `s` over {A,C,G,T}, canonicalising the canonical sequence
of `s` gives the same canonical sequence as canonicalising `s`; the strand of the second
result is FWD unless `s` equals its reverse complement (then it is REV, as for `s`). -/
theorem Kmer_canonicalize_seq_idempotent (s : List Char) (hs : IsNucleotideSeq s) :
    (Kmer.Canonicalize (Kmer.Canonicalize s).seq).seq = (Kmer.Canonicalize s).seq ∧
    (Kmer.Canonicalize (Kmer.Canonicalize s).seq).strand
      = if s = RevComp s then Strand.REV else Strand.FWD := by
  have hrr := RevComp_RevComp hs
  rcases lt_trichotomy s (RevComp s) with h | h | h
  · have h1 : Kmer.Canonicalize s = ⟨s, Strand.FWD⟩ := by
      unfold Kmer.Canonicalize
      simp only
      rw [if_pos h]
    rw [h1]
    simp only
    rw [h1, if_neg (ne_of_lt h)]
    exact ⟨rfl, rfl⟩
  · have hirr : ¬ s < RevComp s := by rw [← h]; exact lt_irrefl s
    have h1 : Kmer.Canonicalize s = ⟨RevComp s, Strand.REV⟩ := by
      unfold Kmer.Canonicalize
      simp only
      rw [if_neg hirr]
    have h2 : Kmer.Canonicalize (RevComp s) = ⟨RevComp s, Strand.REV⟩ := by
      unfold Kmer.Canonicalize
      simp only
      rw [hrr, if_neg (by rw [← h]; exact lt_irrefl s)]
      exact congrArg (fun l => Kmer.mk l Strand.REV) h
    rw [h1]
    simp only
    rw [h2, if_pos h]
    exact ⟨rfl, rfl⟩
  · have h1 : Kmer.Canonicalize s = ⟨RevComp s, Strand.REV⟩ := by
      unfold Kmer.Canonicalize
      simp only
      rw [if_neg (not_lt.mpr h.le)]
    have h2 : Kmer.Canonicalize (RevComp s) = ⟨RevComp s, Strand.FWD⟩ := by
      unfold Kmer.Canonicalize
      simp only
      rw [hrr, if_pos h]
    rw [h1]
    simp only
    rw [h2, if_neg (ne_of_gt h)]
    exact ⟨rfl, rfl⟩

theorem Kmer_canonicalize_seq_idempotent_witness :
    IsNucleotideSeq ['T', 'T', 'G'] ∧
    Kmer.Canonicalize ['T', 'T', 'G'] = ⟨['C', 'A', 'A'], Strand.REV⟩ ∧
    (Kmer.Canonicalize (Kmer.Canonicalize ['T', 'T', 'G']).seq).seq
      = (Kmer.Canonicalize ['T', 'T', 'G']).seq ∧
    (Kmer.Canonicalize (Kmer.Canonicalize ['T', 'T', 'G']).seq).strand
      = if ['T', 'T', 'G'] = RevComp ['T', 'T', 'G'] then Strand.REV else Strand.FWD :=
  ⟨by decide, by decide, Kmer_canonicalize_seq_idempotent ['T', 'T', 'G'] (by decide)⟩

/-- C19. Hash stability: for a sequence `s` over {A,C,G,T} and any hash function, the ids
of `Kmer(s)` and `Kmer(revcomp(s))` are equal, because the two k-mers store the same
canonical sequence. -/
theorem Kmer_ID_revcomp_stable (hash : List Char → Nat) (s : List Char)
    (hs : IsNucleotideSeq s) :
    (Kmer.new s).seq = (Kmer.new (RevComp s)).seq ∧
    Kmer.ID hash (Kmer.new s) = Kmer.ID hash (Kmer.new (RevComp s)) := by
  have hrr := RevComp_RevComp hs
  have hseq : (Kmer.new s).seq = (Kmer.new (RevComp s)).seq := by
    unfold Kmer.new Kmer.Canonicalize
    simp only
    rw [hrr]
    rcases lt_trichotomy s (RevComp s) with h | h | h
    · rw [if_pos h, if_neg (not_lt.mpr h.le)]
    · rw [if_neg (by rw [← h]; exact lt_irrefl s), if_neg (by rw [← h]; exact lt_irrefl s)]
      exact h.symm
    · rw [if_neg (not_lt.mpr h.le), if_pos h]
  refine ⟨hseq, ?_⟩
  unfold Kmer.ID
  rw [hseq]

theorem Kmer_ID_revcomp_stable_witness :
    IsNucleotideSeq ['T', 'T', 'G'] ∧ RevComp ['T', 'T', 'G'] = ['C', 'A', 'A'] ∧
    (Kmer.new ['T', 'T', 'G']).seq = (Kmer.new (RevComp ['T', 'T', 'G'])).seq ∧
    Kmer.ID (fun l => l.length) (Kmer.new ['T', 'T', 'G'])
      = Kmer.ID (fun l => l.length) (Kmer.new (RevComp ['T', 'T', 'G'])) :=
  ⟨by decide, by decide, Kmer_ID_revcomp_stable (fun l => l.length) ['T', 'T', 'G'] (by decide)⟩

/-- C11 (code defect). For ref `AACGT` aligned with qry `-ACGT` the leading trim removes one
column, whose reference character is the base `A`, and `TrimEndGaps` returns 0; for ref
`-ACGT` aligned with qry `TACGT` the removed column has a gap in the reference and
`TrimEndGaps` returns 1: the loop counts the gap characters of the reference. -/
theorem TrimEndGaps_counts_reference_gaps :
    TrimEndGaps ⟨['A', 'A', 'C', 'G', 'T'], ['-', 'A', 'C', 'G', 'T']⟩
      = some (⟨['A', 'C', 'G'], ['A', 'C', 'G']⟩, 0) ∧
    leadingRefBases ⟨['A', 'A', 'C', 'G', 'T'], ['-', 'A', 'C', 'G', 'T']⟩ = 1 ∧
    TrimEndGaps ⟨['-', 'A', 'C', 'G', 'T'], ['T', 'A', 'C', 'G', 'T']⟩
      = some (⟨['A', 'C', 'G'], ['A', 'C', 'G']⟩, 1) ∧
    leadingRefBases ⟨['-', 'A', 'C', 'G', 'T'], ['T', 'A', 'C', 'G', 'T']⟩ = 0 := by
  refine ⟨by decide, by decide, by decide, by decide⟩

/-- C12 (code defect). The alignment of ref `ACGTACGT` with path `ACGTTTGACGT` has three
INSERTION columns after the match `T`; it has no gap at its ends, so it is walked
untrimmed, and the walk gives one INSERTION transcript whose ALT bases are `T` instead of
`TTG`: each extension appends the path base to the REF bases. -/
theorem walkAlignment_insertion_run_keeps_first_alt_base :
    TrimEndGaps ⟨['A', 'C', 'G', 'T', '-', '-', '-', 'A', 'C', 'G', 'T'],
        ['A', 'C', 'G', 'T', 'T', 'T', 'G', 'A', 'C', 'G', 'T']⟩
      = some (⟨['A', 'C', 'G', 'T', '-', '-', '-', 'A', 'C', 'G', 'T'],
        ['A', 'C', 'G', 'T', 'T', 'T', 'G', 'A', 'C', 'G', 'T']⟩, 0) ∧
    walkAlignment ⟨['A', 'C', 'G', 'T', '-', '-', '-', 'A', 'C', 'G', 'T'],
        ['A', 'C', 'G', 'T', 'T', 'T', 'G', 'A', 'C', 'G', 'T']⟩ 100
      = some [⟨105, TranscriptCode.INSERTION, 4, 4, 5, 7, ['-', '-', 'T', '-', 'G'], ['T'],
          'T', 'T'⟩] := by
  refine ⟨by decide, by decide⟩

/-- C13 (code defect). The alignment of ref `ACGTTTGACGT` with path `ACGTACGT` has three
DELETION columns after the match `T`; the walk gives one transcript whose code is COMPLEX
and whose REF bases are `TT-G-` instead of `TTG`: each extension appends the gap of the
path to the REF bases, the ALT bases keep their length 1, and the test for a growing
deletion fails at the third column. -/
theorem walkAlignment_deletion_run_turns_complex :
    TrimEndGaps ⟨['A', 'C', 'G', 'T', 'T', 'T', 'G', 'A', 'C', 'G', 'T'],
        ['A', 'C', 'G', 'T', '-', '-', '-', 'A', 'C', 'G', 'T']⟩
      = some (⟨['A', 'C', 'G', 'T', 'T', 'T', 'G', 'A', 'C', 'G', 'T'],
        ['A', 'C', 'G', 'T', '-', '-', '-', 'A', 'C', 'G', 'T']⟩, 0) ∧
    walkAlignment ⟨['A', 'C', 'G', 'T', 'T', 'T', 'G', 'A', 'C', 'G', 'T'],
        ['A', 'C', 'G', 'T', '-', '-', '-', 'A', 'C', 'G', 'T']⟩ 100
      = some [⟨105, TranscriptCode.COMPLEX, 4, 3, 7, 4, ['T', 'T', '-', 'G', '-'], ['-'],
          'T', 'T'⟩] ∧
    walkAlignment ⟨['A', 'C', 'G', 'T', 'T', 'G', 'A', 'C', 'G', 'T'],
        ['A', 'C', 'G', 'T', '-', '-', 'A', 'C', 'G', 'T']⟩ 100
      = some [⟨105, TranscriptCode.DELETION, 4, 3, 6, 4, ['T', 'G', '-'], ['-'], 'T', 'T'⟩] := by
  refine ⟨by decide, by decide, by decide⟩

theorem walkColumns_identity (s : List Char) (hs : ALIGN_GAP ∉ s) (a : Nat)
    (init : WalkState) (hcode : init.code = TranscriptCode.REF_MATCH)
    (hts : init.transcripts = []) :
    ∀ n, n ≤ s.length → ∃ st, (List.range n).foldlM (walkColumn ⟨s, s⟩ a) init = some st ∧
      st.code = TranscriptCode.REF_MATCH ∧ st.transcripts = [] := by
  intro n
  induction n with
  | zero => intro _; exact ⟨init, rfl, hcode, hts⟩
  | succ n ih =>
    intro hn
    obtain ⟨st, hst, hc, ht⟩ := ih (by omega)
    have hlt : n < s.length := by omega
    have hget : s[n]? = some s[n] := List.getElem?_eq_getElem hlt
    have hne : s[n] ≠ ALIGN_GAP := by
      intro hc2
      exact hs (hc2 ▸ List.getElem_mem hlt)
    rw [List.range_succ, List.foldlM_append, hst]
    simp only [Option.bind_eq_bind, Option.some_bind, List.foldlM_cons, List.foldlM_nil]
    unfold walkColumn
    simp only [hget, if_neg hne, if_true, Option.bind_eq_bind, Option.some_bind]
    exact ⟨_, rfl, rfl, ht⟩

/-- C14. Alignment reversibility: when the sequence of the path equals the reference anchor
`window.seq[startOffset, endOffset)`, `ProcessPath` returns with the results vector
unchanged. The alignment walk itself finds no transcript either when it is run on a
gap-free sequence aligned with itself. -/
theorem ProcessPath_identical_path_appends_nothing (E : Env) (window : RefWindow)
    (kmerSize : Nat) (path : Path) (einfo : SrcSnkResult) (results : List Variant)
    (hoff : einfo.startOffset ≤ window.seq.length)
    (heq : E.PathSeq path = substr window.seq einfo.startOffset (RefAnchorLen einfo)) :
    ProcessPath E window kmerSize path einfo results = some results ∧
    (ALIGN_GAP ∉ E.PathSeq path →
      ∀ a, walkAlignment ⟨E.PathSeq path, E.PathSeq path⟩ a = some []) := by
  constructor
  · unfold ProcessPath
    simp only
    rw [if_neg (by omega), if_pos heq]
  · intro hgap a
    obtain ⟨st, hst, _, ht⟩ := walkColumns_identity (E.PathSeq path) hgap a
      ⟨0, 0, 0, TranscriptCode.REF_MATCH, []⟩ rfl rfl (E.PathSeq path).length (le_refl _)
    unfold walkAlignment
    simp only
    rw [hst]
    simp [ht]

theorem ProcessPath_identical_path_appends_nothing_witness :
    (⟨true, 0, 3⟩ : SrcSnkResult).startOffset ≤ exampleWindow.seq.length ∧
    exampleEnv.PathSeq chainPath = substr exampleWindow.seq 0 (RefAnchorLen ⟨true, 0, 3⟩) ∧
    ProcessPath exampleEnv exampleWindow 3 chainPath ⟨true, 0, 3⟩ [restartVariant]
      = some [restartVariant] ∧
    (ALIGN_GAP ∉ exampleEnv.PathSeq chainPath →
      ∀ a, walkAlignment ⟨exampleEnv.PathSeq chainPath, exampleEnv.PathSeq chainPath⟩ a
        = some []) :=
  ⟨by decide, by decide,
    ProcessPath_identical_path_appends_nothing exampleEnv exampleWindow 3 chainPath ⟨true, 0, 3⟩
      [restartVariant] (by decide) (by decide)⟩

theorem ReverseEdgeKind_involutive (k : EdgeKind) : ReverseEdgeKind (ReverseEdgeKind k) = k := by
  cases k <;> rfl

theorem findNode_eq_none {nc : NodeContainer} {x : NodeIdentifier}
    (h : ∀ n ∈ nc, n.id ≠ x) : findNode nc x = none := by
  unfold findNode
  rw [List.find?_eq_none]
  intro n hn
  simpa using h n hn

/-- The loop of `EraseNode` over the edges `es` of the erased node `t`, node by node: a
node loses the edge to `t` that mirrors an edge of `es` leading to it. -/
theorem foldl_eraseEdge_eq_map (t : NodeIdentifier) :
    ∀ (es : List Edge) (nc : NodeContainer),
      es.foldl (fun acc e => updateNode acc e.destId
          (fun nb => nb.EraseEdge t (ReverseEdgeKind e.kind))) nc
        = nc.map (fun n => { n with edges := n.edges.filter (fun x =>
            decide (∀ e ∈ es, ¬ (e.destId = n.id ∧ x = ⟨t, ReverseEdgeKind e.kind⟩))) }) := by
  intro es
  induction es with
  | nil =>
    intro nc
    simp
  | cons e es ih =>
    intro nc
    rw [List.foldl_cons, ih, updateNode_eq_map, List.map_map]
    apply List.map_congr_left
    intro n _
    by_cases h : n.id = e.destId
    · have h1 : upd e.destId (fun nb => nb.EraseEdge t (ReverseEdgeKind e.kind)) n
          = n.EraseEdge t (ReverseEdgeKind e.kind) := by
        unfold upd; rw [if_pos h]
      simp only [Function.comp_apply]
      rw [h1]
      simp only [Node.EraseEdge, List.filter_filter]
      congr 1
      apply List.filter_congr
      intro x _
      simp only [List.forall_mem_cons, Bool.decide_and, h, true_and, ne_eq]
      rw [Bool.and_comm]
    · have h1 : upd e.destId (fun nb => nb.EraseEdge t (ReverseEdgeKind e.kind)) n = n := by
        unfold upd; rw [if_neg h]
      simp only [Function.comp_apply]
      rw [h1]
      congr 1
      apply List.filter_congr
      intro x _
      have h2 : ¬ e.destId = n.id := fun hc => h hc.symm
      simp only [List.forall_mem_cons, h2, false_and, not_false_eq_true, true_and]
/-- C20. Node removal leaves no dangling edge: in an edge-symmetric node map, erasing a
real node `v` (the entry of its key) gives the map without the entry of `v` in which
every other node has lost exactly its edges to `v`. So `v` is absent, no remaining node
has an edge to `v`, and every other node keeps its id, component id, payload and, in
order, its edges to nodes other than `v`. -/
theorem EraseNode_no_dangling_edge (nc : NodeContainer) (v : Node)
    (hs : EdgeSymmetric nc) (hv : findNode nc v.id = some v) (hreal : v.IsMockNode = false) :
    EraseNode nc v.id = (eraseKey nc v.id).map (fun u => u.EraseEdgesTo v.id) ∧
    findNode (EraseNode nc v.id) v.id = none ∧
    (∀ u ∈ EraseNode nc v.id, ∀ e ∈ u.edges, e.destId ≠ v.id) ∧
    (∀ u ∈ nc, u.id ≠ v.id → ∃ u2 ∈ EraseNode nc v.id,
      u2.id = u.id ∧ u2.ComponentID = u.ComponentID ∧ u2.data = u.data ∧
      u2.edges = u.edges.filter (fun e => decide (e.destId ≠ v.id))) := by
  have hvmem : v ∈ nc := (findNode_some hv).1
  have heq : EraseNode nc v.id = (eraseKey nc v.id).map (fun u => u.EraseEdgesTo v.id) := by
    unfold EraseNode
    rw [hv]
    simp only [hreal, Bool.false_eq_true, if_false]
    rw [foldl_eraseEdge_eq_map]
    unfold eraseKey
    rw [List.filter_map]
    apply List.map_congr_left
    intro u hu
    have humem : u ∈ nc := (List.mem_filter.mp hu).1
    unfold Node.EraseEdgesTo
    congr 1
    apply List.filter_congr
    intro x hx
    by_cases hd : x.destId = v.id
    · have hback := hs u humem x hx v hvmem hd.symm
      have hx2 : x = ⟨v.id, ReverseEdgeKind (ReverseEdgeKind x.kind)⟩ := by
        rw [ReverseEdgeKind_involutive, ← hd]
      have hl : ¬ ∀ e ∈ v.edges,
          ¬ (e.destId = u.id ∧ x = ⟨v.id, ReverseEdgeKind e.kind⟩) := by
        intro hall
        exact hall _ hback ⟨rfl, hx2⟩
      simp only [hl, hd, decide_False, ne_eq, not_true_eq_false]
    · have hl : ∀ e ∈ v.edges,
          ¬ (e.destId = u.id ∧ x = ⟨v.id, ReverseEdgeKind e.kind⟩) := by
        intro e _ hc
        apply hd
        rw [hc.2]
      simp only [hd, decide_True, ne_eq, not_false_eq_true]
      exact decide_eq_true hl
  refine ⟨heq, ?_, ?_, ?_⟩
  · apply findNode_eq_none
    rw [heq]
    intro n hn
    obtain ⟨u, hu, rfl⟩ := List.mem_map.mp hn
    have := (List.mem_filter.mp hu).2
    simpa [Node.EraseEdgesTo] using this
  · rw [heq]
    intro u hu e he
    obtain ⟨u0, _, rfl⟩ := List.mem_map.mp hu
    have := (List.mem_filter.mp he).2
    simpa using this
  · intro u hu hne
    refine ⟨u.EraseEdgesTo v.id, ?_, rfl, rfl, rfl, rfl⟩
    rw [heq]
    apply List.mem_map_of_mem
    unfold eraseKey
    exact List.mem_filter.mpr ⟨hu, by simpa using hne⟩

theorem EraseNode_no_dangling_edge_witness :
    EdgeSymmetric chainGraph ∧
    findNode chainGraph 2 = some ⟨2, 1, [⟨1, .RR⟩, ⟨3, .FF⟩], examplePayload⟩ ∧
    Node.IsMockNode ⟨2, 1, [⟨1, .RR⟩, ⟨3, .FF⟩], examplePayload⟩ = false ∧
    EraseNode chainGraph 2
      = [ ⟨MOCK_SOURCE_ID, 0, [], examplePayload⟩, ⟨MOCK_SINK_ID, 0, [], examplePayload⟩,
          ⟨1, 1, [], examplePayload⟩, ⟨3, 1, [], examplePayload⟩ ] ∧
    (∀ u ∈ EraseNode chainGraph 2, ∀ e ∈ u.edges, e.destId ≠ 2) :=
  ⟨by decide, by decide, by decide, by decide,
    (EraseNode_no_dangling_edge chainGraph ⟨2, 1, [⟨1, .RR⟩, ⟨3, .FF⟩], examplePayload⟩
      (by decide) (by decide) (by decide)).2.2.1⟩

theorem nextPathLoopCount_fst (flow : EdmondKarpMaxFlow) :
    ∀ (fuel numVisits examined : Nat) (best : PathBuilder) (queue : List PathBuilder),
      (nextPathLoopCount flow fuel numVisits examined best queue).map Prod.fst
        = nextPathLoop flow fuel numVisits best queue := by
  intro fuel
  induction fuel with
  | zero =>
    intro numVisits examined best queue
    cases queue with
    | nil => simp [nextPathLoopCount, nextPathLoop]
    | cons a l => simp [nextPathLoopCount, nextPathLoop]
  | succ fuel ih =>
    intro numVisits examined best queue
    cases queue with
    | nil => simp [nextPathLoopCount, nextPathLoop]
    | cons curr rest =>
      have key : ∀ o : Option Node,
          Option.map Prod.fst
            (match o with
            | none => none
            | some lastNode =>
              match expandEdges flow lastNode.id curr best lastNode.edges with
              | none => none
              | some pushed =>
                nextPathLoopCount flow fuel ((numVisits + 1) % U32_MOD) (examined + 1) best
                  (rest ++ pushed))
          = (match o with
            | none => none
            | some lastNode =>
              match expandEdges flow lastNode.id curr best lastNode.edges with
              | none => none
              | some pushed =>
                nextPathLoop flow fuel ((numVisits + 1) % U32_MOD) best (rest ++ pushed)) := by
        intro o
        cases o with
        | none => rfl
        | some lastNode =>
          simp only
          cases hx : expandEdges flow lastNode.id curr best lastNode.edges with
          | none => rfl
          | some pushed => exact ih _ _ _ _
      rw [nextPathLoopCount, nextPathLoop]
      simp only
      by_cases h1 : (numVisits + 1) % U32_MOD > flow.bfsLimit
      · rw [if_pos h1, if_pos h1]; rfl
      · rw [if_neg h1, if_neg h1]
        by_cases h2 : curr.pathLen > flow.maxPathLen
        · rw [if_pos h2, if_pos h2]; exact ih _ _ _ _
        · rw [if_neg h2, if_neg h2]
          by_cases h3 : curr.touchedSink = true ∧ curr.pathScore > 0
          · rw [if_pos h3, if_pos h3]; rfl
          · rw [if_neg h3, if_neg h3]
            exact key _
theorem expandEdges_total (flow : EdmondKarpMaxFlow) (hclosed : EdgesClosed flow.nodesMap)
    {lastNode : Node} (hmem : lastNode ∈ flow.nodesMap) {curr best : PathBuilder}
    (hbest : best.pathScore = 0)
    (hcurr : curr.pathScore = 0 ∨ HasLastIn flow.nodesMap curr) :
    ∀ es : List Edge, (∀ e ∈ es, e ∈ lastNode.edges) →
      ∃ pushed, expandEdges flow lastNode.id curr best es = some pushed ∧
        ∀ b ∈ pushed, HasLastIn flow.nodesMap b := by
  intro es
  induction es with
  | nil => intro _; exact ⟨[], rfl, fun b hb => by cases hb⟩
  | cons e es ih =>
    intro hsub
    obtain ⟨l, hl, hlp⟩ := ih (fun x hx => hsub x (List.mem_cons_of_mem _ hx))
    rw [expandEdges]
    by_cases h1 : e.destId = MOCK_SINK_ID
    · rw [if_pos h1]
      by_cases h2 : curr.pathScore ≤ best.pathScore
      · rw [if_pos h2]; exact ⟨l, hl, hlp⟩
      · rw [if_neg h2, hl]
        refine ⟨curr.MarkSinkTouch :: l, rfl, ?_⟩
        intro b hb
        rcases List.mem_cons.mp hb with hb | hb
        · rcases hcurr with hc | hc
          · exact absurd (by omega) h2
          · subst hb; exact hc
        · exact hlp b hb
    · rw [if_neg h1]
      by_cases h3 : e.destId = MOCK_SOURCE_ID ∨ e.SrcDirection ≠ curr.pathDir
      · rw [if_pos h3]; exact ⟨l, hl, hlp⟩
      · rw [if_neg h3]
        have hsome := hclosed lastNode hmem e (hsub e (List.mem_cons_self _ _))
        cases hf : findNode flow.nodesMap e.destId with
        | none => rw [hf] at hsome; cases hsome
        | some neighbour =>
          simp only [hl, Option.map_some']
          refine ⟨_, rfl, ?_⟩
          intro b hb
          rcases List.mem_cons.mp hb with hb | hb
          · subst hb
            refine ⟨neighbour, ?_, (findNode_some hf).1⟩
            unfold PathBuilder.Extend
            simp
          · exact hlp b hb

theorem nextPathLoopCount_bounded (flow : EdmondKarpMaxFlow)
    (hclosed : EdgesClosed flow.nodesMap) (hsrc : flow.sourcePtr ∈ flow.nodesMap)
    (hlim : flow.bfsLimit + 1 < U32_MOD) :
    ∀ (fuel numVisits : Nat) (queue : List PathBuilder),
      numVisits ≤ flow.bfsLimit → flow.bfsLimit + 1 ≤ fuel + numVisits →
      ((numVisits = 0 ∧ queue = [PathBuilder.empty]) ∨
        ∀ b ∈ queue, HasLastIn flow.nodesMap b) →
      ∃ best n, nextPathLoopCount flow fuel numVisits numVisits PathBuilder.empty queue
          = some (best, n) ∧ n ≤ flow.bfsLimit := by
  intro fuel
  induction fuel with
  | zero => intro numVisits queue h1 h2 _; omega
  | succ fuel ih =>
    intro numVisits queue hle hfuel hinv
    cases queue with
    | nil => exact ⟨PathBuilder.empty, numVisits, by simp [nextPathLoopCount], hle⟩
    | cons curr rest =>
      have hnv : (numVisits + 1) % U32_MOD = numVisits + 1 := Nat.mod_eq_of_lt (by omega)
      have hrest : ∀ b ∈ rest, HasLastIn flow.nodesMap b := by
        rcases hinv with ⟨_, hq⟩ | hq
        · intro b hb
          simp only [List.cons.injEq] at hq
          rw [hq.2] at hb
          cases hb
        · intro b hb; exact hq b (List.mem_cons_of_mem _ hb)
      rw [nextPathLoopCount]
      simp only [hnv]
      by_cases h1 : numVisits + 1 > flow.bfsLimit
      · rw [if_pos h1]; exact ⟨_, _, rfl, hle⟩
      · rw [if_neg h1]
        by_cases h2 : curr.pathLen > flow.maxPathLen
        · rw [if_pos h2]
          exact ih (numVisits + 1) rest (by omega) (by omega) (Or.inr hrest)
        · rw [if_neg h2]
          by_cases h3 : curr.touchedSink = true ∧ curr.pathScore > 0
          · rw [if_pos h3]; exact ⟨_, _, rfl, by omega⟩
          · rw [if_neg h3]
            have hstep : ∀ lastNode : Node, lastNode ∈ flow.nodesMap →
                (curr.pathScore = 0 ∨ HasLastIn flow.nodesMap curr) →
                ∃ best n,
                  (match expandEdges flow lastNode.id curr PathBuilder.empty lastNode.edges with
                    | none => none
                    | some pushed =>
                      nextPathLoopCount flow fuel (numVisits + 1) (numVisits + 1)
                        PathBuilder.empty (rest ++ pushed)) = some (best, n) ∧
                  n ≤ flow.bfsLimit := by
              intro lastNode hmem hcurr
              obtain ⟨pushed, hp, hpl⟩ := expandEdges_total flow hclosed hmem
                (show PathBuilder.empty.pathScore = 0 from rfl) hcurr
                lastNode.edges (fun e he => he)
              rw [hp]
              apply ih (numVisits + 1) (rest ++ pushed) (by omega) (by omega)
              right
              intro b hb
              rcases List.mem_append.mp hb with hb | hb
              · exact hrest b hb
              · exact hpl b hb
            rcases hinv with ⟨hz, hq⟩ | hq
            · simp only [List.cons.injEq] at hq
              obtain ⟨hc, _⟩ := hq
              have hcond : curr.NumNodes = 0 ∧ numVisits + 1 = 1 := by
                rw [hc, hz]; exact ⟨rfl, rfl⟩
              rw [if_pos hcond]
              exact hstep flow.sourcePtr hsrc (Or.inl (by rw [hc]; rfl))
            · obtain ⟨nL, hnL, hmem⟩ := hq curr (List.mem_cons_self _ _)
              have hcond : ¬ (curr.NumNodes = 0 ∧ numVisits + 1 = 1) := by
                intro hc
                have h0 : curr.nodesList = [] := List.length_eq_zero.mp hc.1
                rw [h0] at hnL
                cases hnL
              rw [if_neg hcond]
              have hlast : curr.LastNode = some nL := hnL
              rw [hlast]
              exact hstep nL hmem (Or.inr ⟨nL, hnL, hmem⟩)
/-- C15 (amended). Enumeration bound: for a traversal limit below 2^32 - 1 and a node map
closed under its edges, one call of `NextPath` examines at most `bfs_limit` builders and
returns: `bfs_limit + 1` iterations of fuel are never used up. With `bfs_limit = 0` it
returns no path. -/
theorem NextPath_examines_at_most_bfsLimit (flow : EdmondKarpMaxFlow) (fuel : Nat)
    (hsrc : findNode flow.nodesMap MOCK_SOURCE_ID = some flow.sourcePtr)
    (hclosed : EdgesClosed flow.nodesMap)
    (hlim : flow.bfsLimit + 1 < U32_MOD) (hfuel : flow.bfsLimit + 1 ≤ fuel) :
    (∃ best n,
      nextPathLoopCount flow fuel 0 0 PathBuilder.empty [PathBuilder.empty] = some (best, n) ∧
      n ≤ flow.bfsLimit ∧
      nextPathLoop flow fuel 0 PathBuilder.empty [PathBuilder.empty] = some best) ∧
    (NextPath fuel flow).isSome = true ∧
    (flow.bfsLimit = 0 → NextPath fuel flow = some (none, flow)) := by
  obtain ⟨best, n, hcount, hn⟩ := nextPathLoopCount_bounded flow hclosed (findNode_some hsrc).1
    hlim fuel 0 [PathBuilder.empty] (Nat.zero_le _) (by omega) (Or.inl ⟨rfl, rfl⟩)
  have hloop : nextPathLoop flow fuel 0 PathBuilder.empty [PathBuilder.empty] = some best := by
    rw [← nextPathLoopCount_fst flow fuel 0 0, hcount]
    rfl
  refine ⟨⟨best, n, hcount, hn, hloop⟩, ?_, ?_⟩
  · unfold NextPath
    rw [hloop]
    simp only
    split <;> rfl
  · intro h0
    obtain ⟨f, rfl⟩ : ∃ f, fuel = f + 1 := ⟨fuel - 1, by omega⟩
    have hl : nextPathLoop flow (f + 1) 0 PathBuilder.empty [PathBuilder.empty]
        = some PathBuilder.empty := by
      rw [nextPathLoop]
      simp only
      rw [if_pos (by rw [h0]; decide)]
    unfold NextPath
    rw [hl]
    rfl

theorem NextPath_examines_at_most_bfsLimit_witness :
    findNode chainFlowLimit2.nodesMap MOCK_SOURCE_ID = some chainFlowLimit2.sourcePtr ∧
    EdgesClosed chainFlowLimit2.nodesMap ∧
    nextPathLoopCount chainFlowLimit2 3 0 0 PathBuilder.empty [PathBuilder.empty]
      = some (PathBuilder.empty, 2) ∧
    NextPath 3 chainFlowLimit2 = some (none, chainFlowLimit2) ∧
    ((∃ best n,
      nextPathLoopCount chainFlowLimit2 3 0 0 PathBuilder.empty [PathBuilder.empty]
        = some (best, n) ∧
      n ≤ chainFlowLimit2.bfsLimit ∧
      nextPathLoop chainFlowLimit2 3 0 PathBuilder.empty [PathBuilder.empty] = some best) ∧
    (NextPath 3 chainFlowLimit2).isSome = true ∧
    (chainFlowLimit2.bfsLimit = 0 → NextPath 3 chainFlowLimit2 = some (none, chainFlowLimit2))) :=
  ⟨by decide, by decide, by decide, by decide,
    NextPath_examines_at_most_bfsLimit chainFlowLimit2 3 (by decide) (by decide) (by decide)
      (by decide)⟩
theorem wrap_expandEdges (b : PathBuilder) (hscore : b.pathScore = 0)
    (hdir : b.pathDir = Strand.FWD) :
    expandEdges wrapFlow wrapNode.id b PathBuilder.empty wrapNode.edges
      = some [b.Extend 3 ⟨1, ⟨1, .FF⟩⟩ wrapNode] := by
  have hfind : findNode wrapFlow.nodesMap 1 = some wrapNode := by decide
  have hmark : (⟨1, ⟨1, .FF⟩⟩ : EdgeRef) ∈ wrapFlow.markedEdges := by decide
  have hk : wrapFlow.kmerSize = 3 := rfl
  have hs : ¬ ((1 : NodeIdentifier) = MOCK_SINK_ID) := by decide
  have hs2 : ¬ ((1 : NodeIdentifier) = MOCK_SOURCE_ID) := by decide
  have hs3 : ¬ (MOCK_SOURCE_ID = MOCK_SINK_ID) := by decide
  have hd1 : (⟨1, .FF⟩ : Edge).SrcDirection = Strand.FWD := rfl
  have hd2 : (⟨1, .RR⟩ : Edge).SrcDirection = Strand.REV := rfl
  have hb0 : PathBuilder.empty.pathScore = 0 := rfl
  show expandEdges wrapFlow 1 b PathBuilder.empty
    [⟨MOCK_SOURCE_ID, .RR⟩, ⟨1, .FF⟩, ⟨1, .RR⟩, ⟨MOCK_SINK_ID, .FF⟩] = _
  simp [expandEdges, hfind, hmark, hk, hs, hs2, hs3, hd1, hd2, hb0, hscore, hdir]
theorem wrap_chain :
    ∀ (d : Nat) (b : PathBuilder) (v c fuel : Nat),
      b.nodesList.getLast? = some wrapNode → b.touchedSink = false → b.pathScore = 0 →
      b.pathDir = Strand.FWD → b.pathLen ≠ 0 → b.pathLen + d = wrapFlow.maxPathLen + 1 →
      d + 1 ≤ fuel →
      nextPathLoopCount wrapFlow fuel v c PathBuilder.empty [b]
        = some (PathBuilder.empty, c + d + 1) := by
  intro d
  induction d with
  | zero =>
    intro b v c fuel _ _ _ _ _ hlen hfuel
    obtain ⟨f, rfl⟩ : ∃ f, fuel = f + 1 := ⟨fuel - 1, by omega⟩
    have hlim : ¬ (v + 1) % U32_MOD > wrapFlow.bfsLimit := by
      have := Nat.mod_lt (v + 1) (show U32_MOD > 0 by decide)
      show ¬ (v + 1) % U32_MOD > U32_MOD - 1
      omega
    have hdrop : b.pathLen > wrapFlow.maxPathLen := by omega
    rw [nextPathLoopCount]
    simp only
    rw [if_neg hlim, if_pos hdrop]
    cases f <;> rfl
  | succ d ih =>
    intro b v c fuel hlast hts hscore hdir hne hlen hfuel
    obtain ⟨f, rfl⟩ : ∃ f, fuel = f + 1 := ⟨fuel - 1, by omega⟩
    have hlim : ¬ (v + 1) % U32_MOD > wrapFlow.bfsLimit := by
      have := Nat.mod_lt (v + 1) (show U32_MOD > 0 by decide)
      show ¬ (v + 1) % U32_MOD > U32_MOD - 1
      omega
    have hdrop : ¬ b.pathLen > wrapFlow.maxPathLen := by omega
    have hbest : ¬ (b.touchedSink = true ∧ b.pathScore > 0) := by
      rw [hts]; intro h; cases h.1
    have hnum : ¬ (b.NumNodes = 0 ∧ (v + 1) % U32_MOD = 1) := by
      intro h
      have h0 : b.nodesList = [] := List.length_eq_zero.mp h.1
      rw [h0] at hlast
      cases hlast
    have hL : b.LastNode = some wrapNode := hlast
    rw [nextPathLoopCount]
    simp only
    rw [if_neg hlim, if_neg hdrop, if_neg hbest, if_neg hnum, hL]
    simp only
    rw [wrap_expandEdges b hscore hdir]
    simp only [List.nil_append]
    have hnext := ih (b.Extend 3 ⟨1, ⟨1, .FF⟩⟩ wrapNode) ((v + 1) % U32_MOD) (c + 1) f
      (by unfold PathBuilder.Extend; simp) hts hscore rfl
      (by
        unfold PathBuilder.Extend
        simp only [if_neg hne]
        show b.pathLen + 3 - 3 + 1 ≠ 0
        omega)
      (by
        unfold PathBuilder.Extend
        simp only [if_neg hne]
        show b.pathLen + 3 - 3 + 1 + d = wrapFlow.maxPathLen + 1
        omega)
      (by omega)
    rw [hnext]
    congr 2
    omega

/-- C15 (counterexample). With `bfs_limit = 2^32 - 1` the 32-bit counter `numVisits` never
exceeds the limit. The enumerator `wrapFlow` is what two calls of `NextPath` leave of a
fresh enumerator over `wrapGraph`; in it every forward edge is marked, so no builder scores and
the only builder in the deque walks the self-edge of `AAA` until its length exceeds
`max_path_len = 2^32 + 8`: the call examines 2^32 + 8 builders, more than `bfs_limit`. -/
theorem NextPath_examines_more_than_uint32_max :
    wrapFlow.bfsLimit = U32_MOD - 1 ∧
    findNode wrapFlow.nodesMap MOCK_SOURCE_ID = some wrapFlow.sourcePtr ∧
    EdgesClosed wrapFlow.nodesMap ∧ EdgeSymmetric wrapFlow.nodesMap ∧
    ((EdmondKarpMaxFlow.new wrapGraph 3 (U32_MOD + 8) (U32_MOD - 1) false).bind (fun flow0 =>
      (NextPath 9 flow0).bind (fun r1 => (NextPath 9 r1.2).map (fun r2 => r2.2)))
        = some wrapFlow) ∧
    nextPathLoopCount wrapFlow (U32_MOD + 9) 0 0 PathBuilder.empty [PathBuilder.empty]
      = some (PathBuilder.empty, U32_MOD + 8) ∧
    wrapFlow.bfsLimit < U32_MOD + 8 := by
  refine ⟨rfl, by decide, by decide, by decide, by decide, ?_, by decide⟩
  have hlim : ¬ (0 + 1) % U32_MOD > wrapFlow.bfsLimit := by decide
  have hdrop : ¬ PathBuilder.empty.pathLen > wrapFlow.maxPathLen := by decide
  have hbest : ¬ (PathBuilder.empty.touchedSink = true ∧ PathBuilder.empty.pathScore > 0) := by
    decide
  have hnum : PathBuilder.empty.NumNodes = 0 ∧ (0 + 1) % U32_MOD = 1 := by decide
  have hexp : expandEdges wrapFlow wrapFlow.sourcePtr.id PathBuilder.empty PathBuilder.empty
      wrapFlow.sourcePtr.edges
        = some [PathBuilder.empty.Extend 3 ⟨MOCK_SOURCE_ID, ⟨1, .FF⟩⟩ wrapNode] := by decide
  rw [show U32_MOD + 9 = (U32_MOD + 8) + 1 from rfl, nextPathLoopCount]
  simp only
  rw [if_neg hlim, if_neg hdrop, if_neg hbest, if_pos hnum]
  simp only
  rw [hexp]
  simp only [List.nil_append]
  rw [wrap_chain (U32_MOD + 6) (PathBuilder.empty.Extend 3 ⟨MOCK_SOURCE_ID, ⟨1, .FF⟩⟩ wrapNode)
    ((0 + 1) % U32_MOD) (0 + 1) (U32_MOD + 8) (by decide) (by decide) (by decide) (by decide)
    (by decide) (by decide) (by decide)]
  have harith : 0 + 1 + (U32_MOD + 6) + 1 = U32_MOD + 8 := by omega
  rw [harith]

/-- C23 (code defect). In `twoLinksGraph` the nodes 2 (component 1) and 5 (component 2) both
have degree 2, one k-mer of their own (1 < floor(5/2)), coverage 3 <= 3 and no tandem
repeat. `RemoveShortLinks(1)` removes node 5 of component 2 and keeps node 2 of
component 1: its filter skips the nodes whose component id equals `comp_id`. -/
theorem RemoveShortLinks_prunes_other_components :
    EdgeSymmetric twoLinksGraph ∧
    RemoveShortLinks linkEnv 5 twoLinksGraph 1 = some (twoLinksPruned, true) ∧
    findNode twoLinksPruned 5 = none ∧
    findNode twoLinksPruned 2 = some ⟨2, 1, [⟨1, .RR⟩, ⟨3, .FF⟩], linkPayload⟩ := by
  refine ⟨by decide, by decide, by decide, by decide⟩

/-- C25 (code defect). `HasCycle` answers false on `branchCycleGraph`; `RemoveTips` removes
the tip 2 with its reciprocal edge and adds no edge, and on the result `HasCycle`
answers true: without the dead end 2, the first traversable edge of node 1 leads to node
3 and its self-edge. -/
theorem HasCycle_turns_true_after_tip_removal :
    HasCycle branchCycleGraph = some false ∧
    RemoveTips exampleEnv exampleParams 3 branchCycleGraph 1 = some (branchCyclePruned, true) ∧
    EraseNode branchCycleGraph 2 = branchCyclePruned ∧
    HasCycle branchCyclePruned = some true := by
  refine ⟨by decide, by decide, by decide, by decide⟩

theorem length_filter_lt_of_imp {α : Type} (p q : α → Bool) :
    ∀ l : List α, (∀ x ∈ l, q x = true → p x = true) →
      (∃ x ∈ l, p x = true ∧ q x = false) → (l.filter q).length < (l.filter p).length := by
  intro l
  induction l with
  | nil => intro _ h; obtain ⟨x, hx, _⟩ := h; cases hx
  | cons a l ih =>
    intro himp hex
    have hle : (l.filter q).length ≤ (l.filter p).length := by
      clear ih hex
      induction l with
      | nil => simp
      | cons b l ih2 =>
        have hb := himp b (List.mem_cons_of_mem _ (List.mem_cons_self _ _))
        have hrec := ih2 (fun x hx => by
          rcases List.mem_cons.mp hx with h | h
          · subst h; exact himp x (List.mem_cons_self _ _)
          · exact himp x (List.mem_cons_of_mem _ (List.mem_cons_of_mem _ h)))
        by_cases hq : q b = true
        · simp only [List.filter_cons, hq, hb hq, if_true, List.length_cons]; omega
        · by_cases hp : p b = true
          · simp only [List.filter_cons, hq, hp, if_true, List.length_cons]; simp; omega
          · simp only [List.filter_cons, hq, hp]; simpa using hrec
    obtain ⟨x, hx, hpx, hqx⟩ := hex
    rcases List.mem_cons.mp hx with h | h
    · subst h
      simp only [List.filter_cons, hpx, hqx, if_true, List.length_cons]
      simp
      omega
    · have hrec := ih (fun y hy => himp y (List.mem_cons_of_mem _ hy)) ⟨x, h, hpx, hqx⟩
      have ha := himp a (List.mem_cons_self _ _)
      by_cases hq : q a = true
      · simp only [List.filter_cons, hq, ha hq, if_true, List.length_cons]; omega
      · by_cases hp : p a = true
        · simp only [List.filter_cons, hq, hp, if_true, List.length_cons]; simp; omega
        · simp only [List.filter_cons, hq, hp]; simpa using hrec

theorem mem_nodeIds_of_findNode {nc : NodeContainer} {x : NodeIdentifier} {n : Node}
    (h : findNode nc x = some n) : x ∈ nodeIds nc := by
  obtain ⟨hm, hid⟩ := findNode_some h
  unfold nodeIds
  exact List.mem_map.mpr ⟨n, hm, hid⟩

theorem keysOutside_le (nc : NodeContainer) (s : List NodeIdentifier) :
    keysOutside nc s ≤ nc.length := by
  unfold keysOutside
  calc ((nodeIds nc).dedup.filter (fun x => decide (x ∉ s))).length
      ≤ (nodeIds nc).dedup.length := List.length_filter_le _ _
    _ ≤ (nodeIds nc).length := (List.dedup_sublist _).length_le
    _ = nc.length := by unfold nodeIds; simp

theorem keysOutside_insert_lt {nc : NodeContainer} {s : List NodeIdentifier}
    {x : NodeIdentifier} (hx : x ∈ nodeIds nc) (hs : x ∉ s) :
    keysOutside nc (setInsert x s) < keysOutside nc s := by
  unfold keysOutside setInsert
  rw [if_neg hs]
  apply length_filter_lt_of_imp
  · intro y _ hy
    simp only [decide_eq_true_eq, List.mem_append, not_or] at hy ⊢
    exact hy.1
  · refine ⟨x, List.mem_dedup.mpr hx, ?_, ?_⟩
    · simpa using hs
    · simp
theorem HasCycleFrom_fuel_fresh (nc : NodeContainer) :
    ∀ (fuel : Nat) (node_id : NodeIdentifier) (direction : Strand)
      (touched : List NodeIdentifier),
      node_id ∉ touched → keysOutside nc touched + 1 ≤ fuel →
      ∃ r, HasCycleFrom nc fuel node_id direction touched = some r := by
  intro fuel
  induction fuel with
  | zero => intro _ _ _ _ h; omega
  | succ fuel ih =>
    intro node_id direction touched hnot hfuel
    rw [HasCycleFrom]
    cases hf : findNode nc node_id with
    | none => exact ⟨_, rfl⟩
    | some n =>
      simp only
      cases he : firstTraversable n.edges direction with
      | none => exact ⟨_, rfl⟩
      | some e =>
        simp only
        by_cases hin : e.destId ∉ setInsert node_id touched
        · rw [if_pos hin]
          have hlt := keysOutside_insert_lt (mem_nodeIds_of_findNode hf) hnot
          exact ih e.destId e.DstDirection _ hin (by omega)
        · rw [if_neg hin]
          exact ⟨_, rfl⟩

theorem HasCycleFrom_fuel (nc : NodeContainer) (fuel : Nat) (node_id : NodeIdentifier)
    (direction : Strand) (touched : List NodeIdentifier) (hfuel : nc.length + 2 ≤ fuel) :
    ∃ r, HasCycleFrom nc fuel node_id direction touched = some r := by
  have hle := keysOutside_le nc touched
  by_cases hnot : node_id ∉ touched
  · exact HasCycleFrom_fuel_fresh nc fuel node_id direction touched hnot (by omega)
  · obtain ⟨f, rfl⟩ : ∃ f, fuel = f + 1 := ⟨fuel - 1, by omega⟩
    have hmem : node_id ∈ touched := by
      by_contra hc
      exact hnot hc
    have hset : setInsert node_id touched = touched := by
      unfold setInsert
      rw [if_pos hmem]
    rw [HasCycleFrom]
    cases hf : findNode nc node_id with
    | none => exact ⟨_, rfl⟩
    | some n =>
      simp only
      cases he : firstTraversable n.edges direction with
      | none => exact ⟨_, rfl⟩
      | some e =>
        simp only
        by_cases hin : e.destId ∉ setInsert node_id touched
        · rw [if_pos hin, hset]
          rw [hset] at hin
          exact HasCycleFrom_fuel_fresh nc f e.destId e.DstDirection touched hin (by omega)
        · rw [if_neg hin]
          exact ⟨_, rfl⟩

theorem HasCycleFrom_more_fuel (nc : NodeContainer) :
    ∀ (fuel extra : Nat) (node_id : NodeIdentifier) (direction : Strand)
      (touched : List NodeIdentifier) (r : Bool × List NodeIdentifier),
      HasCycleFrom nc fuel node_id direction touched = some r →
      HasCycleFrom nc (fuel + extra) node_id direction touched = some r := by
  intro fuel
  induction fuel with
  | zero => intro extra node_id direction touched r h; simp [HasCycleFrom] at h
  | succ fuel ih =>
    intro extra node_id direction touched r h
    rw [show fuel + 1 + extra = (fuel + extra) + 1 by omega]
    rw [HasCycleFrom] at h ⊢
    cases hf : findNode nc node_id with
    | none => rw [hf] at h; exact h
    | some n =>
      rw [hf] at h
      simp only at h ⊢
      cases he : firstTraversable n.edges direction with
      | none => rw [he] at h; exact h
      | some e =>
        rw [he] at h
        simp only at h ⊢
        by_cases hin : e.destId ∉ setInsert node_id touched
        · rw [if_pos hin] at h ⊢
          exact ih extra _ _ _ r h
        · rw [if_neg hin] at h ⊢
          exact h

/-- C30. The recursive `HasCycle(node, direction, touched)` terminates on every node map,
from every node, strand and set `touched`: a nested call is made only on a node that is
not in `touched` after the current node was inserted, so a recursion depth of the number
of nodes plus two is never used up, and more depth does not change the result. Hence
`HasCycle()` returns on every node map. -/
theorem HasCycle_terminates (nc : NodeContainer) :
    (∀ (node_id : NodeIdentifier) (direction : Strand) (touched : List NodeIdentifier),
      ∃ r, HasCycleFrom nc (nc.length + 2) node_id direction touched = some r ∧
        ∀ extra, HasCycleFrom nc (nc.length + 2 + extra) node_id direction touched = some r) ∧
    (HasCycle nc).isSome = true := by
  constructor
  · intro node_id direction touched
    obtain ⟨r, hr⟩ := HasCycleFrom_fuel nc (nc.length + 2) node_id direction touched (le_refl _)
    exact ⟨r, hr, fun extra => HasCycleFrom_more_fuel nc _ extra _ _ _ r hr⟩
  · unfold HasCycle
    obtain ⟨r, hr⟩ := HasCycleFrom_fuel nc (nc.length + 2) MOCK_SOURCE_ID Strand.FWD []
      (le_refl _)
    rw [hr]
    obtain ⟨b, t⟩ := r
    cases b with
    | true => rfl
    | false =>
      simp only
      obtain ⟨r2, hr2⟩ := HasCycleFrom_fuel nc (nc.length + 2) MOCK_SOURCE_ID Strand.REV t
        (le_refl _)
      rw [hr2]
      rfl

theorem walkEnd_cons (start : NodeIdentifier) (dir : Strand) (e : Edge) (es : List Edge) :
    walkEnd start dir (e :: es) = walkEnd e.destId e.DstDirection es := by
  unfold walkEnd
  cases es with
  | nil => rfl
  | cons a l =>
    simp only [List.getLast?_cons_cons]
    cases h : (a :: l).getLast? with
    | none => simp at h
    | some x => rfl

theorem walkEnd_append (start : NodeIdentifier) (dir : Strand) (es : List Edge) (e : Edge) :
    walkEnd start dir (es ++ [e]) = (e.destId, e.DstDirection) := by
  unfold walkEnd
  simp

theorem isStrandWalk_append (nc : NodeContainer) :
    ∀ (es : List Edge) (cur : NodeIdentifier) (dir : Strand) (e : Edge) (n : Node),
      isStrandWalk nc cur dir es = true →
      findNode nc (walkEnd cur dir es).1 = some n → e ∈ n.edges →
      e.SrcDirection = (walkEnd cur dir es).2 →
      e.destId ≠ MOCK_SOURCE_ID → e.destId ≠ MOCK_SINK_ID →
      isStrandWalk nc cur dir (es ++ [e]) = true := by
  intro es
  induction es with
  | nil =>
    intro cur dir e n _ hf he hd h1 h2
    simp only [walkEnd, List.getLast?_nil] at hf hd
    simp [isStrandWalk, hf, he, hd, h1, h2]
  | cons a l ih =>
    intro cur dir e n hw hf he hd h1 h2
    rw [walkEnd_cons] at hf hd
    rw [List.cons_append]
    rw [isStrandWalk] at hw ⊢
    cases hc : findNode nc cur with
    | none => rw [hc] at hw; simp at hw
    | some m =>
      rw [hc] at hw
      simp only [Bool.and_eq_true] at hw ⊢
      exact ⟨hw.1, ih a.destId a.DstDirection e n hw.2 hf he hd h1 h2⟩

theorem firstTraversable_spec {edges : List Edge} {direction : Strand} {e : Edge}
    (h : firstTraversable edges direction = some e) :
    e ∈ edges ∧ e.destId ≠ MOCK_SOURCE_ID ∧ e.destId ≠ MOCK_SINK_ID ∧
      e.SrcDirection = direction := by
  unfold firstTraversable at h
  refine ⟨List.mem_of_find?_eq_some h, ?_⟩
  have := List.find?_some h
  simp only [Bool.not_eq_true', Bool.or_eq_false_iff, beq_eq_false_iff_ne, ne_eq,
    decide_eq_false_iff_not, not_not] at this
  exact ⟨this.1.1, this.1.2, this.2⟩
theorem walkEnd_mem (start : NodeIdentifier) (dir : Strand) (es : List Edge) :
    (walkEnd start dir es).1 = start ∨ (walkEnd start dir es).1 ∈ es.map (fun e => e.destId) := by
  unfold walkEnd
  cases h : es.getLast? with
  | none => exact Or.inl rfl
  | some e =>
    right
    exact List.mem_map.mpr ⟨e, List.mem_of_getLast?_eq_some h, rfl⟩

theorem HasCycleFrom_true_walk (nc : NodeContainer) :
    ∀ (fuel : Nat) (walk : List Edge) (touched t2 : List NodeIdentifier),
      isStrandWalk nc MOCK_SOURCE_ID Strand.FWD walk = true →
      (∀ x ∈ touched, x = MOCK_SOURCE_ID ∨ x ∈ walk.map (fun e => e.destId)) →
      HasCycleFrom nc fuel (walkEnd MOCK_SOURCE_ID Strand.FWD walk).1
        (walkEnd MOCK_SOURCE_ID Strand.FWD walk).2 touched = some (true, t2) →
      ∃ es e, isStrandWalk nc MOCK_SOURCE_ID Strand.FWD (es ++ [e]) = true ∧
        e.destId ∈ es.map (fun x => x.destId) := by
  intro fuel
  induction fuel with
  | zero => intro walk touched t2 _ _ h; simp [HasCycleFrom] at h
  | succ fuel ih =>
    intro walk touched t2 hw ht h
    rw [HasCycleFrom] at h
    cases hf : findNode nc (walkEnd MOCK_SOURCE_ID Strand.FWD walk).1 with
    | none => rw [hf] at h; simp at h
    | some n =>
      rw [hf] at h
      simp only at h
      cases he : firstTraversable n.edges (walkEnd MOCK_SOURCE_ID Strand.FWD walk).2 with
      | none => rw [he] at h; simp at h
      | some e =>
        rw [he] at h
        simp only at h
        obtain ⟨hmem, hs1, hs2, hdir⟩ := firstTraversable_spec he
        have hwalk := isStrandWalk_append nc walk MOCK_SOURCE_ID Strand.FWD e n hw hf hmem hdir
          hs1 hs2
        have ht1 : ∀ x ∈ setInsert (walkEnd MOCK_SOURCE_ID Strand.FWD walk).1 touched,
            x = MOCK_SOURCE_ID ∨ x ∈ walk.map (fun e => e.destId) := by
          intro x hx
          unfold setInsert at hx
          split at hx
          · exact ht x hx
          · rcases List.mem_append.mp hx with hx | hx
            · exact ht x hx
            · rw [List.mem_singleton.mp hx]
              exact walkEnd_mem _ _ _
        by_cases hin : e.destId ∉ setInsert (walkEnd MOCK_SOURCE_ID Strand.FWD walk).1 touched
        · rw [if_pos hin] at h
          apply ih (walk ++ [e]) _ t2 hwalk
          · intro x hx
            rcases ht1 x hx with hx | hx
            · exact Or.inl hx
            · right
              rw [List.map_append]
              exact List.mem_append_left _ hx
          · rw [walkEnd_append]
            exact h
        · have hin2 : e.destId ∈ setInsert (walkEnd MOCK_SOURCE_ID Strand.FWD walk).1 touched := by
            by_contra hc
            exact hin hc
          rcases ht1 e.destId hin2 with hx | hx
          · exact absurd hx hs1
          · exact ⟨walk, e, hwalk, hx⟩

theorem isStrandWalk_visits_found (nc : NodeContainer) :
    ∀ (es : List Edge) (cur : NodeIdentifier) (dir : Strand) (e : Edge),
      isStrandWalk nc cur dir (es ++ [e]) = true →
      ∀ x ∈ es.map (fun a => a.destId),
        ∃ n, findNode nc x = some n ∧ n.IsMockNode = false := by
  intro es
  induction es with
  | nil => intro _ _ _ _ x hx; cases hx
  | cons a l ih =>
    intro cur dir e hw x hx
    rw [List.cons_append, isStrandWalk] at hw
    cases hc : findNode nc cur with
    | none => rw [hc] at hw; simp at hw
    | some m =>
      rw [hc] at hw
      simp only [Bool.and_eq_true, decide_eq_true_eq] at hw
      obtain ⟨⟨⟨⟨_, _⟩, hs1⟩, hs2⟩, hrest⟩ := hw
      rcases List.mem_cons.mp hx with hx | hx
      · subst hx
        have hrest2 := hrest
        cases hl : l ++ [e] with
        | nil => simp at hl
        | cons b l2 =>
          rw [hl, isStrandWalk] at hrest2
          cases hd : findNode nc a.destId with
          | none => rw [hd] at hrest2; simp at hrest2
          | some n =>
            refine ⟨n, rfl, ?_⟩
            have hid := (findNode_some hd).2
            unfold Node.IsMockNode
            simp [hid, hs1, hs2]
      · exact ih a.destId a.DstDirection e hrest x hx

/-- C28. `HasCycle()` is sound on a node map in which every edge of the mock source leaves
on strand FWD: when it returns true, there is a strand-consistent walk from the mock source
that never enters a mock node and whose last edge arrives at a real node of the map that
an earlier edge of the walk has already arrived at. -/
theorem HasCycle_sound (nc : NodeContainer)
    (hsrc : ∀ src, findNode nc MOCK_SOURCE_ID = some src →
      ∀ e ∈ src.edges, e.SrcDirection = Strand.FWD)
    (h : HasCycle nc = some true) :
    ∃ es e, isStrandWalk nc MOCK_SOURCE_ID Strand.FWD (es ++ [e]) = true ∧
      e.destId ∈ es.map (fun x => x.destId) ∧
      ∃ n, findNode nc e.destId = some n ∧ n.IsMockNode = false := by
  have hrev : ∀ t r t2, HasCycleFrom nc (nc.length + 2) MOCK_SOURCE_ID Strand.REV t
      = some (r, t2) → r = false := by
    intro t r t2 hr
    rw [HasCycleFrom] at hr
    cases hf : findNode nc MOCK_SOURCE_ID with
    | none =>
      rw [hf] at hr
      simp only [Option.some.injEq, Prod.mk.injEq] at hr
      exact hr.1.symm
    | some src =>
      rw [hf] at hr
      simp only at hr
      cases he : firstTraversable src.edges Strand.REV with
      | none =>
        rw [he] at hr
        simp only [Option.some.injEq, Prod.mk.injEq] at hr
        exact hr.1.symm
      | some e =>
        obtain ⟨hmem, _, _, hdir⟩ := firstTraversable_spec he
        have := hsrc src hf e hmem
        rw [this] at hdir
        cases hdir
  unfold HasCycle at h
  cases h1 : HasCycleFrom nc (nc.length + 2) MOCK_SOURCE_ID Strand.FWD [] with
  | none => rw [h1] at h; cases h
  | some r1 =>
    obtain ⟨b, t⟩ := r1
    rw [h1] at h
    cases b with
    | true =>
      obtain ⟨es, e, hw, hmem⟩ := HasCycleFrom_true_walk nc (nc.length + 2) [] [] t rfl
        (fun x hx => by cases hx) h1
      exact ⟨es, e, hw, hmem, isStrandWalk_visits_found nc es _ _ e hw _ hmem⟩
    | false =>
      simp only at h
      cases h2 : HasCycleFrom nc (nc.length + 2) MOCK_SOURCE_ID Strand.REV t with
      | none => rw [h2] at h; cases h
      | some r2 =>
        obtain ⟨b2, t2⟩ := r2
        rw [h2] at h
        simp only [Option.some.injEq] at h
        have := hrev t b2 t2 h2
        rw [h] at this
        cases this

theorem HasCycle_sound_witness :
    (∀ src, findNode wrapGraph MOCK_SOURCE_ID = some src →
      ∀ e ∈ src.edges, e.SrcDirection = Strand.FWD) ∧
    HasCycle wrapGraph = some true ∧
    isStrandWalk wrapGraph MOCK_SOURCE_ID Strand.FWD ([⟨1, .FF⟩] ++ [⟨1, .FF⟩]) = true ∧
    ∃ es e, isStrandWalk wrapGraph MOCK_SOURCE_ID Strand.FWD (es ++ [e]) = true ∧
      e.destId ∈ es.map (fun x => x.destId) ∧
      ∃ n, findNode wrapGraph e.destId = some n ∧ n.IsMockNode = false :=
  ⟨by decide, by decide, by decide, HasCycle_sound wrapGraph (by decide) (by decide)⟩

theorem Pruned_refl (n : Node) : Pruned n n := ⟨rfl, rfl, rfl, fun _ h => h⟩

theorem Pruned_trans {a b c : Node} (h1 : Pruned a b) (h2 : Pruned b c) : Pruned a c :=
  ⟨h2.1.trans h1.1, h2.2.1.trans h1.2.1, h2.2.2.1.trans h1.2.2.1,
    fun e he => h1.2.2.2 e (h2.2.2.2 e he)⟩

theorem Pruned_of_Shrinks {t : NodeIdentifier} {n n2 : Node} (h : Shrinks t n n2) :
    Pruned n n2 := ⟨h.1, h.2.1, h.2.2.1, h.2.2.2.1⟩

theorem nodeIds_map (nc : NodeContainer) (g : Node → Node) (hg : ∀ n, (g n).id = n.id) :
    nodeIds (nc.map g) = nodeIds nc := by
  unfold nodeIds
  rw [List.map_map]
  exact List.map_congr_left (fun n _ => hg n)

theorem nodeIds_updateNode (nc : NodeContainer) (id : NodeIdentifier) (f : Node → Node)
    (hf : ∀ m, (f m).id = m.id) : nodeIds (updateNode nc id f) = nodeIds nc := by
  rw [updateNode_eq_map]
  exact nodeIds_map nc _ (fun n => upd_id id f n hf)

theorem findNode_isSome_iff (nc : NodeContainer) (x : NodeIdentifier) :
    (findNode nc x).isSome = true ↔ x ∈ nodeIds nc := by
  constructor
  · intro h
    cases hf : findNode nc x with
    | none => rw [hf] at h; cases h
    | some n => exact mem_nodeIds_of_findNode hf
  · intro h
    cases hf : findNode nc x with
    | none =>
      obtain ⟨n, hn, hid⟩ := List.mem_map.mp h
      exact absurd hid (findNode_none hf n hn)
    | some n => rfl

theorem isRealId_iff (x : NodeIdentifier) :
    isRealId x = true ↔ x ≠ MOCK_SOURCE_ID ∧ x ≠ MOCK_SINK_ID := by
  unfold isRealId
  simp

theorem EraseNode_of_mock (nc : NodeContainer) (x : NodeIdentifier) (h : isRealId x = false) :
    EraseNode nc x = nc := by
  unfold EraseNode
  cases hf : findNode nc x with
  | none => rfl
  | some v =>
    have hid := (findNode_some hf).2
    have hm : v.IsMockNode = true := by
      unfold Node.IsMockNode
      rw [hid]
      unfold isRealId at h
      revert h
      cases h1 : x == MOCK_SOURCE_ID <;> cases h2 : x == MOCK_SINK_ID <;> simp [bne, h1, h2]
    simp only [hm, if_true]

theorem EraseNode_of_absent (nc : NodeContainer) (x : NodeIdentifier)
    (h : findNode nc x = none) : EraseNode nc x = nc := by
  unfold EraseNode
  rw [h]

theorem EraseNode_eq_filter_map (nc : NodeContainer) (x : NodeIdentifier)
    (h : isRealId x = true) :
    ∃ g : Node → Node, (∀ n, Pruned n (g n)) ∧
      EraseNode nc x = (nc.filter (fun n => decide (n.id ≠ x))).map g := by
  cases hf : findNode nc x with
  | none =>
    refine ⟨fun n => n, Pruned_refl, ?_⟩
    rw [EraseNode_of_absent nc x hf, List.map_id']
    symm
    rw [List.filter_eq_self]
    intro n hn
    simpa using findNode_none hf n hn
  | some v =>
    have hid := (findNode_some hf).2
    have hm : v.IsMockNode = false := by
      unfold Node.IsMockNode
      rw [hid]
      have := (isRealId_iff x).mp h
      simp [this.1, this.2]
    obtain ⟨g, hg, heq⟩ := foldl_eraseEdge_shrinks v.id v.edges nc
    refine ⟨g, fun n => Pruned_of_Shrinks (hg n), ?_⟩
    unfold EraseNode
    rw [hf]
    simp only [hm, Bool.false_eq_true, if_false]
    rw [heq]
    unfold eraseKey
    rw [List.filter_map, hid]
    congr 1
    apply List.filter_congr
    intro n _
    simp [(hg n).1]
theorem RemoveNodes_eq_filter_map :
    ∀ (ids : List NodeIdentifier) (nc : NodeContainer),
      ∃ g : Node → Node, (∀ n, Pruned n (g n)) ∧
        RemoveNodes nc ids
          = (nc.filter (fun n => decide (n.id ∉ ids.filter isRealId))).map g := by
  intro ids
  induction ids with
  | nil =>
    intro nc
    refine ⟨fun n => n, Pruned_refl, ?_⟩
    simp [RemoveNodes]
  | cons x ids ih =>
    intro nc
    have hstep : RemoveNodes nc (x :: ids) = RemoveNodes (EraseNode nc x) ids := by
      unfold RemoveNodes
      rw [List.foldl_cons]
    rw [hstep]
    by_cases hx : isRealId x = true
    · obtain ⟨g1, hg1, h1⟩ := EraseNode_eq_filter_map nc x hx
      obtain ⟨g2, hg2, h2⟩ := ih (EraseNode nc x)
      refine ⟨fun n => g2 (g1 n), fun n => Pruned_trans (hg1 n) (hg2 _), ?_⟩
      rw [h2, h1, List.filter_map, List.map_map, List.filter_filter]
      congr 1
      apply List.filter_congr
      intro n _
      simp only [Function.comp_apply, (hg1 n).1, List.filter_cons, hx, if_true,
        List.mem_cons, not_or, Bool.decide_and]
      rw [Bool.and_comm]
    · have hx2 : isRealId x = false := by simpa using hx
      rw [EraseNode_of_mock nc x hx2]
      obtain ⟨g2, hg2, h2⟩ := ih nc
      refine ⟨g2, hg2, ?_⟩
      rw [h2]
      simp only [List.filter_cons, hx2, Bool.false_eq_true, if_false]

theorem nodeIds_filter_map (nc : NodeContainer) (keep : NodeIdentifier → Bool)
    (g : Node → Node) (hg : ∀ n, (g n).id = n.id) :
    nodeIds ((nc.filter (fun n => keep n.id)).map g) = (nodeIds nc).filter keep := by
  rw [nodeIds_map _ g hg]
  unfold nodeIds
  rw [List.filter_map]
  rfl

theorem nodeIds_RemoveNodes (nc : NodeContainer) (ids : List NodeIdentifier) :
    nodeIds (RemoveNodes nc ids)
      = (nodeIds nc).filter (fun x => decide (x ∉ ids.filter isRealId)) := by
  obtain ⟨g, hg, h⟩ := RemoveNodes_eq_filter_map ids nc
  rw [h]
  exact nodeIds_filter_map nc (fun x => decide (x ∉ ids.filter isRealId)) g (fun n => (hg n).1)
theorem eq_of_mem_of_id_eq {nc : NodeContainer} (hu : UniqueKeys nc) {m n : Node}
    (hm : m ∈ nc) (hn : n ∈ nc) (hid : m.id = n.id) : m = n := by
  have h1 := findNode_of_mem hu hm
  have h2 := findNode_of_mem hu hn
  rw [hid, h2] at h1
  exact (Option.some.inj h1).symm

theorem isRealId_of_not_mock {n : Node} (h : n.IsMockNode = false) : isRealId n.id = true := by
  unfold Node.IsMockNode at h
  unfold isRealId
  revert h
  cases h1 : n.id == MOCK_SOURCE_ID <;> cases h2 : n.id == MOCK_SINK_ID <;> simp [bne, h1, h2]

/-- The result of removing the nodes that satisfy `sel` (all of them real) from a map with
unique keys. -/
theorem RemoveNodes_of_selection (nc : NodeContainer) (hu : UniqueKeys nc) (sel : Node → Bool)
    (hreal : ∀ n, sel n = true → n.IsMockNode = false) :
    ∃ g : Node → Node, (∀ n, Pruned n (g n)) ∧
      RemoveNodes nc ((nc.filter sel).map (fun n => n.id))
        = (nc.filter (fun n => !sel n)).map g := by
  obtain ⟨g, hg, h⟩ := RemoveNodes_eq_filter_map ((nc.filter sel).map (fun n => n.id)) nc
  refine ⟨g, hg, ?_⟩
  rw [h]
  congr 1
  apply List.filter_congr
  intro n hn
  have hall : ((nc.filter sel).map (fun n => n.id)).filter isRealId
      = (nc.filter sel).map (fun n => n.id) := by
    rw [List.filter_eq_self]
    intro x hx
    obtain ⟨m, hm, rfl⟩ := List.mem_map.mp hx
    exact isRealId_of_not_mock (hreal m (List.mem_filter.mp hm).2)
  rw [hall]
  by_cases hs : sel n = true
  · have : n.id ∈ (nc.filter sel).map (fun n => n.id) :=
      List.mem_map.mpr ⟨n, List.mem_filter.mpr ⟨hn, hs⟩, rfl⟩
    simp [this, hs]
  · have : n.id ∉ (nc.filter sel).map (fun n => n.id) := by
      intro hc
      obtain ⟨m, hm, hid⟩ := List.mem_map.mp hc
      have hmn := eq_of_mem_of_id_eq hu (List.mem_filter.mp hm).1 hn hid
      rw [hmn] at hm
      exact hs (List.mem_filter.mp hm).2
    simp [this, hs]

/-- C22. `RemoveLowCovNodes(comp)` removes exactly the nodes that `lowCovSelected` names:
the result is the map without them, every other node is still there with its id,
component id and payload (and no new edge), and the function returns true iff a node was
selected. The two thresholds are below 2^16, the range of the `std::uint16_t` they are
cast to. -/
theorem RemoveLowCovNodes_selection (E : Env) (p : CliParams) (nc : NodeContainer) (comp : Nat)
    (hu : UniqueKeys nc) (h1 : p.minNodeCov < 65536) (h2 : E.ceilCovRatio < 65536) :
    (∃ g : Node → Node, (∀ n, Pruned n (g n)) ∧
      (RemoveLowCovNodes E p nc comp).1
        = (nc.filter (fun n => !lowCovSelected p.minNodeCov E.ceilCovRatio comp n)).map g) ∧
    ((RemoveLowCovNodes E p nc comp).2 = true ↔
      ∃ n ∈ nc, lowCovSelected p.minNodeCov E.ceilCovRatio comp n = true) := by
  have hsel : (fun n : Node =>
      !(n.IsMockNode || decide (n.ComponentID ≠ comp)) &&
        ((decide (n.data.sampleCountNormal = 1) && decide (n.data.sampleCountTumor = 1)) ||
          decide (n.data.minSampleBaseCov ≤ max (toU16 p.minNodeCov) (toU16 E.ceilCovRatio))))
      = lowCovSelected p.minNodeCov E.ceilCovRatio comp := by
    funext n
    unfold lowCovSelected toU16
    rw [Nat.mod_eq_of_lt h1, Nat.mod_eq_of_lt h2]
    cases n.IsMockNode <;> simp
  have hreal : ∀ n, lowCovSelected p.minNodeCov E.ceilCovRatio comp n = true →
      n.IsMockNode = false := by
    intro n hn
    unfold lowCovSelected at hn
    cases hm : n.IsMockNode
    · rfl
    · rw [hm] at hn; simp at hn
  unfold RemoveLowCovNodes
  simp only [hsel]
  constructor
  · by_cases hemp : ((nc.filter (lowCovSelected p.minNodeCov E.ceilCovRatio comp)).map
        (fun n => n.id)).isEmpty = true
    · rw [if_pos hemp]
      refine ⟨fun n => n, Pruned_refl, ?_⟩
      rw [List.map_id']
      symm
      rw [List.filter_eq_self]
      intro n hn
      have hnil : nc.filter (lowCovSelected p.minNodeCov E.ceilCovRatio comp) = [] := by
        simpa using hemp
      have := List.filter_eq_nil_iff.mp hnil n hn
      simpa using this
    · rw [if_neg hemp]
      exact RemoveNodes_of_selection nc hu _ hreal
  · simp only [Bool.not_eq_true', List.isEmpty_eq_false, ne_eq, List.map_eq_nil_iff]
    rw [List.filter_eq_nil_iff]
    simp
theorem RemoveLowCovNodes_selection_witness :
    UniqueKeys lowCovGraph ∧ exampleParams.minNodeCov < 65536 ∧
    exampleEnv.ceilCovRatio < 65536 ∧
    RemoveLowCovNodes exampleEnv exampleParams lowCovGraph 1
      = ([ ⟨MOCK_SOURCE_ID, 0, [], examplePayload⟩, ⟨MOCK_SINK_ID, 0, [], examplePayload⟩,
          ⟨1, 1, [], examplePayload⟩, ⟨3, 1, [], examplePayload⟩ ], true) ∧
    lowCovGraph.filter (lowCovSelected 2 0 1)
      = [⟨2, 1, [⟨1, .RR⟩, ⟨3, .FF⟩], ⟨Strand.FWD, ['C', 'G', 'T'], 3, 3, 6, 1⟩⟩] ∧
    ((∃ g : Node → Node, (∀ n, Pruned n (g n)) ∧
      (RemoveLowCovNodes exampleEnv exampleParams lowCovGraph 1).1
        = (lowCovGraph.filter (fun n =>
            !lowCovSelected exampleParams.minNodeCov exampleEnv.ceilCovRatio 1 n)).map g) ∧
    ((RemoveLowCovNodes exampleEnv exampleParams lowCovGraph 1).2 = true ↔
      ∃ n ∈ lowCovGraph,
        lowCovSelected exampleParams.minNodeCov exampleEnv.ceilCovRatio 1 n = true)) :=
  ⟨by decide, by decide, by decide, by decide, by decide,
    RemoveLowCovNodes_selection exampleEnv exampleParams lowCovGraph 1 (by decide) (by decide)
      (by decide)⟩

theorem keysOutside_congr {nc nc2 : NodeContainer} (h : nodeIds nc2 = nodeIds nc)
    (s : List NodeIdentifier) : keysOutside nc2 s = keysOutside nc s := by
  unfold keysOutside
  rw [h]

theorem keysOutside_setInsert_le (nc : NodeContainer) (s : List NodeIdentifier)
    (x : NodeIdentifier) : keysOutside nc (setInsert x s) ≤ keysOutside nc s := by
  by_cases hx : x ∈ s
  · unfold setInsert; rw [if_pos hx]
  · unfold keysOutside setInsert
    rw [if_neg hx]
    apply List.Sublist.length_le
    apply List.monotone_filter_right
    intro y
    simp only [decide_eq_true_eq, List.mem_append, not_or]
    exact fun h => h.1

theorem nodeIds_relinkBuddyEdges (src_id buddyId : NodeIdentifier) (d : Bool) :
    ∀ (es : List Edge) (nc : NodeContainer),
      nodeIds (relinkBuddyEdges src_id buddyId d es nc) = nodeIds nc := by
  intro es
  induction es with
  | nil => intro nc; rfl
  | cons e es ih =>
    intro nc
    rw [relinkBuddyEdges]
    simp only
    split
    · exact ih nc
    · split
      · exact ih nc
      · split
        · rw [ih]
          exact nodeIds_updateNode nc _ _ (fun m => EmplaceEdge_id _ _ m)
        · rw [ih, nodeIds_updateNode _ _ _ (fun m => EmplaceEdge_id _ _ m),
            nodeIds_updateNode _ _ (fun n => n.EraseEdgesTo buddyId) (fun m => rfl),
            nodeIds_updateNode _ _ _ (fun m => EmplaceEdge_id _ _ m)]

theorem addRemaining_spec (compressed : List NodeIdentifier) :
    ∀ (ns : List NodeNeighbour) (r : List NodeNeighbour),
      ∃ added, addRemaining compressed ns r = r ++ added ∧
        ∀ x ∈ added, x.buddyId ∉ compressed ∧ x ∈ ns := by
  intro ns
  induction ns with
  | nil => intro r; exact ⟨[], by simp [addRemaining], fun x hx => by cases hx⟩
  | cons n ns ih =>
    intro r
    have hstep : addRemaining compressed (n :: ns) r
        = addRemaining compressed ns (if n.buddyId ∈ compressed then r else setInsert n r) := by
      unfold addRemaining
      rw [List.foldl_cons]
    rw [hstep]
    by_cases hn : n.buddyId ∈ compressed
    · rw [if_pos hn]
      obtain ⟨added, h1, h2⟩ := ih r
      exact ⟨added, h1, fun x hx => ⟨(h2 x hx).1, List.mem_cons_of_mem _ (h2 x hx).2⟩⟩
    · rw [if_neg hn]
      obtain ⟨added, h1, h2⟩ := ih (setInsert n r)
      unfold setInsert at h1 ⊢
      by_cases hr : n ∈ r
      · rw [if_pos hr] at h1 ⊢
        exact ⟨added, h1, fun x hx => ⟨(h2 x hx).1, List.mem_cons_of_mem _ (h2 x hx).2⟩⟩
      · rw [if_neg hr] at h1 ⊢
        refine ⟨n :: added, by rw [h1]; simp, ?_⟩
        intro x hx
        rcases List.mem_cons.mp hx with hx | hx
        · subst hx; exact ⟨hn, List.mem_cons_self _ _⟩
        · exact ⟨(h2 x hx).1, List.mem_cons_of_mem _ (h2 x hx).2⟩

theorem FindCompressibleNeighbours_found (E : Env) (kmerSize : Nat) (nc : NodeContainer)
    (src_id : NodeIdentifier) :
    ∀ nb ∈ FindCompressibleNeighbours E kmerSize nc src_id, nb.buddyId ∈ nodeIds nc := by
  intro nb hnb
  unfold FindCompressibleNeighbours at hnb
  split at hnb
  · cases hnb
  · split at hnb
    · cases hnb
    · rw [List.mem_dedup, List.mem_filter] at hnb
      obtain ⟨_, h2⟩ := hnb
      cases hf : findNode nc nb.buddyId with
      | none => rw [hf] at h2; cases h2
      | some b => exact mem_nodeIds_of_findNode hf
theorem compressLoop_total (E : Env) (kmerSize : Nat) (src_id : NodeIdentifier) :
    ∀ (fuel : Nat) (nc : NodeContainer) (remaining : List NodeNeighbour)
      (compressed : List NodeIdentifier),
      src_id ∈ nodeIds nc → (∀ nb ∈ remaining, nb.buddyId ∈ nodeIds nc) →
      6 * keysOutside nc compressed
        + 3 * (remaining.filter (fun nb => decide (nb.buddyId ∈ compressed))).length
        + min remaining.length 3 + 1 ≤ fuel →
      ∃ nc2 c2, compressLoop E kmerSize src_id fuel nc remaining compressed = some (nc2, c2) ∧
        nodeIds nc2 = nodeIds nc := by
  intro fuel
  induction fuel with
  | zero => intro nc remaining compressed _ _ h; omega
  | succ f ih =>
    intro nc remaining compressed hsrc hrem hfuel
    cases remaining with
    | nil => exact ⟨nc, compressed, by simp [compressLoop], rfl⟩
    | cons h rest =>
      rw [compressLoop]
      by_cases hlen : (h :: rest).length > 2
      · rw [if_pos hlen]; exact ⟨nc, compressed, rfl, rfl⟩
      · rw [if_neg hlen]
        have hrestlen : rest.length ≤ 1 := by
          simp only [List.length_cons] at hlen; omega
        obtain ⟨src, hs⟩ := Option.isSome_iff_exists.mp ((findNode_isSome_iff nc src_id).mpr hsrc)
        obtain ⟨buddy, hb⟩ := Option.isSome_iff_exists.mp
          ((findNode_isSome_iff nc h.buddyId).mpr (hrem h (List.mem_cons_self _ _)))
        have hrest : ∀ nb ∈ rest, nb.buddyId ∈ nodeIds nc :=
          fun nb hnb => hrem nb (List.mem_cons_of_mem _ hnb)
        simp only [hs, hb]
        have hstale_rest : (rest.filter (fun nb => decide (nb.buddyId ∈ compressed))).length
            ≤ ((h :: rest).filter (fun nb => decide (nb.buddyId ∈ compressed))).length := by
          rw [List.filter_cons]
          split
          · simp
          · exact le_refl _
        have hminr : min (h :: rest).length 3 = rest.length + 1 := by
          simp only [List.length_cons]; omega
        by_cases hcm : (!E.CanMerge src buddy (mergeDirOf h.edgeKind) kmerSize) = true
        · rw [if_pos hcm]
          apply ih nc rest compressed hsrc hrest
          have : min rest.length 3 = rest.length := by omega
          omega
        · rw [if_neg hcm]
          have key : ∀ nc3 : NodeContainer, nodeIds nc3 = nodeIds nc →
              ∃ nc2 c2, compressLoop E kmerSize src_id f nc3
                (addRemaining (setInsert h.buddyId compressed)
                  (FindCompressibleNeighbours E kmerSize nc3 src_id) rest)
                (setInsert h.buddyId compressed) = some (nc2, c2) ∧
                nodeIds nc2 = nodeIds nc := by
            intro nc3 h3
            obtain ⟨added, hadd, hprop⟩ := addRemaining_spec (setInsert h.buddyId compressed)
              (FindCompressibleNeighbours E kmerSize nc3 src_id) rest
            rw [hadd]
            have hfilter : ((rest ++ added).filter
                (fun nb => decide (nb.buddyId ∈ setInsert h.buddyId compressed))).length
                = (rest.filter
                  (fun nb => decide (nb.buddyId ∈ setInsert h.buddyId compressed))).length := by
              rw [List.filter_append]
              have : added.filter
                  (fun nb => decide (nb.buddyId ∈ setInsert h.buddyId compressed)) = [] := by
                rw [List.filter_eq_nil_iff]
                intro x hx
                simpa using (hprop x hx).1
              rw [this, List.append_nil]
            have hres := ih nc3 (rest ++ added) (setInsert h.buddyId compressed)
              (by rw [h3]; exact hsrc)
              (by
                intro nb hnb
                rcases List.mem_append.mp hnb with hnb | hnb
                · rw [h3]; exact hrest nb hnb
                · exact FindCompressibleNeighbours_found E kmerSize nc3 src_id nb (hprop nb hnb).2)
              (by
                rw [hfilter, keysOutside_congr h3]
                have hmin3 : min (rest ++ added).length 3 ≤ 3 := Nat.min_le_right _ _
                by_cases hin : h.buddyId ∈ compressed
                · have hset : setInsert h.buddyId compressed = compressed := by
                    unfold setInsert; rw [if_pos hin]
                  rw [hset]
                  have hhead : ((h :: rest).filter
                      (fun nb => decide (nb.buddyId ∈ compressed))).length
                      = (rest.filter (fun nb => decide (nb.buddyId ∈ compressed))).length + 1 := by
                    rw [List.filter_cons]
                    simp [hin]
                  omega
                · have hlt := keysOutside_insert_lt
                    (hrem h (List.mem_cons_self _ _)) hin
                  have hst : (rest.filter
                      (fun nb => decide (nb.buddyId ∈ setInsert h.buddyId compressed))).length
                      ≤ 1 := le_trans (List.length_filter_le _ _) hrestlen
                  omega)
            obtain ⟨nc2, c2, hr, hids⟩ := hres
            exact ⟨nc2, c2, hr, hids.trans h3⟩
          apply key
          rw [nodeIds_relinkBuddyEdges,
            nodeIds_updateNode _ _ (fun n => n.EraseEdgesTo h.buddyId) (fun m => rfl),
            nodeIds_updateNode _ _ (fun n : Node =>
              { n with data := E.MergeBuddy n buddy (mergeDirOf h.edgeKind) kmerSize })
              (fun m => rfl)]
theorem CompressNode_total (E : Env) (kmerSize : Nat) (nc : NodeContainer)
    (src_id : NodeIdentifier) (buddies : List NodeNeighbour) (compressed : List NodeIdentifier)
    (hsrc : src_id ∈ nodeIds nc) (hb : ∀ nb ∈ buddies, nb.buddyId ∈ nodeIds nc) :
    ∃ nc2 c2, CompressNode E kmerSize nc src_id buddies compressed = some (nc2, c2) ∧
      nodeIds nc2 = nodeIds nc := by
  unfold CompressNode
  split
  · exact ⟨nc, compressed, rfl, rfl⟩
  · obtain ⟨src, hs⟩ := Option.isSome_iff_exists.mp ((findNode_isSome_iff nc src_id).mpr hsrc)
    rw [hs]
    simp only
    obtain ⟨added, hadd, hprop⟩ := addRemaining_spec compressed buddies []
    rw [hadd]
    apply compressLoop_total E kmerSize src_id _ nc _ compressed hsrc
    · intro nb hnb
      rw [List.nil_append] at hnb
      exact hb nb (hprop nb hnb).2
    · have hst : (([] : List NodeNeighbour) ++ added).filter
          (fun nb => decide (nb.buddyId ∈ compressed)) = [] := by
        rw [List.filter_eq_nil_iff]
        intro x hx
        rw [List.nil_append] at hx
        simpa using (hprop x hx).1
      rw [hst]
      have h1 := keysOutside_le nc compressed
      have h2 : min (([] : List NodeNeighbour) ++ added).length 3 ≤ 3 := Nat.min_le_right _ _
      simp only [List.length_nil]
      omega

theorem compressGraphLoop_total (E : Env) (kmerSize comp_id : Nat) :
    ∀ (ids : List NodeIdentifier) (nc : NodeContainer) (nodesToRemove : List NodeIdentifier),
      ∃ nc2 c2, compressGraphLoop E kmerSize comp_id ids nc nodesToRemove = some (nc2, c2) ∧
        nodeIds nc2 = nodeIds nc := by
  intro ids
  induction ids with
  | nil => intro nc c; exact ⟨nc, c, rfl, rfl⟩
  | cons id ids ih =>
    intro nc c
    rw [compressGraphLoop]
    cases hf : findNode nc id with
    | none => exact ih nc c
    | some p =>
      simp only
      split
      · exact ih nc c
      · split
        · exact ih nc c
        · obtain ⟨nc1, c1, h1, hids1⟩ := CompressNode_total E kmerSize nc id
            (FindCompressibleNeighbours E kmerSize nc id) c (mem_nodeIds_of_findNode hf)
            (FindCompressibleNeighbours_found E kmerSize nc id)
          rw [h1]
          simp only
          obtain ⟨nc2, c2, h2, hids2⟩ := ih nc1 c1
          exact ⟨nc2, c2, h2, hids2.trans hids1⟩

theorem KeysRemoved_refl (nc : NodeContainer) : KeysRemoved nc nc := by
  refine ⟨[], ⟨?_, ?_⟩⟩
  · intro x hx; cases hx
  · simp

theorem KeysRemoved_trans {a b c : NodeContainer} (h1 : KeysRemoved a b) (h2 : KeysRemoved b c) :
    KeysRemoved a c := by
  obtain ⟨r1, hr1, e1⟩ := h1
  obtain ⟨r2, hr2, e2⟩ := h2
  refine ⟨r1 ++ r2, ?_, ?_⟩
  · intro x hx
    rcases List.mem_append.mp hx with hx | hx
    · exact hr1 x hx
    · exact hr2 x hx
  · rw [e2, e1, List.filter_filter]
    apply List.filter_congr
    intro x _
    simp only [List.mem_append, not_or, Bool.decide_and]
    rw [Bool.and_comm]

theorem KeysRemoved_of_ids {a b : NodeContainer} (h : nodeIds b = nodeIds a) :
    KeysRemoved a b := by
  refine ⟨[], ⟨?_, ?_⟩⟩
  · intro x hx; cases hx
  · rw [h]; simp

theorem KeysRemoved_RemoveNodes (nc : NodeContainer) (ids : List NodeIdentifier) :
    KeysRemoved nc (RemoveNodes nc ids) :=
  ⟨ids.filter isRealId, ⟨fun _ hx => (List.mem_filter.mp hx).2, nodeIds_RemoveNodes nc ids⟩⟩

theorem KeysRemoved_length {a b : NodeContainer} (h : KeysRemoved a b) :
    b.length ≤ a.length := by
  obtain ⟨r, _, e⟩ := h
  have h1 : b.length = (nodeIds b).length := by unfold nodeIds; simp
  have h2 : a.length = (nodeIds a).length := by unfold nodeIds; simp
  rw [h1, h2, e]
  exact List.length_filter_le _ _

theorem KeysRemoved_mock {a b : NodeContainer} (h : KeysRemoved a b) {x : NodeIdentifier}
    (hx : isRealId x = false) (hm : (findNode a x).isSome = true) :
    (findNode b x).isSome = true := by
  obtain ⟨r, hr, e⟩ := h
  rw [findNode_isSome_iff] at hm ⊢
  rw [e, List.mem_filter]
  refine ⟨hm, ?_⟩
  simp only [decide_eq_true_eq]
  intro hc
  rw [hr x hc] at hx
  cases hx

theorem CompressGraph_total (E : Env) (kmerSize : Nat) (nc : NodeContainer) (comp_id : Nat) :
    ∃ nc2 b, CompressGraph E kmerSize nc comp_id = some (nc2, b) ∧ KeysRemoved nc nc2 := by
  unfold CompressGraph
  obtain ⟨nc1, c1, h1, hids⟩ := compressGraphLoop_total E kmerSize comp_id
    (nc.map (fun n => n.id)) nc []
  rw [h1]
  simp only
  refine ⟨_, _, rfl, ?_⟩
  split
  · exact KeysRemoved_of_ids hids
  · exact KeysRemoved_trans (KeysRemoved_of_ids hids) (KeysRemoved_RemoveNodes nc1 c1)
theorem RemoveNodes_length_lt (nc : NodeContainer) (ids : List NodeIdentifier)
    (h : ∃ x ∈ ids, isRealId x = true ∧ x ∈ nodeIds nc) :
    (RemoveNodes nc ids).length < nc.length := by
  have h1 : (RemoveNodes nc ids).length = (nodeIds (RemoveNodes nc ids)).length := by
    unfold nodeIds; simp
  have h2 : nc.length = ((nodeIds nc).filter (fun _ => true)).length := by
    unfold nodeIds; simp
  rw [h1, h2, nodeIds_RemoveNodes]
  apply length_filter_lt_of_imp
  · intro _ _ _; rfl
  · obtain ⟨x, hx, hreal, hmem⟩ := h
    refine ⟨x, hmem, rfl, ?_⟩
    simp only [decide_eq_false_iff_not, not_not]
    exact List.mem_filter.mpr ⟨hx, hreal⟩

theorem tipsOf_mem {p : CliParams} {kmerSize comp_id : Nat} {nc : NodeContainer}
    {x : NodeIdentifier} (h : x ∈ tipsOf p kmerSize nc comp_id) :
    isRealId x = true ∧ x ∈ nodeIds nc := by
  unfold tipsOf at h
  obtain ⟨n, hn, rfl⟩ := List.mem_map.mp h
  obtain ⟨hmem, hp⟩ := List.mem_filter.mp hn
  refine ⟨?_, List.mem_map.mpr ⟨n, hmem, rfl⟩⟩
  apply isRealId_of_not_mock
  cases hm : n.IsMockNode
  · rfl
  · rw [hm] at hp; simp at hp

theorem removeTipsLoop_total (E : Env) (p : CliParams) (kmerSize comp_id : Nat) :
    ∀ (fuel : Nat) (nc : NodeContainer) (totalTips : Nat), nc.length + 1 ≤ fuel →
      ∃ nc2 t2, removeTipsLoop E p kmerSize comp_id fuel nc totalTips = some (nc2, t2) ∧
        KeysRemoved nc nc2 ∧ tipsOf p kmerSize nc2 comp_id = [] := by
  intro fuel
  induction fuel with
  | zero => intro nc _ h; omega
  | succ fuel ih =>
    intro nc totalTips hfuel
    rw [removeTipsLoop]
    by_cases hemp : (tipsOf p kmerSize nc comp_id).isEmpty = true
    · rw [if_pos hemp]
      exact ⟨nc, totalTips, rfl, KeysRemoved_refl nc, List.isEmpty_iff.mp hemp⟩
    · rw [if_neg hemp]
      obtain ⟨nc1, b, hc, hk⟩ := CompressGraph_total E kmerSize
        (RemoveNodes nc (tipsOf p kmerSize nc comp_id)) comp_id
      rw [hc]
      simp only
      have hlt : (RemoveNodes nc (tipsOf p kmerSize nc comp_id)).length < nc.length := by
        apply RemoveNodes_length_lt
        cases ht : tipsOf p kmerSize nc comp_id with
        | nil => rw [ht] at hemp; exact absurd rfl hemp
        | cons x l =>
          have hx : x ∈ tipsOf p kmerSize nc comp_id := by rw [ht]; exact List.mem_cons_self _ _
          obtain ⟨hr, hm⟩ := tipsOf_mem hx
          exact ⟨x, List.mem_cons_self _ _, hr, hm⟩
      have hle := KeysRemoved_length hk
      obtain ⟨nc2, t2, hr, hk2, htips⟩ := ih nc1
        (totalTips + (tipsOf p kmerSize nc comp_id).length) (by omega)
      exact ⟨nc2, t2, hr,
        KeysRemoved_trans (KeysRemoved_trans (KeysRemoved_RemoveNodes nc _) hk) hk2, htips⟩

theorem RemoveTips_total (E : Env) (p : CliParams) (kmerSize : Nat) (nc : NodeContainer)
    (comp_id : Nat) :
    ∃ nc2 b, RemoveTips E p kmerSize nc comp_id = some (nc2, b) ∧ KeysRemoved nc nc2 ∧
      tipsOf p kmerSize nc2 comp_id = [] := by
  obtain ⟨nc2, t2, hr, hk, ht⟩ := removeTipsLoop_total E p kmerSize comp_id (nc.length + 1) nc 0
    (le_refl _)
  unfold RemoveTips
  rw [hr]
  exact ⟨nc2, _, rfl, hk, ht⟩

theorem RemoveShortLinks_total (E : Env) (kmerSize : Nat) (nc : NodeContainer) (comp_id : Nat) :
    ∃ nc2 b, RemoveShortLinks E kmerSize nc comp_id = some (nc2, b) ∧ KeysRemoved nc nc2 := by
  have key : ∀ ids : List NodeIdentifier, ∃ nc2 b,
      (match CompressGraph E kmerSize (RemoveNodes nc ids) comp_id with
        | none => none
        | some (nc1, _) => some (nc1, true)) = some (nc2, b) ∧ KeysRemoved nc nc2 := by
    intro ids
    obtain ⟨nc1, b, hc, hk⟩ := CompressGraph_total E kmerSize (RemoveNodes nc ids) comp_id
    rw [hc]
    exact ⟨nc1, true, rfl, KeysRemoved_trans (KeysRemoved_RemoveNodes nc _) hk⟩
  unfold RemoveShortLinks
  simp only
  split
  · exact ⟨nc, false, rfl, KeysRemoved_refl nc⟩
  · exact key _

/-- C24. `RemoveTips(comp)` runs to a fixpoint: on every node map it returns (the rounds of
its loop and the compression inside them never use up their fuel), and in the map it
returns no non-mock node of component `comp` has at most one edge and
`len - k + 1 < min_tip_length`. -/
theorem RemoveTips_fixpoint (E : Env) (p : CliParams) (kmerSize : Nat) (nc : NodeContainer)
    (comp_id : Nat) :
    ∃ nc2 b, RemoveTips E p kmerSize nc comp_id = some (nc2, b) ∧
      (∀ n ∈ nc2, n.IsMockNode = false → n.ComponentID = comp_id → n.NumEdges ≤ 1 →
        ¬ ((n.Length + SIZE_MOD - kmerSize % SIZE_MOD + 1) % SIZE_MOD < p.minGraphTipLength)) ∧
      (∀ n ∈ nc2, n.IsMockNode = false → n.ComponentID = comp_id → n.NumEdges ≤ 1 →
        kmerSize ≤ n.Length + 1 → n.Length < SIZE_MOD →
        p.minGraphTipLength ≤ n.Length + 1 - kmerSize) := by
  obtain ⟨nc2, b, hr, _, htips⟩ := RemoveTips_total E p kmerSize nc comp_id
  have hmain : ∀ n ∈ nc2, n.IsMockNode = false → n.ComponentID = comp_id → n.NumEdges ≤ 1 →
      ¬ ((n.Length + SIZE_MOD - kmerSize % SIZE_MOD + 1) % SIZE_MOD < p.minGraphTipLength) := by
    intro n hn hm hc he hlt
    unfold tipsOf at htips
    rw [List.map_eq_nil_iff, List.filter_eq_nil_iff] at htips
    have := htips n hn
    simp [hm, hc, he, hlt] at this
  refine ⟨nc2, b, hr, hmain, ?_⟩
  intro n hn hm hc he hk hlen
  have := hmain n hn hm hc he
  have hM : SIZE_MOD = 18446744073709551616 := by decide
  rw [hM] at this hlen
  omega
theorem KeysRemoved_RemoveLowCovNodes (E : Env) (p : CliParams) (nc : NodeContainer)
    (comp_id : Nat) : KeysRemoved nc (RemoveLowCovNodes E p nc comp_id).1 := by
  unfold RemoveLowCovNodes
  simp only
  split
  · exact KeysRemoved_refl nc
  · exact KeysRemoved_RemoveNodes nc _

theorem applyPruneOp_total (E : Env) (p : CliParams) (kmerSize : Nat) (nc : NodeContainer)
    (op : PruneOp) :
    ∃ nc2, applyPruneOp E p kmerSize nc op = some nc2 ∧ KeysRemoved nc nc2 := by
  cases op with
  | lowCov c => exact ⟨_, rfl, KeysRemoved_RemoveLowCovNodes E p nc c⟩
  | compress c =>
    obtain ⟨nc2, b, h, hk⟩ := CompressGraph_total E kmerSize nc c
    exact ⟨nc2, by simp [applyPruneOp, h], hk⟩
  | tips c =>
    obtain ⟨nc2, b, h, hk, _⟩ := RemoveTips_total E p kmerSize nc c
    exact ⟨nc2, by simp [applyPruneOp, h], hk⟩
  | shortLinks c =>
    obtain ⟨nc2, b, h, hk⟩ := RemoveShortLinks_total E kmerSize nc c
    exact ⟨nc2, by simp [applyPruneOp, h], hk⟩

theorem applyPruneOps_total (E : Env) (p : CliParams) (kmerSize : Nat) :
    ∀ (ops : List PruneOp) (nc : NodeContainer),
      ∃ nc2, applyPruneOps E p kmerSize ops nc = some nc2 ∧ KeysRemoved nc nc2 := by
  intro ops
  induction ops with
  | nil => intro nc; exact ⟨nc, rfl, KeysRemoved_refl nc⟩
  | cons op ops ih =>
    intro nc
    obtain ⟨nc1, h1, hk1⟩ := applyPruneOp_total E p kmerSize nc op
    obtain ⟨nc2, h2, hk2⟩ := ih nc1
    refine ⟨nc2, ?_, KeysRemoved_trans hk1 hk2⟩
    rw [applyPruneOps, h1]
    exact h2

/-- C21. Mock nodes are never removed: `EraseNode` called with the id of a mock node or with
an id that is not in the map returns the map unchanged; and any sequence of
`RemoveLowCovNodes`, `CompressGraph`, `RemoveTips` and `RemoveShortLinks` returns a map
that still holds each mock node the map held before. -/
theorem mock_nodes_never_removed (E : Env) (p : CliParams) (kmerSize : Nat)
    (nc : NodeContainer) :
    EraseNode nc MOCK_SOURCE_ID = nc ∧ EraseNode nc MOCK_SINK_ID = nc ∧
    (∀ x, findNode nc x = none → EraseNode nc x = nc) ∧
    (∀ ops : List PruneOp, ∃ nc2, applyPruneOps E p kmerSize ops nc = some nc2 ∧
      ((findNode nc MOCK_SOURCE_ID).isSome = true → (findNode nc2 MOCK_SOURCE_ID).isSome = true) ∧
      ((findNode nc MOCK_SINK_ID).isSome = true → (findNode nc2 MOCK_SINK_ID).isSome = true)) := by
  refine ⟨EraseNode_of_mock nc _ (by decide), EraseNode_of_mock nc _ (by decide),
    fun x hx => EraseNode_of_absent nc x hx, ?_⟩
  intro ops
  obtain ⟨nc2, h, hk⟩ := applyPruneOps_total E p kmerSize ops nc
  exact ⟨nc2, h, KeysRemoved_mock hk (by decide), KeysRemoved_mock hk (by decide)⟩

theorem mock_nodes_never_removed_witness :
    (findNode lowCovGraph MOCK_SOURCE_ID).isSome = true ∧
    (findNode lowCovGraph MOCK_SINK_ID).isSome = true ∧
    applyPruneOps exampleEnv exampleParams 3
        [PruneOp.compress 1, PruneOp.lowCov 1, PruneOp.tips 1, PruneOp.shortLinks 1] lowCovGraph
      = some [ ⟨MOCK_SOURCE_ID, 0, [], examplePayload⟩, ⟨MOCK_SINK_ID, 0, [], examplePayload⟩ ] ∧
    (EraseNode lowCovGraph MOCK_SOURCE_ID = lowCovGraph ∧
    EraseNode lowCovGraph MOCK_SINK_ID = lowCovGraph ∧
    (∀ x, findNode lowCovGraph x = none → EraseNode lowCovGraph x = lowCovGraph) ∧
    (∀ ops : List PruneOp, ∃ nc2,
      applyPruneOps exampleEnv exampleParams 3 ops lowCovGraph = some nc2 ∧
      ((findNode lowCovGraph MOCK_SOURCE_ID).isSome = true →
        (findNode nc2 MOCK_SOURCE_ID).isSome = true) ∧
      ((findNode lowCovGraph MOCK_SINK_ID).isSome = true →
        (findNode nc2 MOCK_SINK_ID).isSome = true))) :=
  ⟨by decide, by decide, by decide, mock_nodes_never_removed exampleEnv exampleParams 3 lowCovGraph⟩

theorem RemoveTips_fixpoint_witness :
    RemoveTips exampleEnv exampleParams 3 lowCovGraph 1
      = some ([ ⟨MOCK_SOURCE_ID, 0, [], examplePayload⟩, ⟨MOCK_SINK_ID, 0, [], examplePayload⟩ ],
          true) ∧
    ∃ nc2 b, RemoveTips exampleEnv exampleParams 3 lowCovGraph 1 = some (nc2, b) ∧
      (∀ n ∈ nc2, n.IsMockNode = false → n.ComponentID = 1 → n.NumEdges ≤ 1 →
        ¬ ((n.Length + SIZE_MOD - 3 % SIZE_MOD + 1) % SIZE_MOD
          < exampleParams.minGraphTipLength)) ∧
      (∀ n ∈ nc2, n.IsMockNode = false → n.ComponentID = 1 → n.NumEdges ≤ 1 →
        3 ≤ n.Length + 1 → n.Length < SIZE_MOD →
        exampleParams.minGraphTipLength ≤ n.Length + 1 - 3) :=
  ⟨by decide, RemoveTips_fixpoint exampleEnv exampleParams 3 lowCovGraph 1⟩

theorem compressLoop_compressed_mono (E : Env) (kmerSize : Nat) (src_id : NodeIdentifier) :
    ∀ (fuel : Nat) (nc : NodeContainer) (remaining : List NodeNeighbour)
      (compressed : List NodeIdentifier) (nc2 : NodeContainer) (c2 : List NodeIdentifier),
      compressLoop E kmerSize src_id fuel nc remaining compressed = some (nc2, c2) →
      ∀ x ∈ compressed, x ∈ c2 := by
  intro fuel
  induction fuel with
  | zero =>
    intro nc remaining compressed nc2 c2 h x hx
    cases remaining with
    | nil =>
      simp only [compressLoop, Option.some.injEq, Prod.mk.injEq] at h
      rw [← h.2]; exact hx
    | cons a l => simp [compressLoop] at h
  | succ f ih =>
    intro nc remaining compressed nc2 c2 h x hx
    cases remaining with
    | nil =>
      simp only [compressLoop, Option.some.injEq, Prod.mk.injEq] at h
      rw [← h.2]; exact hx
    | cons hd rest =>
      rw [compressLoop] at h
      split at h
      · simp only [Option.some.injEq, Prod.mk.injEq] at h
        rw [← h.2]; exact hx
      · split at h
        · simp only at h
          split at h
          · exact ih _ _ _ _ _ h x hx
          · refine ih _ _ _ _ _ h x ?_
            unfold setInsert
            split
            · exact hx
            · exact List.mem_append_left _ hx
        · cases h

/-- C26 (counterexample). In `chainGraph` node 1 reaches node 2 by an edge of kind FF, whose
source strand is FWD. With collaborators that accept only the FRONT placement, node 2 is
a compressible neighbour of node 1 and `CompressNode` merges it; with collaborators that
accept only the BACK placement it is neither: the code asks for FRONT where the source
strand is FWD. -/
theorem merge_direction_of_FWD_edge_is_FRONT :
    SourceStrand EdgeKind.FF = Strand.FWD ∧
    FindCompressibleNeighbours (onlyPlacement exampleEnv .FRONT) 3 chainGraph 1 = [⟨2, .FF⟩] ∧
    FindCompressibleNeighbours (onlyPlacement exampleEnv .BACK) 3 chainGraph 1 = [] ∧
    (CompressNode (onlyPlacement exampleEnv .FRONT) 3 chainGraph 1 [⟨2, .FF⟩] []).map
      (fun r => r.2) = some [2, 3] ∧
    CompressNode (onlyPlacement exampleEnv .BACK) 3 chainGraph 1 [⟨2, .FF⟩] []
      = some (chainGraph, []) := by
  refine ⟨rfl, by decide, by decide, by decide, by decide⟩

/-- C26 (amended). The placement of the buddy is derived from the edge kind so that a FWD
source strand gives FRONT and a REV source strand gives BACK, in both places: a mergeable
neighbour is a compressible neighbour exactly when it is a mutual buddy and `CanMerge`
accepts it at that placement, and `CompressNode`, given one buddy, merges it when
`CanMerge` accepts it at that placement and leaves the graph as it is when not. -/
theorem merge_direction_from_edge_kind (E : Env) (kmerSize : Nat) (nc : NodeContainer)
    (src_id : NodeIdentifier) (nb : NodeNeighbour) (compressed : List NodeIdentifier)
    (src buddy : Node) (hsrc : findNode nc src_id = some src)
    (hreal : src_id ≠ MOCK_SOURCE_ID ∧ src_id ≠ MOCK_SINK_ID)
    (hb : findNode nc nb.buddyId = some buddy) :
    (nb ∈ FindCompressibleNeighbours E kmerSize nc src_id ↔
      nb ∈ src.FindMergeableNeighbours ∧
      buddy.FindMergeableNeighbours.any (fun n => n.buddyId == src_id) = true ∧
      E.CanMerge src buddy
        (if SourceStrand nb.edgeKind = Strand.FWD then BuddyPosition.FRONT
          else BuddyPosition.BACK) kmerSize = true) ∧
    (E.CanMerge src buddy
        (if SourceStrand nb.edgeKind = Strand.FWD then BuddyPosition.FRONT
          else BuddyPosition.BACK) kmerSize = false →
      CompressNode E kmerSize nc src_id [nb] compressed = some (nc, compressed)) ∧
    (E.CanMerge src buddy
        (if SourceStrand nb.edgeKind = Strand.FWD then BuddyPosition.FRONT
          else BuddyPosition.BACK) kmerSize = true →
      nb.buddyId ∉ compressed →
      ∃ nc2 c2, CompressNode E kmerSize nc src_id [nb] compressed = some (nc2, c2) ∧
        nb.buddyId ∈ c2) := by
  refine ⟨?_, ?_, ?_⟩
  · unfold FindCompressibleNeighbours
    rw [if_neg (by intro h; rcases h with h | h; exact hreal.1 h; exact hreal.2 h), hsrc]
    simp only [List.mem_dedup, List.mem_filter, hb, Bool.and_eq_true, mergeDirOf]
  · intro hcm
    unfold CompressNode
    simp only [List.isEmpty_cons, List.length_singleton, Bool.false_or, hsrc,
      show decide ((1 : Nat) > 2) = false from rfl, Bool.false_eq_true, if_false]
    by_cases hin : nb.buddyId ∈ compressed
    · have : addRemaining compressed [nb] [] = [] := by
        simp [addRemaining, hin]
      rw [this]
      simp [compressLoop]
    · have : addRemaining compressed [nb] [] = [nb] := by
        simp [addRemaining, hin, setInsert]
      rw [this, compressLoop]
      simp only [List.length_singleton, hsrc, hb, mergeDirOf, hcm]
      simp [compressLoop]
  · intro hcm hin
    obtain ⟨nc2, c2, hres, _⟩ := CompressNode_total E kmerSize nc src_id [nb] compressed
      (mem_nodeIds_of_findNode hsrc)
      (fun x hx => by rw [List.mem_singleton.mp hx]; exact mem_nodeIds_of_findNode hb)
    refine ⟨nc2, c2, hres, ?_⟩
    unfold CompressNode at hres
    simp only [List.isEmpty_cons, List.length_singleton, Bool.false_or, hsrc,
      show decide ((1 : Nat) > 2) = false from rfl, Bool.false_eq_true, if_false] at hres
    have hrem : addRemaining compressed [nb] [] = [nb] := by
      simp [addRemaining, hin, setInsert]
    rw [hrem, compressLoop] at hres
    simp only [List.length_singleton, hsrc, hb, mergeDirOf, hcm,
      show ¬ ((1 : Nat) > 2) by decide, Bool.not_true, Bool.false_eq_true, if_false] at hres
    refine compressLoop_compressed_mono E kmerSize src_id _ _ _ _ _ _ hres nb.buddyId ?_
    unfold setInsert
    rw [if_neg hin]
    simp
theorem merge_direction_from_edge_kind_witness :
    findNode chainGraph 1 = some ⟨1, 1, [⟨2, .FF⟩], examplePayload⟩ ∧
    ((1 : NodeIdentifier) ≠ MOCK_SOURCE_ID ∧ (1 : NodeIdentifier) ≠ MOCK_SINK_ID) ∧
    findNode chainGraph 2 = some ⟨2, 1, [⟨1, .RR⟩, ⟨3, .FF⟩], examplePayload⟩ ∧
    exampleEnv.CanMerge ⟨1, 1, [⟨2, .FF⟩], examplePayload⟩
      ⟨2, 1, [⟨1, .RR⟩, ⟨3, .FF⟩], examplePayload⟩ BuddyPosition.FRONT 3 = true ∧
    ∃ nc2 c2, CompressNode exampleEnv 3 chainGraph 1 [⟨2, .FF⟩] [] = some (nc2, c2) ∧ 2 ∈ c2 :=
  ⟨by decide, by decide, by decide, by decide,
    (merge_direction_from_edge_kind exampleEnv 3 chainGraph 1 ⟨2, .FF⟩ []
      ⟨1, 1, [⟨2, .FF⟩], examplePayload⟩ ⟨2, 1, [⟨1, .RR⟩, ⟨3, .FF⟩], examplePayload⟩
      (by decide) (by decide) (by decide)).2.2 (by decide) (by decide)⟩

theorem mem_allEdgeRefs {nc : NodeContainer} {n : Node} {e : Edge} (hn : n ∈ nc)
    (he : e ∈ n.edges) : (⟨n.id, e⟩ : EdgeRef) ∈ allEdgeRefs nc := by
  unfold allEdgeRefs
  rw [List.mem_flatMap]
  exact ⟨n, hn, List.mem_map.mpr ⟨e, he, rfl⟩⟩

theorem length_allEdgeRefs (nc : NodeContainer) : (allEdgeRefs nc).length = numEdges nc := by
  unfold allEdgeRefs numEdges
  rw [List.length_flatMap]
  congr 1
  apply List.map_congr_left
  intro n _
  simp

theorem scoreInv_empty (flow : EdmondKarpMaxFlow) : ScoreInv flow PathBuilder.empty :=
  ⟨rfl, fun r hr => by cases hr⟩

theorem expandEdges_inv (flow : EdmondKarpMaxFlow) {lastNode : Node}
    (hmem : lastNode ∈ flow.nodesMap) {curr best : PathBuilder}
    (hbest : best.pathScore = 0) (hinv : ScoreInv flow curr)
    (hcurr : curr.pathScore = 0 ∨ HasLastIn flow.nodesMap curr) :
    ∀ (es : List Edge) (pushed : List PathBuilder), (∀ e ∈ es, e ∈ lastNode.edges) →
      expandEdges flow lastNode.id curr best es = some pushed →
      ∀ b ∈ pushed, ScoreInv flow b ∧ HasLastIn flow.nodesMap b := by
  intro es
  induction es with
  | nil =>
    intro pushed _ h b hb
    simp only [expandEdges, Option.some.injEq] at h
    rw [← h] at hb
    cases hb
  | cons e es ih =>
    intro pushed hsub h
    have hsub2 : ∀ x ∈ es, x ∈ lastNode.edges := fun x hx => hsub x (List.mem_cons_of_mem _ hx)
    rw [expandEdges] at h
    by_cases h1 : e.destId = MOCK_SINK_ID
    · rw [if_pos h1] at h
      by_cases h2 : curr.pathScore ≤ best.pathScore
      · rw [if_pos h2] at h
        exact ih pushed hsub2 h
      · rw [if_neg h2] at h
        cases hl : expandEdges flow lastNode.id curr best es with
        | none => rw [hl] at h; cases h
        | some l =>
          rw [hl] at h
          simp only [Option.map_some', Option.some.injEq] at h
          intro b hb
          rw [← h] at hb
          rcases List.mem_cons.mp hb with hb | hb
          · subst hb
            refine ⟨hinv, ?_⟩
            rcases hcurr with hc | hc
            · exact absurd (by omega) h2
            · exact hc
          · exact ih l hsub2 hl b hb
    · rw [if_neg h1] at h
      by_cases h3 : e.destId = MOCK_SOURCE_ID ∨ e.SrcDirection ≠ curr.pathDir
      · rw [if_pos h3] at h
        exact ih pushed hsub2 h
      · rw [if_neg h3] at h
        cases hf : findNode flow.nodesMap e.destId with
        | none => rw [hf] at h; cases h
        | some neighbour =>
          rw [hf] at h
          simp only at h
          cases hl : expandEdges flow lastNode.id curr best es with
          | none => rw [hl] at h; cases h
          | some l =>
            rw [hl] at h
            simp only [Option.map_some', Option.some.injEq] at h
            intro b hb
            rw [← h] at hb
            rcases List.mem_cons.mp hb with hb | hb
            · subst hb
              have href : (⟨lastNode.id, e⟩ : EdgeRef) ∈ allEdgeRefs flow.nodesMap :=
                mem_allEdgeRefs hmem (hsub e (List.mem_cons_self _ _))
              refine ⟨⟨?_, ?_⟩, ⟨neighbour, ?_, (findNode_some hf).1⟩⟩
              · by_cases hm : (⟨lastNode.id, e⟩ : EdgeRef) ∈ flow.markedEdges
                · simp [PathBuilder.Extend, hm, List.filter_append, hinv.1]
                · simp [PathBuilder.Extend, PathBuilder.IncrementScore, hm, List.filter_append,
                    hinv.1]
              · intro r hr
                have hr2 : r ∈ curr.edgesList ++ [⟨lastNode.id, e⟩] := by
                  by_cases hm : (⟨lastNode.id, e⟩ : EdgeRef) ∈ flow.markedEdges
                  · simpa [PathBuilder.Extend, hm] using hr
                  · simpa [PathBuilder.Extend, PathBuilder.IncrementScore, hm] using hr
                rcases List.mem_append.mp hr2 with hr3 | hr3
                · exact hinv.2 r hr3
                · rw [List.mem_singleton.mp hr3]; exact href
              · unfold PathBuilder.Extend
                simp
            · exact ih l hsub2 hl b hb
theorem nextPathLoop_inv (flow : EdmondKarpMaxFlow) (hsrc : flow.sourcePtr ∈ flow.nodesMap) :
    ∀ (fuel numVisits : Nat) (queue : List PathBuilder) (r : PathBuilder),
      ((numVisits = 0 ∧ queue = [PathBuilder.empty]) ∨
        ∀ b ∈ queue, HasLastIn flow.nodesMap b) →
      (∀ b ∈ queue, ScoreInv flow b) →
      nextPathLoop flow fuel numVisits PathBuilder.empty queue = some r →
      ScoreInv flow r := by
  intro fuel
  induction fuel with
  | zero =>
    intro numVisits queue r _ _ h
    cases queue with
    | nil =>
      simp only [nextPathLoop, Option.some.injEq] at h
      rw [← h]; exact scoreInv_empty flow
    | cons a l => simp [nextPathLoop] at h
  | succ fuel ih =>
    intro numVisits queue r hq hinv h
    cases queue with
    | nil =>
      simp only [nextPathLoop, Option.some.injEq] at h
      rw [← h]; exact scoreInv_empty flow
    | cons curr rest =>
      have hrest : ∀ b ∈ rest, HasLastIn flow.nodesMap b := by
        rcases hq with ⟨_, hq⟩ | hq
        · intro b hb
          simp only [List.cons.injEq] at hq
          rw [hq.2] at hb
          cases hb
        · intro b hb; exact hq b (List.mem_cons_of_mem _ hb)
      have hrestinv : ∀ b ∈ rest, ScoreInv flow b :=
        fun b hb => hinv b (List.mem_cons_of_mem _ hb)
      rw [nextPathLoop] at h
      simp only at h
      by_cases h1 : (numVisits + 1) % U32_MOD > flow.bfsLimit
      · rw [if_pos h1] at h
        simp only [Option.some.injEq] at h
        rw [← h]; exact scoreInv_empty flow
      · rw [if_neg h1] at h
        by_cases h2 : curr.pathLen > flow.maxPathLen
        · rw [if_pos h2] at h
          exact ih _ rest r (Or.inr hrest) hrestinv h
        · rw [if_neg h2] at h
          by_cases h3 : curr.touchedSink = true ∧ curr.pathScore > 0
          · rw [if_pos h3] at h
            simp only [Option.some.injEq] at h
            rw [← h]; exact hinv curr (List.mem_cons_self _ _)
          · rw [if_neg h3] at h
            have hstep : ∀ lastNode : Node, lastNode ∈ flow.nodesMap →
                (curr.pathScore = 0 ∨ HasLastIn flow.nodesMap curr) →
                (match expandEdges flow lastNode.id curr PathBuilder.empty lastNode.edges with
                  | none => none
                  | some pushed =>
                    nextPathLoop flow fuel ((numVisits + 1) % U32_MOD) PathBuilder.empty
                      (rest ++ pushed)) = some r → ScoreInv flow r := by
              intro lastNode hmem hcurr hres
              cases hx : expandEdges flow lastNode.id curr PathBuilder.empty lastNode.edges with
              | none => rw [hx] at hres; cases hres
              | some pushed =>
                rw [hx] at hres
                have hp := expandEdges_inv flow hmem
                  (show PathBuilder.empty.pathScore = 0 from rfl)
                  (hinv curr (List.mem_cons_self _ _)) hcurr lastNode.edges pushed
                  (fun e he => he) hx
                apply ih _ (rest ++ pushed) r _ _ hres
                · right
                  intro b hb
                  rcases List.mem_append.mp hb with hb | hb
                  · exact hrest b hb
                  · exact (hp b hb).2
                · intro b hb
                  rcases List.mem_append.mp hb with hb | hb
                  · exact hrestinv b hb
                  · exact (hp b hb).1
            rcases hq with ⟨hz, hq⟩ | hq
            · simp only [List.cons.injEq] at hq
              obtain ⟨hc, _⟩ := hq
              have hcond : curr.NumNodes = 0 ∧ (numVisits + 1) % U32_MOD = 1 := by
                rw [hc, hz]; exact ⟨rfl, by decide⟩
              rw [if_pos hcond] at h
              exact hstep flow.sourcePtr hsrc (Or.inl (by rw [hc]; rfl)) h
            · obtain ⟨nL, hnL, hmem⟩ := hq curr (List.mem_cons_self _ _)
              have hcond : ¬ (curr.NumNodes = 0 ∧ (numVisits + 1) % U32_MOD = 1) := by
                intro hc
                have h0 : curr.nodesList = [] := List.length_eq_zero.mp hc.1
                rw [h0] at hnL
                cases hnL
              rw [if_neg hcond] at h
              have hlast : curr.LastNode = some nL := hnL
              rw [hlast] at h
              exact hstep nL hmem (Or.inr ⟨nL, hnL, hmem⟩) h

theorem mem_foldl_setInsert {α : Type} [DecidableEq α] (x : α) :
    ∀ (es m : List α), x ∈ es.foldl (fun m e => setInsert e m) m ↔ x ∈ m ∨ x ∈ es := by
  intro es
  induction es with
  | nil => intro m; simp
  | cons e es ih =>
    intro m
    rw [List.foldl_cons, ih]
    unfold setInsert
    split
    · rename_i hm
      constructor
      · rintro (h | h)
        · exact Or.inl h
        · exact Or.inr (List.mem_cons_of_mem _ h)
      · rintro (h | h)
        · exact Or.inl h
        · rcases List.mem_cons.mp h with h | h
          · subst h; exact Or.inl hm
          · exact Or.inr h
    · simp only [List.mem_append, List.mem_singleton, List.mem_cons]
      tauto

theorem length_foldl_setInsert {α : Type} [DecidableEq α] :
    ∀ (es m : List α), m.length ≤ (es.foldl (fun m e => setInsert e m) m).length ∧
      ((∃ x ∈ es, x ∉ m) → m.length < (es.foldl (fun m e => setInsert e m) m).length) := by
  intro es
  induction es with
  | nil => intro m; exact ⟨le_refl _, fun h => by obtain ⟨x, hx, _⟩ := h; cases hx⟩
  | cons e es ih =>
    intro m
    rw [List.foldl_cons]
    obtain ⟨hle, hlt⟩ := ih (setInsert e m)
    by_cases he : e ∈ m
    · have hs : setInsert e m = m := by unfold setInsert; rw [if_pos he]
      rw [hs] at hle hlt ⊢
      refine ⟨hle, ?_⟩
      rintro ⟨x, hx, hxm⟩
      rcases List.mem_cons.mp hx with h | h
      · subst h; exact absurd he hxm
      · exact hlt ⟨x, h, hxm⟩
    · have hs : (setInsert e m).length = m.length + 1 := by
        unfold setInsert; rw [if_neg he]; simp
      exact ⟨by omega, fun _ => by omega⟩

theorem nodup_foldl_setInsert {α : Type} [DecidableEq α] :
    ∀ (es m : List α), m.Nodup → (es.foldl (fun m e => setInsert e m) m).Nodup := by
  intro es
  induction es with
  | nil => intro m h; exact h
  | cons e es ih =>
    intro m h
    rw [List.foldl_cons]
    apply ih
    unfold setInsert
    split
    · exact h
    · rename_i hne
      rw [List.nodup_append]
      refine ⟨h, List.nodup_singleton e, ?_⟩
      intro a ha hb
      rw [List.mem_singleton.mp hb] at ha
      exact hne ha
theorem NextPath_yield_spec (fuel : Nat) (flow flow2 : EdmondKarpMaxFlow) (path : Path)
    (hsrc : findNode flow.nodesMap MOCK_SOURCE_ID = some flow.sourcePtr)
    (h : NextPath fuel flow = some (some path, flow2)) :
    path.score > 0 ∧ (∃ e ∈ path.edges, e ∉ flow.markedEdges) ∧
    (∀ e, e ∈ flow2.markedEdges ↔ e ∈ flow.markedEdges ∨ e ∈ path.edges) ∧
    flow.markedEdges.length < flow2.markedEdges.length ∧
    flow2.nodesMap = flow.nodesMap ∧ flow2.sourcePtr = flow.sourcePtr ∧
    (flow.markedEdges.Nodup → flow2.markedEdges.Nodup) ∧
    (∀ r ∈ path.edges, r ∈ allEdgeRefs flow.nodesMap) := by
  have hsid := (findNode_some hsrc).2
  have hsmem := (findNode_some hsrc).1
  unfold NextPath at h
  cases hloop : nextPathLoop flow fuel 0 PathBuilder.empty [PathBuilder.empty] with
  | none => rw [hloop] at h; cases h
  | some r =>
    rw [hloop] at h
    simp only at h
    by_cases hemp : r.IsEmpty = true
    · rw [if_pos hemp] at h
      simp at h
    · rw [if_neg hemp] at h
      simp only [Option.some.injEq, Prod.mk.injEq] at h
      obtain ⟨hp, hf⟩ := h
      have hvalid := nextPathLoop_valid flow hsid fuel 0 [PathBuilder.empty] r
        (by
          intro b hb
          rw [List.mem_singleton.mp hb]
          exact validBuilder_empty _)
        (Or.inl ⟨rfl, rfl⟩) hloop
      have hinv := nextPathLoop_inv flow hsmem fuel 0 [PathBuilder.empty] r
        (Or.inl ⟨rfl, rfl⟩)
        (by
          intro b hb
          rw [List.mem_singleton.mp hb]
          exact scoreInv_empty flow)
        hloop
      have hscore : 0 < r.pathScore := by
        rcases hvalid with hr | ⟨hv, hts, _⟩
        · rw [hr] at hemp; exact absurd rfl hemp
        · exact (hv.sink hts).1
      have hnew : ∃ e ∈ r.edgesList, e ∉ flow.markedEdges := by
        rw [hinv.1] at hscore
        obtain ⟨e, he⟩ := List.exists_mem_of_length_pos hscore
        obtain ⟨he1, he2⟩ := List.mem_filter.mp he
        exact ⟨e, he1, by simpa using he2⟩
      rw [← hp, ← hf]
      unfold PathBuilder.BuildPath
      simp only
      refine ⟨hscore, hnew, ?_, ?_, trivial, trivial, ?_, hinv.2⟩
      · intro e
        exact mem_foldl_setInsert e r.edgesList flow.markedEdges
      · exact (length_foldl_setInsert r.edgesList flow.markedEdges).2 hnew
      · exact nodup_foldl_setInsert r.edgesList flow.markedEdges

theorem YieldsChain_bound (fuel : Nat) (flow flow2 : EdmondKarpMaxFlow) (paths : List Path)
    (hc : YieldsChain fuel flow paths flow2) :
    findNode flow.nodesMap MOCK_SOURCE_ID = some flow.sourcePtr → flow.markedEdges.Nodup →
    (∀ r ∈ flow.markedEdges, r ∈ allEdgeRefs flow.nodesMap) →
    flow.markedEdges.length + paths.length ≤ numEdges flow.nodesMap := by
  induction hc with
  | done flow =>
    intro _ hn hsub
    rw [← length_allEdgeRefs]
    simpa using (List.subperm_of_subset hn hsub).length_le
  | step hnext _ ih =>
    intro hsrc hn hsub
    obtain ⟨_, _, hmem, hlt, hmap, hptr, hnodup, hedges⟩ := NextPath_yield_spec _ _ _ _ hsrc hnext
    have := ih (by rw [hmap, hptr]; exact hsrc) (hnodup hn)
      (by
        intro r hr
        rw [hmap]
        rcases (hmem r).mp hr with hr | hr
        · exact hsub r hr
        · exact hedges r hr)
    rw [hmap] at this
    simp only [List.length_cons]
    omega

/-- C27. A path returned by `NextPath` has score > 0 and holds an edge that was not marked
before the call; after the call the marked edges are the old ones and the edges of the
path, strictly more than before, and they are unchanged when no path is returned. Hence
successive calls on a fresh enumerator yield at most as many paths as the node map has
edges. -/
theorem NextPath_marks_new_edges (fuel : Nat) (flow flow2 : EdmondKarpMaxFlow)
    (hsrc : findNode flow.nodesMap MOCK_SOURCE_ID = some flow.sourcePtr) :
    (∀ path, NextPath fuel flow = some (some path, flow2) →
      path.score > 0 ∧ (∃ e ∈ path.edges, e ∉ flow.markedEdges) ∧
      (∀ e, e ∈ flow2.markedEdges ↔ e ∈ flow.markedEdges ∨ e ∈ path.edges) ∧
      flow.markedEdges.length < flow2.markedEdges.length) ∧
    (NextPath fuel flow = some (none, flow2) → flow2 = flow) ∧
    (∀ paths, YieldsChain fuel flow paths flow2 → flow.markedEdges = [] →
      paths.length ≤ numEdges flow.nodesMap) := by
  refine ⟨?_, ?_, ?_⟩
  · intro path h
    obtain ⟨h1, h2, h3, h4, _⟩ := NextPath_yield_spec fuel flow flow2 path hsrc h
    exact ⟨h1, h2, h3, h4⟩
  · intro h
    unfold NextPath at h
    cases hloop : nextPathLoop flow fuel 0 PathBuilder.empty [PathBuilder.empty] with
    | none => rw [hloop] at h; cases h
    | some r =>
      rw [hloop] at h
      simp only at h
      by_cases hemp : r.IsEmpty = true
      · rw [if_pos hemp] at h
        simp only [Option.some.injEq, Prod.mk.injEq, true_and] at h
        exact h.symm
      · rw [if_neg hemp] at h
        simp at h
  · intro paths hc hfresh
    have := YieldsChain_bound fuel flow flow2 paths hc hsrc (by rw [hfresh]; exact List.nodup_nil)
      (by rw [hfresh]; intro r hr; cases hr)
    rw [hfresh] at this
    simpa using this
theorem NextPath_marks_new_edges_witness :
    findNode chainFlow.nodesMap MOCK_SOURCE_ID = some chainFlow.sourcePtr ∧
    NextPath 100 chainFlow
      = some (some chainPath, { chainFlow with markedEdges := chainPathEdges }) ∧
    NextPath 100 { chainFlow with markedEdges := chainPathEdges }
      = some (none, { chainFlow with markedEdges := chainPathEdges }) ∧
    chainPath.score = 3 ∧ numEdges chainFlow.nodesMap = 8 ∧
    ((∀ path, NextPath 100 chainFlow
        = some (some path, { chainFlow with markedEdges := chainPathEdges }) →
      path.score > 0 ∧ (∃ e ∈ path.edges, e ∉ chainFlow.markedEdges) ∧
      (∀ e, e ∈ chainPathEdges ↔ e ∈ chainFlow.markedEdges ∨ e ∈ path.edges) ∧
      chainFlow.markedEdges.length < chainPathEdges.length) ∧
    (NextPath 100 chainFlow = some (none, { chainFlow with markedEdges := chainPathEdges }) →
      { chainFlow with markedEdges := chainPathEdges } = chainFlow) ∧
    (∀ paths, YieldsChain 100 chainFlow paths { chainFlow with markedEdges := chainPathEdges } →
      chainFlow.markedEdges = [] → paths.length ≤ numEdges chainFlow.nodesMap)) :=
  ⟨by decide, by decide, by decide, by decide, by decide,
    NextPath_marks_new_edges 100 chainFlow { chainFlow with markedEdges := chainPathEdges }
      (by decide)⟩

/-- C33. Strand round trip: for every sequence `s` over {A, C, G, T}, sequences equal to
their own reverse complement included, `Kmer(s).FwdSeq()` is `s`: the stored canonical
sequence together with the strand flag gives the original sequence back. -/
theorem Kmer_FwdSeq_round_trip (s : List Char) (hs : IsNucleotideSeq s) :
    (Kmer.new s).FwdSeq = s := by
  unfold Kmer.new Kmer.Canonicalize Kmer.FwdSeq
  by_cases h : s < RevComp s
  · simp only [h, if_true, reduceCtorEq, if_false]
  · simp only [h, if_false, if_true]
    exact RevComp_RevComp hs

theorem Kmer_FwdSeq_round_trip_witness :
    IsNucleotideSeq ['A', 'C', 'G', 'T'] ∧
    RevComp ['A', 'C', 'G', 'T'] = ['A', 'C', 'G', 'T'] ∧
    Kmer.new ['A', 'C', 'G', 'T'] = ⟨['A', 'C', 'G', 'T'], Strand.REV⟩ ∧
    (Kmer.new ['A', 'C', 'G', 'T']).FwdSeq = ['A', 'C', 'G', 'T'] :=
  ⟨by decide, by decide, by decide, Kmer_FwdSeq_round_trip ['A', 'C', 'G', 'T'] (by decide)⟩

theorem gapAt_defined {aln : AlignedSequencesView} (hlen : aln.ref.length = aln.qry.length)
    {i : Nat} (hi : i < aln.ref.length) : ∃ b, gapAt aln i = some b := by
  unfold gapAt
  rw [List.getElem?_eq_getElem hi, List.getElem?_eq_getElem (hlen ▸ hi)]
  simp only
  split_ifs
  · exact ⟨true, rfl⟩
  · exact ⟨_, rfl⟩

theorem gapAt_lt {aln : AlignedSequencesView} {i : Nat} {b : Bool}
    (h : gapAt aln i = some b) : i < aln.ref.length := by
  by_contra hc
  unfold gapAt at h
  rw [List.getElem?_eq_none (Nat.le_of_not_lt hc)] at h
  cases h

theorem trimScanStart_stops {aln : AlignedSequencesView}
    (hlen : aln.ref.length = aln.qry.length) (hsize : aln.ref.length < SIZE_MOD)
    {i0 : Nat} (hcol : gapAt aln i0 = some false) :
    ∀ (fuel start trim : Nat), start ≤ i0 → i0 - start < fuel →
      ∃ s t, trimScanStart aln fuel start trim = some (s, t) ∧ start ≤ s ∧ s ≤ i0 ∧
        gapAt aln s = some false := by
  have hi0 := gapAt_lt hcol
  intro fuel
  induction fuel with
  | zero => intro start trim _ h; omega
  | succ fuel ih =>
    intro start trim hle hfuel
    obtain ⟨b, hb⟩ := gapAt_defined hlen (Nat.lt_of_le_of_lt hle hi0)
    rw [trimScanStart, hb]
    cases b with
    | false => exact ⟨start, trim, rfl, Nat.le_refl _, hle, hb⟩
    | true =>
      have hne : start ≠ i0 := by
        intro e; rw [e, hcol] at hb; cases hb
      have hmod : (start + 1) % SIZE_MOD = start + 1 := Nat.mod_eq_of_lt (by omega)
      simp only [hmod]
      obtain ⟨s, t, h1, h2, h3, h4⟩ := ih (start + 1)
        (if aln.ref[start]? = some ALIGN_GAP then trim + 1 else trim) (by omega) (by omega)
      exact ⟨s, t, h1, by omega, h3, h4⟩

theorem trimScanEnd_stops {aln : AlignedSequencesView}
    (hlen : aln.ref.length = aln.qry.length) (hsize : aln.ref.length < SIZE_MOD)
    {i0 : Nat} (hcol : gapAt aln i0 = some false) :
    ∀ (fuel e : Nat), i0 ≤ e → e < aln.ref.length → e - i0 < fuel →
      ∃ e1, trimScanEnd aln fuel e = some e1 ∧ i0 ≤ e1 ∧ e1 ≤ e ∧ gapAt aln e1 = some false := by
  intro fuel
  induction fuel with
  | zero => intro e _ _ h; omega
  | succ fuel ih =>
    intro e hle hlt hfuel
    obtain ⟨b, hb⟩ := gapAt_defined hlen hlt
    rw [trimScanEnd, hb]
    cases b with
    | false => exact ⟨e, rfl, hle, Nat.le_refl _, hb⟩
    | true =>
      have hne : e ≠ i0 := by
        intro h; rw [h, hcol] at hb; cases hb
      have hmod : (e + SIZE_MOD - 1) % SIZE_MOD = e - 1 := by
        have e1 : e + SIZE_MOD - 1 = (e - 1) + SIZE_MOD := by omega
        rw [e1, Nat.add_mod_right]
        exact Nat.mod_eq_of_lt (by omega)
      simp only [hmod]
      obtain ⟨e1, h1, h2, h3, h4⟩ := ih (e - 1) (by omega) (by omega) (by omega)
      exact ⟨e1, h1, h2, by omega, h4⟩

theorem trimScanStart_result {aln : AlignedSequencesView} :
    ∀ (fuel start trim s t : Nat), trimScanStart aln fuel start trim = some (s, t) →
      gapAt aln s = some false := by
  intro fuel
  induction fuel with
  | zero => intro start trim s t h; rw [trimScanStart] at h; cases h
  | succ fuel ih =>
    intro start trim s t h
    rw [trimScanStart] at h
    cases hb : gapAt aln start with
    | none => rw [hb] at h; cases h
    | some b =>
      rw [hb] at h
      cases b with
      | false =>
        simp only [Option.some.injEq, Prod.mk.injEq] at h
        rw [← h.1]; exact hb
      | true => exact ih _ _ s t h

theorem lastIndex_eq {n : Nat} (hpos : 0 < n) (hsize : n < SIZE_MOD) :
    (n + SIZE_MOD - 1) % SIZE_MOD = n - 1 := by
  have e1 : n + SIZE_MOD - 1 = (n - 1) + SIZE_MOD := by omega
  rw [e1, Nat.add_mod_right]
  exact Nat.mod_eq_of_lt (by omega)
theorem TrimEndGaps_some_of_column {aln : AlignedSequencesView}
    (hsize : aln.ref.length < SIZE_MOD) (hlen : aln.ref.length = aln.qry.length)
    {i0 : Nat} (hcol : gapAt aln i0 = some false) :
    ∃ s t e, trimScanStart aln (aln.ref.length + 1) 0 0 = some (s, t) ∧
      trimScanEnd aln (aln.ref.length + 1) (aln.ref.length - 1) = some e ∧
      s ≤ e ∧ e < aln.ref.length ∧ ∃ r, TrimEndGaps aln = some r := by
  have hi0 := gapAt_lt hcol
  have hpos : 0 < aln.ref.length := by omega
  obtain ⟨s, t, h1, _, h3, _⟩ :=
    trimScanStart_stops hlen hsize hcol (aln.ref.length + 1) 0 0 (Nat.zero_le _) (by omega)
  obtain ⟨e, k1, k2, k3, _⟩ :=
    trimScanEnd_stops hlen hsize hcol (aln.ref.length + 1) (aln.ref.length - 1)
      (by omega) (by omega) (by omega)
  refine ⟨s, t, e, h1, k1, by omega, by omega, ?_⟩
  obtain ⟨sg, hsg⟩ := gapAt_defined hlen hpos
  obtain ⟨eg, heg⟩ := gapAt_defined hlen (show aln.ref.length - 1 < aln.ref.length by omega)
  unfold TrimEndGaps
  simp only [lastIndex_eq hpos hsize, hsg, heg, h1, k1]
  split_ifs
  · exact ⟨_, rfl⟩
  · exact ⟨_, rfl⟩

theorem TrimEndGaps_column_of_some {aln : AlignedSequencesView}
    {r : AlignedSequencesView × Nat} (h : TrimEndGaps aln = some r) :
    aln.ref ≠ [] ∧ ∃ i, gapAt aln i = some false := by
  have key : ∃ i, gapAt aln i = some false := by
    unfold TrimEndGaps at h
    simp only at h
    cases hsg : gapAt aln 0 with
    | none => rw [hsg] at h; cases h
    | some sg =>
      cases heg : gapAt aln ((aln.ref.length + SIZE_MOD - 1) % SIZE_MOD) with
      | none => rw [hsg, heg] at h; cases h
      | some eg =>
        rw [hsg, heg] at h
        simp only at h
        by_cases hg : (sg || eg) = true
        · rw [if_pos hg] at h
          cases hs : trimScanStart aln (aln.ref.length + 1) 0 0 with
          | none => rw [hs] at h; cases h
          | some st => exact ⟨st.1, trimScanStart_result _ _ _ st.1 st.2 hs⟩
        · cases sg with
          | true => exact absurd rfl hg
          | false => exact ⟨0, hsg⟩
  refine ⟨?_, key⟩
  obtain ⟨i, hi⟩ := key
  have := gapAt_lt hi
  intro hnil
  rw [hnil] at this
  exact Nat.not_lt_zero _ this

/-- C31. For an alignment whose `ref` and `qry` have the same length, `TrimEndGaps` keeps
every character access inside the strings and returns exactly when the alignment is not
empty and has a column in which neither sequence has a gap; for such an alignment both
scans stop, the first at an index that is not after the index at which the second stops,
both inside the strings; and when neither the first nor the last column has a gap the view
is returned unchanged with result 0. -/
theorem TrimEndGaps_index_safe (aln : AlignedSequencesView)
    (hsize : aln.ref.length < SIZE_MOD) (hlen : aln.ref.length = aln.qry.length) :
    ((aln.ref ≠ [] ∧ ∃ i, gapAt aln i = some false) ↔ ∃ r, TrimEndGaps aln = some r) ∧
    ((∃ i, gapAt aln i = some false) →
      ∃ s t e, trimScanStart aln (aln.ref.length + 1) 0 0 = some (s, t) ∧
        trimScanEnd aln (aln.ref.length + 1) (aln.ref.length - 1) = some e ∧
        s ≤ e ∧ e < aln.ref.length) ∧
    (gapAt aln 0 = some false → gapAt aln (aln.ref.length - 1) = some false →
      TrimEndGaps aln = some (aln, 0)) := by
  refine ⟨⟨?_, ?_⟩, ?_, ?_⟩
  · rintro ⟨_, i, hi⟩
    obtain ⟨_, _, _, _, _, _, _, hr⟩ := TrimEndGaps_some_of_column hsize hlen hi
    exact hr
  · rintro ⟨r, hr⟩
    exact TrimEndGaps_column_of_some hr
  · rintro ⟨i, hi⟩
    obtain ⟨s, t, e, h1, h2, h3, h4, _⟩ := TrimEndGaps_some_of_column hsize hlen hi
    exact ⟨s, t, e, h1, h2, h3, h4⟩
  · intro h0 hl
    have hpos : 0 < aln.ref.length := gapAt_lt h0
    unfold TrimEndGaps
    simp only [lastIndex_eq hpos hsize, h0, hl]
    rfl

theorem TrimEndGaps_index_safe_witness :
    gappedAlignment.ref.length < SIZE_MOD ∧
    gappedAlignment.ref.length = gappedAlignment.qry.length ∧
    gapAt gappedAlignment 1 = some false ∧
    TrimEndGaps gappedAlignment = some (⟨['A', 'C'], ['A', '-']⟩, 1) ∧
    ((gappedAlignment.ref ≠ [] ∧ ∃ i, gapAt gappedAlignment i = some false) ↔
      ∃ r, TrimEndGaps gappedAlignment = some r) ∧
    ((∃ i, gapAt gappedAlignment i = some false) →
      ∃ s t e, trimScanStart gappedAlignment (gappedAlignment.ref.length + 1) 0 0 = some (s, t) ∧
        trimScanEnd gappedAlignment (gappedAlignment.ref.length + 1)
          (gappedAlignment.ref.length - 1) = some e ∧
        s ≤ e ∧ e < gappedAlignment.ref.length) ∧
    (gapAt gappedAlignment 0 = some false →
      gapAt gappedAlignment (gappedAlignment.ref.length - 1) = some false →
      TrimEndGaps gappedAlignment = some (gappedAlignment, 0)) :=
  ⟨by decide, by decide, by decide, by decide,
    TrimEndGaps_index_safe gappedAlignment (by decide) (by decide)⟩

theorem subspan_inside {α : Type} (s : List α) {pos len : Nat} (h : pos + len ≤ s.length) :
    subspan s pos len = some ((s.drop pos).take len) ∧ ((s.drop pos).take len).length = len := by
  unfold subspan
  rw [if_neg (by omega)]
  refine ⟨rfl, ?_⟩
  rw [List.length_take, List.length_drop]
  omega

theorem MarkSourceSink_found_indexes {p : CliParams} {refMerIDs : List NodeIdentifier}
    {nc nc2 : NodeContainer} {comp : Nat} {res : SrcSnkResult}
    (h : MarkSourceSink p refMerIDs nc comp = some (nc2, res))
    (hf : res.foundSrcAndSnk = true) :
    ∃ i j hsrc hsnk dataSnk,
      FindRefEnd p nc GraphEnd.SOURCE comp refMerIDs = ⟨hsrc, i, true⟩ ∧
      FindRefEnd p nc GraphEnd.SINK comp refMerIDs.reverse = ⟨hsnk, j, true⟩ ∧
      refMerIDs[i]? = some hsrc ∧ refMerIDs[j]? = some hsnk ∧
      findNode nc hsnk = some dataSnk ∧
      res = ⟨true, i, j + dataSnk.Length⟩ ∧ i < j := by
  obtain ⟨f1, f2, hne, _, _, _, dk, _, hdk, _, _, _, hres⟩ := MarkSourceSink_found_eq h hf
  rcases FindRefEnd_source_spec p nc comp refMerIDs with ⟨e, _⟩ | ⟨i, hsrc, a1, a2, a3, a4⟩
  · rw [f1] at e; cases e
  rcases FindRefEnd_sink_spec p nc comp refMerIDs with ⟨e, _⟩ | ⟨j, hsnk, b1, b2, b3, b4⟩
  · rw [f2] at e; cases e
  rw [a4, b4] at hne hres
  rw [b4] at hdk
  simp only at hne hdk hres
  refine ⟨i, j, hsrc, hsnk, dk, a4, b4, a1, b1, hdk, hres, ?_⟩
  rcases Nat.lt_trichotomy i j with hlt | heq | hgt
  · exact hlt
  · exfalso
    subst heq
    rw [a1] at b1
    exact hne (Option.some.inj b1)
  · exfalso
    have := a3 j hsnk hgt b1
    rw [b2] at this
    cases this
theorem RefAnchorLen_of_lt {einfo : SrcSnkResult} (hlt : einfo.startOffset < einfo.endOffset)
    (hfit : einfo.endOffset < SIZE_MOD) :
    RefAnchorLen einfo = einfo.endOffset - einfo.startOffset := by
  unfold RefAnchorLen
  rw [Nat.mod_eq_of_lt (show einfo.startOffset < SIZE_MOD by omega)]
  have e1 : einfo.endOffset + SIZE_MOD - einfo.startOffset
      = (einfo.endOffset - einfo.startOffset) + SIZE_MOD := by omega
  rw [e1, Nat.add_mod_right]
  exact Nat.mod_eq_of_lt (by omega)

theorem ClampToSourceSink_inside {α : Type} (refs : List α × List α) {ends : SrcSnkResult}
    {n : Nat} (hlt : ends.startOffset < ends.endOffset) (hend : ends.endOffset ≤ n)
    (hn : n < SIZE_MOD) (h1 : refs.1.length = n) (h2 : refs.2.length = n) :
    ClampToSourceSink refs ends
      = some ((refs.1.drop ends.startOffset).take (ends.endOffset - ends.startOffset),
          (refs.2.drop ends.startOffset).take (ends.endOffset - ends.startOffset)) ∧
    ((refs.1.drop ends.startOffset).take (ends.endOffset - ends.startOffset)).length
      = ends.endOffset - ends.startOffset ∧
    ((refs.2.drop ends.startOffset).take (ends.endOffset - ends.startOffset)).length
      = ends.endOffset - ends.startOffset := by
  have hlen := RefAnchorLen_of_lt hlt (show ends.endOffset < SIZE_MOD by omega)
  unfold RefAnchorLen at hlen
  have s1 := subspan_inside refs.1
    (show ends.startOffset + (ends.endOffset - ends.startOffset) ≤ refs.1.length by omega)
  have s2 := subspan_inside refs.2
    (show ends.startOffset + (ends.endOffset - ends.startOffset) ≤ refs.2.length by omega)
  refine ⟨?_, s1.2, s2.2⟩
  unfold ClampToSourceSink
  simp only [hlen, s1.1, s2.1]

/-- C32. Whenever `MarkSourceSink` reports found, the index `i` of the source k-mer among
the reference k-mers is strictly smaller than the index `j` of the sink k-mer, so
`startOffset = i < j + length(sink node) = endOffset`, and the anchor length is positive
when `endOffset` fits `std::size_t`. When moreover the sink node has length k (the window
has at most `|window.seq| - k + 1` reference k-mers), `endOffset <= |window.seq|`, the
anchor length `RefAnchorLen`, used for `max_path_len`, is `endOffset - startOffset > 0`,
and `ClampToSourceSink` returns, of two spans as long as the window, the sub-ranges that
start at `startOffset` and have exactly that length, inside the reference. -/
theorem MarkSourceSink_offsets_ordered (p : CliParams) (window : RefWindow) (kmerSize : Nat)
    (refMerIDs : List NodeIdentifier) (nc nc2 : NodeContainer) (comp : Nat) (res : SrcSnkResult)
    (hmers : refMerIDs.length + kmerSize ≤ window.seq.length + 1)
    (hsize : window.seq.length < SIZE_MOD)
    (h : MarkSourceSink p refMerIDs nc comp = some (nc2, res))
    (hf : res.foundSrcAndSnk = true) :
    ∃ i j hsrc hsnk dataSnk,
      FindRefEnd p nc GraphEnd.SOURCE comp refMerIDs = ⟨hsrc, i, true⟩ ∧
      FindRefEnd p nc GraphEnd.SINK comp refMerIDs.reverse = ⟨hsnk, j, true⟩ ∧
      findNode nc hsnk = some dataSnk ∧
      i < j ∧ res.startOffset = i ∧ res.endOffset = j + dataSnk.Length ∧
      res.startOffset < res.endOffset ∧
      (res.endOffset < SIZE_MOD → 0 < RefAnchorLen res) ∧
      (dataSnk.Length = kmerSize →
        res.endOffset ≤ window.seq.length ∧
        RefAnchorLen res = res.endOffset - res.startOffset ∧ 0 < RefAnchorLen res ∧
        res.startOffset + RefAnchorLen res ≤ window.seq.length ∧
        ∀ (α : Type) (refs : List α × List α),
          refs.1.length = window.seq.length → refs.2.length = window.seq.length →
          ∃ a b, ClampToSourceSink refs res = some (a, b) ∧
            a = (refs.1.drop res.startOffset).take (RefAnchorLen res) ∧
            b = (refs.2.drop res.startOffset).take (RefAnchorLen res) ∧
            a.length = RefAnchorLen res ∧ b.length = RefAnchorLen res) := by
  obtain ⟨i, j, hsrc, hsnk, dk, a4, b4, _, b1, hdk, hres, hij⟩ :=
    MarkSourceSink_found_indexes h hf
  have hj : j < refMerIDs.length := (List.getElem?_eq_some.mp b1).1
  have hs : res.startOffset = i := by rw [hres]
  have he : res.endOffset = j + dk.Length := by rw [hres]
  have hlt : res.startOffset < res.endOffset := by omega
  refine ⟨i, j, hsrc, hsnk, dk, a4, b4, hdk, hij, hs, he, hlt, ?_, ?_⟩
  · intro hfit
    rw [RefAnchorLen_of_lt hlt hfit]
    omega
  · intro hk
    have hend : res.endOffset ≤ window.seq.length := by omega
    have hlen := RefAnchorLen_of_lt hlt (show res.endOffset < SIZE_MOD by omega)
    refine ⟨hend, hlen, by omega, by omega, ?_⟩
    intro α refs h1 h2
    obtain ⟨c1, c2, c3⟩ := ClampToSourceSink_inside refs hlt hend hsize h1 h2
    rw [hlen]
    exact ⟨_, _, c1, rfl, rfl, c2, c3⟩

theorem MarkSourceSink_offsets_ordered_witness :
    ([1, 2, 3] : List NodeIdentifier).length + 3 ≤ chainWindow.seq.length + 1 ∧
    chainWindow.seq.length < SIZE_MOD ∧
    MarkSourceSink exampleParams [1, 2, 3] chainGraph 1 = some (chainAnchored, ⟨true, 0, 5⟩) ∧
    ∃ i j hsrc hsnk dataSnk,
      FindRefEnd exampleParams chainGraph GraphEnd.SOURCE 1 [1, 2, 3] = ⟨hsrc, i, true⟩ ∧
      FindRefEnd exampleParams chainGraph GraphEnd.SINK 1 [1, 2, 3].reverse = ⟨hsnk, j, true⟩ ∧
      findNode chainGraph hsnk = some dataSnk ∧
      i < j ∧ (⟨true, 0, 5⟩ : SrcSnkResult).startOffset = i ∧
      (⟨true, 0, 5⟩ : SrcSnkResult).endOffset = j + dataSnk.Length ∧
      (⟨true, 0, 5⟩ : SrcSnkResult).startOffset < (⟨true, 0, 5⟩ : SrcSnkResult).endOffset ∧
      ((⟨true, 0, 5⟩ : SrcSnkResult).endOffset < SIZE_MOD → 0 < RefAnchorLen ⟨true, 0, 5⟩) ∧
      (dataSnk.Length = 3 →
        (⟨true, 0, 5⟩ : SrcSnkResult).endOffset ≤ chainWindow.seq.length ∧
        RefAnchorLen ⟨true, 0, 5⟩
          = (⟨true, 0, 5⟩ : SrcSnkResult).endOffset - (⟨true, 0, 5⟩ : SrcSnkResult).startOffset ∧
        0 < RefAnchorLen ⟨true, 0, 5⟩ ∧
        (⟨true, 0, 5⟩ : SrcSnkResult).startOffset + RefAnchorLen ⟨true, 0, 5⟩
          ≤ chainWindow.seq.length ∧
        ∀ (α : Type) (refs : List α × List α),
          refs.1.length = chainWindow.seq.length → refs.2.length = chainWindow.seq.length →
          ∃ a b, ClampToSourceSink refs ⟨true, 0, 5⟩ = some (a, b) ∧
            a = (refs.1.drop (⟨true, 0, 5⟩ : SrcSnkResult).startOffset).take
              (RefAnchorLen ⟨true, 0, 5⟩) ∧
            b = (refs.2.drop (⟨true, 0, 5⟩ : SrcSnkResult).startOffset).take
              (RefAnchorLen ⟨true, 0, 5⟩) ∧
            a.length = RefAnchorLen ⟨true, 0, 5⟩ ∧ b.length = RefAnchorLen ⟨true, 0, 5⟩) :=
  ⟨by decide, by decide, by decide,
    MarkSourceSink_offsets_ordered exampleParams chainWindow 3 [1, 2, 3] chainGraph chainAnchored 1
      ⟨true, 0, 5⟩ (by decide) (by decide) (by decide) rfl⟩

theorem Frame_refl (c : Nat) (nc : NodeContainer) : Frame c nc nc :=
  fun n hn => ⟨n, hn, rfl, fun _ => rfl, Or.inl rfl⟩

theorem isMock_of_id_eq {a b : Node} (h : a.id = b.id) : a.IsMockNode = b.IsMockNode := by
  unfold Node.IsMockNode; rw [h]

theorem Frame_trans {c : Nat} {a b d : NodeContainer} (h1 : Frame c a b) (h2 : Frame c b d) :
    Frame c a d := by
  intro n2 hn2
  obtain ⟨n1, hn1, i1, c1, d1⟩ := h2 n2 hn2
  obtain ⟨n, hn, i0, c0, d0⟩ := h1 n1 hn1
  refine ⟨n, hn, i0.trans i1, ?_, ?_⟩
  · intro hm
    rw [c0 (by rw [isMock_of_id_eq i1]; exact hm), c1 hm]
  · rcases d1 with d1 | ⟨s1, hs1, si, sm, sc⟩
    · rcases d0 with d0 | d0
      · exact Or.inl (d0.trans d1)
      · exact Or.inr d0
    · right
      obtain ⟨s, hs, j0, k0, _⟩ := h1 s1 hs1
      exact ⟨s, hs, by rw [j0, si, i0], by rw [isMock_of_id_eq j0]; exact sm,
        by rw [k0 sm]; exact sc⟩

theorem Frame_of_SameData {c : Nat} {a b : NodeContainer} (h : SameData a b) : Frame c a b := by
  intro n2 hn2
  obtain ⟨n, hn, i, k, d⟩ := h n2 hn2
  exact ⟨n, hn, i, k, Or.inl d⟩

theorem Frame_map {c : Nat} {nc0 nc : NodeContainer} (h : Frame c nc0 nc) (g : Node → Node)
    (hg : ∀ m ∈ nc, (g m).id = m.id ∧ (m.IsMockNode = false → (g m).ComponentID = m.ComponentID) ∧
      ((g m).data = m.data ∨ ∃ s ∈ nc0, s.id = m.id ∧ s.IsMockNode = false ∧ s.ComponentID = c)) :
    Frame c nc0 (nc.map g) := by
  intro n2 hn2
  obtain ⟨m, hm, rfl⟩ := List.mem_map.mp hn2
  obtain ⟨gi, gc, gd⟩ := hg m hm
  obtain ⟨n, hn, i, k, d⟩ := h m hm
  refine ⟨n, hn, i.trans gi.symm, ?_, ?_⟩
  · intro hmock
    have hm2 : m.IsMockNode = false := by rw [← isMock_of_id_eq gi]; exact hmock
    rw [k hm2, gc hm2]
  · rcases gd with gd | ⟨s, hs, si, sm, sc⟩
    · rcases d with d | d
      · exact Or.inl (d.trans gd.symm)
      · exact Or.inr d
    · exact Or.inr ⟨s, hs, si.trans i.symm, sm, sc⟩

theorem Frame_filter {c : Nat} {nc0 nc : NodeContainer} (h : Frame c nc0 nc) (q : Node → Bool) :
    Frame c nc0 (nc.filter q) :=
  fun n2 hn2 => h n2 (List.mem_filter.mp hn2).1

theorem Frame_updateNode {c : Nat} {nc0 nc : NodeContainer} (h : Frame c nc0 nc)
    (id : NodeIdentifier) (f : Node → Node) (hid : ∀ m, (f m).id = m.id)
    (hc : ∀ m, (f m).ComponentID = m.ComponentID)
    (hd : (∀ m, (f m).data = m.data) ∨
      ∃ s ∈ nc0, s.id = id ∧ s.IsMockNode = false ∧ s.ComponentID = c) :
    Frame c nc0 (updateNode nc id f) := by
  unfold updateNode
  apply Frame_map h
  intro m _
  by_cases hm : m.id = id
  · rw [if_pos hm]
    refine ⟨hid m, fun _ => hc m, ?_⟩
    rcases hd with hd | ⟨s, hs, si, sm, sc⟩
    · exact Or.inl (hd m)
    · exact Or.inr ⟨s, hs, si.trans hm.symm, sm, sc⟩
  · rw [if_neg hm]
    exact ⟨rfl, fun _ => rfl, Or.inl rfl⟩

theorem Frame_RemoveNodes {c : Nat} {nc0 nc : NodeContainer} (h : Frame c nc0 nc)
    (ids : List NodeIdentifier) : Frame c nc0 (RemoveNodes nc ids) := by
  obtain ⟨g, hg, heq⟩ := RemoveNodes_eq_filter_map ids nc
  rw [heq]
  apply Frame_map (Frame_filter h _)
  intro m _
  exact ⟨(hg m).1, fun _ => (hg m).2.1, Or.inl (hg m).2.2.1⟩

theorem EraseEdgesTo_id (d : NodeIdentifier) (m : Node) : (m.EraseEdgesTo d).id = m.id := rfl

theorem Frame_relinkBuddyEdges {c : Nat} {nc0 : NodeContainer} (src_id buddyId : NodeIdentifier)
    (d : Bool) :
    ∀ (es : List Edge) (nc : NodeContainer), Frame c nc0 nc →
      Frame c nc0 (relinkBuddyEdges src_id buddyId d es nc) := by
  intro es
  induction es with
  | nil => intro nc h; exact h
  | cons e es ih =>
    intro nc h
    have hE : ∀ (nc1 : NodeContainer) (x y : NodeIdentifier) (k : EdgeKind), Frame c nc0 nc1 →
        Frame c nc0 (updateNode nc1 x (fun n => n.EmplaceEdge y k)) := fun nc1 x y k h1 =>
      Frame_updateNode h1 x (fun n => n.EmplaceEdge y k) (fun m => EmplaceEdge_id _ _ m)
        (fun m => EmplaceEdge_comp _ _ m) (Or.inl (fun m => EmplaceEdge_data _ _ m))
    have hX : ∀ (nc1 : NodeContainer) (x y : NodeIdentifier), Frame c nc0 nc1 →
        Frame c nc0 (updateNode nc1 x (fun n => n.EraseEdgesTo y)) := fun nc1 x y h1 =>
      Frame_updateNode h1 x (fun n => n.EraseEdgesTo y) (fun _ => rfl) (fun _ => rfl)
        (Or.inl (fun _ => rfl))
    rw [relinkBuddyEdges]
    simp only
    by_cases h1 : e.destId = src_id
    · rw [if_pos h1]; exact ih nc h
    · rw [if_neg h1]
      cases hf : findNode nc e.destId with
      | none => simp only; exact ih nc h
      | some v =>
        simp only
        by_cases h2 : e.destId = buddyId
        · rw [if_pos h2]
          exact ih _ (hE _ _ _ _ h)
        · rw [if_neg h2]
          exact ih _ (hE _ _ _ _ (hX _ _ _ (hE _ _ _ _ h)))

theorem Frame_compressLoop {c : Nat} {nc0 : NodeContainer} (E : Env) (kmerSize : Nat)
    (src_id : NodeIdentifier)
    (hs : ∃ s ∈ nc0, s.id = src_id ∧ s.IsMockNode = false ∧ s.ComponentID = c) :
    ∀ (fuel : Nat) (nc : NodeContainer) (remaining : List NodeNeighbour)
      (compressed : List NodeIdentifier) (r : NodeContainer × List NodeIdentifier),
      Frame c nc0 nc → compressLoop E kmerSize src_id fuel nc remaining compressed = some r →
      Frame c nc0 r.1 := by
  intro fuel
  induction fuel with
  | zero =>
    intro nc remaining compressed r h hr
    cases remaining with
    | nil =>
      simp only [compressLoop, Option.some.injEq] at hr
      rw [← hr]; exact h
    | cons x rest => simp only [compressLoop] at hr; cases hr
  | succ f ih =>
    intro nc remaining compressed r h hr
    cases remaining with
    | nil =>
      simp only [compressLoop, Option.some.injEq] at hr
      rw [← hr]; exact h
    | cons x rest =>
      rw [compressLoop] at hr
      by_cases hlen : (x :: rest).length > 2
      · rw [if_pos hlen] at hr
        rw [← Option.some.inj hr]; exact h
      · rw [if_neg hlen] at hr
        cases hsrc : findNode nc src_id with
        | none => rw [hsrc] at hr; cases hr
        | some src =>
          cases hb : findNode nc x.buddyId with
          | none => rw [hsrc, hb] at hr; cases hr
          | some buddy =>
            rw [hsrc, hb] at hr
            simp only at hr
            by_cases hcm : (!E.CanMerge src buddy (mergeDirOf x.edgeKind) kmerSize) = true
            · rw [if_pos hcm] at hr
              exact ih nc rest compressed r h hr
            · rw [if_neg hcm] at hr
              refine ih _ _ _ r ?_ hr
              apply Frame_relinkBuddyEdges
              exact Frame_updateNode
                (Frame_updateNode h src_id (fun n : Node =>
                    { n with data := E.MergeBuddy n buddy (mergeDirOf x.edgeKind) kmerSize })
                  (fun _ => rfl) (fun _ => rfl) (Or.inr hs))
                src_id (fun n => n.EraseEdgesTo x.buddyId) (fun _ => rfl) (fun _ => rfl)
                (Or.inl (fun _ => rfl))

theorem Frame_CompressNode {c : Nat} {nc0 nc : NodeContainer} (E : Env) (kmerSize : Nat)
    (src_id : NodeIdentifier) (buddies : List NodeNeighbour) (compressed : List NodeIdentifier)
    (hs : ∃ s ∈ nc0, s.id = src_id ∧ s.IsMockNode = false ∧ s.ComponentID = c)
    (h : Frame c nc0 nc) {r : NodeContainer × List NodeIdentifier}
    (hr : CompressNode E kmerSize nc src_id buddies compressed = some r) : Frame c nc0 r.1 := by
  unfold CompressNode at hr
  split at hr
  · rw [← Option.some.inj hr]; exact h
  · cases hsrc : findNode nc src_id with
    | none => rw [hsrc] at hr; cases hr
    | some src =>
      rw [hsrc] at hr
      exact Frame_compressLoop E kmerSize src_id hs _ _ _ _ r h hr

theorem Frame_compressGraphLoop {c : Nat} {nc0 : NodeContainer} (E : Env) (kmerSize : Nat) :
    ∀ (ids : List NodeIdentifier) (nc : NodeContainer) (nodesToRemove : List NodeIdentifier)
      (r : NodeContainer × List NodeIdentifier),
      Frame c nc0 nc → compressGraphLoop E kmerSize c ids nc nodesToRemove = some r →
      Frame c nc0 r.1 := by
  intro ids
  induction ids with
  | nil =>
    intro nc rm r h hr
    simp only [compressGraphLoop, Option.some.injEq] at hr
    rw [← hr]; exact h
  | cons id ids ih =>
    intro nc rm r h hr
    rw [compressGraphLoop] at hr
    cases hf : findNode nc id with
    | none => rw [hf] at hr; exact ih nc rm r h hr
    | some p =>
      rw [hf] at hr
      simp only at hr
      by_cases h1 : p.ComponentID ≠ c ∨ p.IsMockNode = true
      · rw [if_pos h1] at hr; exact ih nc rm r h hr
      · rw [if_neg h1] at hr
        by_cases h2 : id ∈ rm
        · rw [if_pos h2] at hr; exact ih nc rm r h hr
        · rw [if_neg h2] at hr
          cases hc : CompressNode E kmerSize nc id (FindCompressibleNeighbours E kmerSize nc id) rm with
          | none => rw [hc] at hr; cases hr
          | some r1 =>
            rw [hc] at hr
            obtain ⟨nc1, rm1⟩ := r1
            simp only at hr
            refine ih nc1 rm1 r ?_ hr
            have hp := findNode_some hf
            have hpc : p.ComponentID = c := by
              by_contra hne; exact h1 (Or.inl hne)
            have hpm : p.IsMockNode = false := by
              cases hm : p.IsMockNode
              · rfl
              · exact absurd (Or.inr hm) h1
            obtain ⟨s, hs, si, sc, _⟩ := h p hp.1
            have hsm : s.IsMockNode = false := by rw [isMock_of_id_eq si]; exact hpm
            exact Frame_CompressNode E kmerSize id _ rm
              ⟨s, hs, si.trans hp.2, hsm, (sc hpm).trans hpc⟩ h hc

theorem Frame_CompressGraph {c : Nat} {nc0 nc : NodeContainer} (E : Env) (kmerSize : Nat)
    (h : Frame c nc0 nc) {r : NodeContainer × Bool}
    (hr : CompressGraph E kmerSize nc c = some r) : Frame c nc0 r.1 := by
  unfold CompressGraph at hr
  cases hl : compressGraphLoop E kmerSize c (nc.map (fun n => n.id)) nc [] with
  | none => rw [hl] at hr; cases hr
  | some r1 =>
    rw [hl] at hr
    obtain ⟨nc1, rm⟩ := r1
    have h1 : Frame c nc0 nc1 := Frame_compressGraphLoop E kmerSize _ nc [] (nc1, rm) h hl
    simp only [Option.some.injEq] at hr
    rw [← hr]
    simp only
    split
    · exact h1
    · exact Frame_RemoveNodes h1 rm

theorem Frame_RemoveLowCovNodes {c : Nat} {nc0 nc : NodeContainer} (E : Env) (p : CliParams)
    (comp_id : Nat) (h : Frame c nc0 nc) : Frame c nc0 (RemoveLowCovNodes E p nc comp_id).1 := by
  unfold RemoveLowCovNodes
  simp only
  split
  · exact h
  · exact Frame_RemoveNodes h _

theorem Frame_removeTipsLoop {c : Nat} {nc0 : NodeContainer} (E : Env) (p : CliParams)
    (kmerSize : Nat) :
    ∀ (fuel : Nat) (nc : NodeContainer) (totalTips : Nat) (r : NodeContainer × Nat),
      Frame c nc0 nc → removeTipsLoop E p kmerSize c fuel nc totalTips = some r →
      Frame c nc0 r.1 := by
  intro fuel
  induction fuel with
  | zero => intro nc t r _ hr; rw [removeTipsLoop] at hr; cases hr
  | succ fuel ih =>
    intro nc t r h hr
    rw [removeTipsLoop] at hr
    by_cases hemp : (tipsOf p kmerSize nc c).isEmpty = true
    · rw [if_pos hemp] at hr
      rw [← Option.some.inj hr]; exact h
    · rw [if_neg hemp] at hr
      cases hc : CompressGraph E kmerSize (RemoveNodes nc (tipsOf p kmerSize nc c)) c with
      | none => rw [hc] at hr; cases hr
      | some r1 =>
        rw [hc] at hr
        obtain ⟨nc1, b⟩ := r1
        simp only at hr
        exact ih nc1 _ r (Frame_CompressGraph E kmerSize (Frame_RemoveNodes h _) hc) hr

theorem Frame_RemoveTips {c : Nat} {nc0 nc : NodeContainer} (E : Env) (p : CliParams)
    (kmerSize : Nat) (h : Frame c nc0 nc) {r : NodeContainer × Bool}
    (hr : RemoveTips E p kmerSize nc c = some r) : Frame c nc0 r.1 := by
  unfold RemoveTips at hr
  cases hl : removeTipsLoop E p kmerSize c (nc.length + 1) nc 0 with
  | none => rw [hl] at hr; cases hr
  | some r1 =>
    rw [hl] at hr
    obtain ⟨nc1, t⟩ := r1
    simp only [Option.some.injEq] at hr
    rw [← hr]
    exact Frame_removeTipsLoop E p kmerSize _ nc 0 (nc1, t) h hl

theorem Frame_RemoveShortLinks {c : Nat} {nc0 nc : NodeContainer} (E : Env) (kmerSize : Nat)
    (h : Frame c nc0 nc) {r : NodeContainer × Bool}
    (hr : RemoveShortLinks E kmerSize nc c = some r) : Frame c nc0 r.1 := by
  have key : ∀ ids : List NodeIdentifier,
      (match CompressGraph E kmerSize (RemoveNodes nc ids) c with
        | none => none
        | some (nc1, _) => some (nc1, true)) = some r → Frame c nc0 r.1 := by
    intro ids hk
    cases hc : CompressGraph E kmerSize (RemoveNodes nc ids) c with
    | none => rw [hc] at hk; cases hk
    | some r1 =>
      rw [hc] at hk
      obtain ⟨nc1, b⟩ := r1
      simp only [Option.some.injEq] at hk
      rw [← hk]
      have hfr := Frame_CompressGraph E kmerSize (Frame_RemoveNodes h ids) hc
      exact hfr
  unfold RemoveShortLinks at hr
  simp only at hr
  split at hr
  · rw [← Option.some.inj hr]; exact h
  · exact key _ hr

theorem Frame_pruneComponent {c : Nat} {nc0 nc nc6 : NodeContainer} (E : Env) (p : CliParams)
    (kmerSize : Nat) (h : Frame c nc0 nc)
    (hr : pruneComponent E p kmerSize nc c = some nc6) : Frame c nc0 nc6 := by
  unfold pruneComponent at hr
  cases h1 : CompressGraph E kmerSize nc c with
  | none => rw [h1] at hr; cases hr
  | some r1 =>
    rw [h1] at hr
    obtain ⟨nc2, b2⟩ := r1
    simp only at hr
    have f2 : Frame c nc0 nc2 := Frame_CompressGraph E kmerSize h h1
    have f3 := Frame_RemoveLowCovNodes E p c f2
    cases h3 : CompressGraph E kmerSize (RemoveLowCovNodes E p nc2 c).1 c with
    | none => rw [h3] at hr; cases hr
    | some r3 =>
      rw [h3] at hr
      obtain ⟨nc4, b4⟩ := r3
      simp only at hr
      have f4 : Frame c nc0 nc4 := Frame_CompressGraph E kmerSize f3 h3
      cases h5 : RemoveTips E p kmerSize nc4 c with
      | none => rw [h5] at hr; cases hr
      | some r5 =>
        rw [h5] at hr
        obtain ⟨nc5, b5⟩ := r5
        simp only at hr
        have f5 : Frame c nc0 nc5 := Frame_RemoveTips E p kmerSize f4 h5
        cases h6 : RemoveShortLinks E kmerSize nc5 c with
        | none => rw [h6] at hr; cases hr
        | some r6 =>
          rw [h6] at hr
          obtain ⟨nc6b, b6⟩ := r6
          simp only [Option.some.injEq] at hr
          rw [← hr]
          exact Frame_RemoveShortLinks E kmerSize f5 h6

theorem upd_comp (id : NodeIdentifier) (f : Node → Node) (n : Node)
    (hf : ∀ m, (f m).ComponentID = m.ComponentID) : (upd id f n).ComponentID = n.ComponentID := by
  unfold upd; split
  · exact hf n
  · rfl

theorem upd_of_ne {id : NodeIdentifier} (f : Node → Node) {n : Node} (h : n.id ≠ id) :
    upd id f n = n := by
  unfold upd; rw [if_neg h]

theorem disc_comp (D : List NodeIdentifier) (t : NodeIdentifier) (n : Node) :
    (disc D t n).ComponentID = n.ComponentID := by
  unfold disc; split <;> rfl

theorem markNodeA_comp (comp : Nat) (D1 D2 : List NodeIdentifier) (n : Node)
    (h : n.IsMockNode = false) : (markNodeA comp D1 D2 n).ComponentID = n.ComponentID := by
  obtain ⟨h1, h2⟩ := (isRealId_iff n.id).mp (isRealId_of_not_mock h)
  unfold markNodeA
  rw [upd_of_ne _ h1]
  have e3 : (upd MOCK_SOURCE_ID Node.ClearEdges (disc D1 MOCK_SOURCE_ID n)).id ≠ MOCK_SINK_ID := by
    rw [upd_id _ _ _ clearEdges_id, disc_id]; exact h2
  rw [upd_of_ne _ e3, upd_comp _ Node.ClearEdges _ (fun _ => rfl), disc_comp,
    upd_comp _ Node.ClearEdges _ (fun _ => rfl), disc_comp]

theorem markNodeB_comp (srcId snkId : NodeIdentifier) (k1 k2 : EdgeKind) (n : Node) :
    (markNodeB srcId snkId k1 k2 n).ComponentID = n.ComponentID := by
  unfold markNodeB
  rw [upd_comp _ _ _ (EmplaceEdge_comp _ _), upd_comp _ _ _ (EmplaceEdge_comp _ _),
    upd_comp _ _ _ (EmplaceEdge_comp _ _), upd_comp _ _ _ (EmplaceEdge_comp _ _)]

theorem SameData_refl (nc : NodeContainer) : SameData nc nc :=
  fun n hn => ⟨n, hn, rfl, fun _ => rfl, rfl⟩

theorem SameData_MarkSourceSink {p : CliParams} {refMerIDs : List NodeIdentifier}
    {nc nc2 : NodeContainer} {comp : Nat} {res : SrcSnkResult}
    (h : MarkSourceSink p refMerIDs nc comp = some (nc2, res)) :
    SameData nc nc2 ∧ nodeIds nc2 = nodeIds nc := by
  rcases MarkSourceSink_cases h with ⟨_, he, _⟩ | ⟨hf, _⟩
  · rw [he]; exact ⟨SameData_refl nc, rfl⟩
  · obtain ⟨_, _, _, D1, D2, ds, dk, _, _, _, _, hmap, _⟩ := MarkSourceSink_found_eq h hf
    rw [hmap]
    constructor
    · intro n2 hn2
      obtain ⟨n, hn, rfl⟩ := List.mem_map.mp hn2
      refine ⟨n, hn, ?_, ?_, ?_⟩
      · rw [markNodeB_id, markNodeA_id]
      · intro hm
        have hm2 : n.IsMockNode = false := by
          rw [← hm]
          apply isMock_of_id_eq
          rw [markNodeB_id, markNodeA_id]
        rw [markNodeB_comp, markNodeA_comp _ _ _ _ hm2]
      · rw [markNodeB_data, markNodeA_data]
    · apply nodeIds_map
      intro n
      rw [markNodeB_id, markNodeA_id]

theorem lowCovData_congr (E : Env) (p : CliParams) {a b : Node} (h : a.data = b.data) :
    lowCovData E p a = lowCovData E p b := by
  unfold lowCovData; rw [h]

theorem Clean_of_SameData {E : Env} {p : CliParams} {cs : List Nat} {nc nc2 : NodeContainer}
    (hf : SameData nc nc2) (h : Clean E p cs nc) : Clean E p cs nc2 := by
  intro n2 hn2 hm hc
  obtain ⟨n, hn, i, k, d⟩ := hf n2 hn2
  rw [← lowCovData_congr E p d]
  apply h n hn
  · rw [isMock_of_id_eq i]; exact hm
  · rw [k hm]; exact hc

theorem Clean_of_Frame {E : Env} {p : CliParams} {cs : List Nat} {c : Nat}
    {nc nc2 : NodeContainer} (hu : UniqueKeys nc) (hf : Frame c nc nc2) (hc : c ∉ cs)
    (h : Clean E p cs nc) : Clean E p cs nc2 := by
  intro n2 hn2 hm hcs
  obtain ⟨n, hn, i, k, d⟩ := hf n2 hn2
  have hcomp : n.ComponentID = n2.ComponentID := k hm
  rcases d with d | ⟨s, hs, si, _, sc⟩
  · rw [← lowCovData_congr E p d]
    apply h n hn
    · rw [isMock_of_id_eq i]; exact hm
    · rw [hcomp]; exact hcs
  · exfalso
    have hsn : s = n := eq_of_mem_of_id_eq hu hs hn si
    rw [hsn, hcomp] at sc
    rw [sc] at hcs
    exact hc hcs

theorem Clean_mono {E : Env} {p : CliParams} {cs ds : List Nat} {nc : NodeContainer}
    (hsub : ∀ c ∈ ds, c ∈ cs) (h : Clean E p cs nc) : Clean E p ds nc :=
  fun n hn hm hc => h n hn hm (hsub _ hc)

theorem UniqueKeys_of_KeysRemoved {a b : NodeContainer} (hu : UniqueKeys a)
    (h : KeysRemoved a b) : UniqueKeys b := by
  obtain ⟨r, _, e⟩ := h
  unfold UniqueKeys
  unfold nodeIds at e
  rw [e]
  exact List.Nodup.filter _ hu

theorem RemoveLowCovNodes_noop {E : Env} {p : CliParams} {c : Nat} {nc : NodeContainer}
    (h : Clean E p [c] nc) : (RemoveLowCovNodes E p nc c).1 = nc := by
  unfold RemoveLowCovNodes
  simp only
  have hnil : (nc.filter (fun n =>
      !(n.IsMockNode || decide (n.ComponentID ≠ c)) &&
        ((decide (n.data.sampleCountNormal = 1) && decide (n.data.sampleCountTumor = 1)) ||
          decide (n.data.minSampleBaseCov ≤ max (toU16 p.minNodeCov) (toU16 E.ceilCovRatio))))) = [] := by
    rw [List.filter_eq_nil_iff]
    intro n hn hsel
    rw [Bool.and_eq_true] at hsel
    obtain ⟨h1, h2⟩ := hsel
    have hm : n.IsMockNode = false := by
      cases hmk : n.IsMockNode
      · rfl
      · rw [hmk] at h1; simp at h1
    have hcomp : n.ComponentID = c := by
      by_contra hne
      rw [hm] at h1
      simp [hne] at h1
    have := h n hn hm (by rw [hcomp]; exact List.mem_singleton.mpr rfl)
    unfold lowCovData at this
    rw [this] at h2
    cases h2
  rw [hnil]
  rfl

theorem RemoveLowCovNodes_clean (E : Env) (p : CliParams) (nc : NodeContainer)
    (hu : UniqueKeys nc) (h0 : ∀ n ∈ nc, n.ComponentID = 0) :
    ∀ n ∈ (RemoveLowCovNodes E p nc 0).1, n.IsMockNode = false → lowCovData E p n = false := by
  have hsel : ∀ n ∈ nc, n.IsMockNode = false →
      (!(n.IsMockNode || decide (n.ComponentID ≠ 0)) &&
        ((decide (n.data.sampleCountNormal = 1) && decide (n.data.sampleCountTumor = 1)) ||
          decide (n.data.minSampleBaseCov ≤ max (toU16 p.minNodeCov) (toU16 E.ceilCovRatio))))
        = false → lowCovData E p n = false := by
    intro n hn hm hs
    rw [hm, h0 n hn] at hs
    simpa [lowCovData] using hs
  unfold RemoveLowCovNodes
  simp only
  split
  · rename_i hemp
    intro n hn hm
    apply hsel n hn hm
    have hnil := List.isEmpty_iff.mp hemp
    rw [List.map_eq_nil_iff, List.filter_eq_nil_iff] at hnil
    exact Bool.eq_false_iff.mpr (hnil n hn)
  · obtain ⟨g, hg, heq⟩ := RemoveNodes_of_selection nc hu (fun n =>
      !(n.IsMockNode || decide (n.ComponentID ≠ 0)) &&
        ((decide (n.data.sampleCountNormal = 1) && decide (n.data.sampleCountTumor = 1)) ||
          decide (n.data.minSampleBaseCov ≤ max (toU16 p.minNodeCov) (toU16 E.ceilCovRatio))))
      (by
        intro n hn
        cases hmk : n.IsMockNode
        · rfl
        · simp [hmk] at hn)
    rw [heq]
    intro n2 hn2 hm
    obtain ⟨n, hn, rfl⟩ := List.mem_map.mp hn2
    obtain ⟨hmem, hns⟩ := List.mem_filter.mp hn
    have hp := hg n
    rw [lowCovData_congr E p hp.2.2.1]
    apply hsel n hmem
    · rw [← isMock_of_id_eq hp.1]; exact hm
    · rw [Bool.not_eq_true'] at hns
      exact hns

theorem updateNode_keeps (nc : NodeContainer) (id : NodeIdentifier) (f : Node → Node)
    (hid : ∀ m, (f m).id = m.id) (hd : ∀ m, (f m).data = m.data) :
    (updateNode nc id f).map (fun n => (n.id, n.data)) = nc.map (fun n => (n.id, n.data)) := by
  unfold updateNode
  rw [List.map_map]
  apply List.map_congr_left
  intro n _
  simp only [Function.comp_apply]
  split
  · rw [hid, hd]
  · rfl

theorem bfsComponent_keeps (c : Nat) :
    ∀ (fuel : Nat) (nc : NodeContainer) (queue : List NodeIdentifier) (num : Nat)
      (r : NodeContainer × Nat), bfsComponent c fuel nc queue num = some r →
      r.1.map (fun n => (n.id, n.data)) = nc.map (fun n => (n.id, n.data)) := by
  intro fuel
  induction fuel with
  | zero =>
    intro nc queue num r hr
    cases queue with
    | nil => simp only [bfsComponent, Option.some.injEq] at hr; rw [← hr]
    | cons x rest => simp only [bfsComponent] at hr; cases hr
  | succ fuel ih =>
    intro nc queue num r hr
    cases queue with
    | nil => simp only [bfsComponent, Option.some.injEq] at hr; rw [← hr]
    | cons x rest =>
      rw [bfsComponent] at hr
      cases hf : findNode nc x with
      | none => rw [hf] at hr; exact ih nc rest num r hr
      | some currNode =>
        rw [hf] at hr
        simp only at hr
        by_cases hc : currNode.ComponentID ≠ 0
        · rw [if_pos hc] at hr; exact ih nc rest num r hr
        · rw [if_neg hc] at hr
          rw [ih _ _ _ r hr]
          exact updateNode_keeps nc x (fun n => { n with ComponentID := c }) (fun _ => rfl)
            (fun _ => rfl)

theorem markLoop_keeps :
    ∀ (ids : List NodeIdentifier) (nc : NodeContainer) (cur : Nat) (infos : List ComponentInfo)
      (r : NodeContainer × List ComponentInfo), markLoop ids nc cur infos = some r →
      r.1.map (fun n => (n.id, n.data)) = nc.map (fun n => (n.id, n.data)) ∧
      ∃ k, r.2.map (fun i => i.ID) = infos.map (fun i => i.ID) ++ List.range' (cur + 1) k := by
  intro ids
  induction ids with
  | nil =>
    intro nc cur infos r hr
    simp only [markLoop, Option.some.injEq] at hr
    rw [← hr]
    exact ⟨rfl, 0, by simp⟩
  | cons id ids ih =>
    intro nc cur infos r hr
    rw [markLoop] at hr
    cases hf : findNode nc id with
    | none => rw [hf] at hr; exact ih nc cur infos r hr
    | some q =>
      rw [hf] at hr
      simp only at hr
      by_cases hc : q.ComponentID ≠ 0
      · rw [if_pos hc] at hr; exact ih nc cur infos r hr
      · rw [if_neg hc] at hr
        cases hb : bfsComponent (cur + 1) (bfsFuel nc) nc [id] 0 with
        | none => rw [hb] at hr; cases hr
        | some r1 =>
          rw [hb] at hr
          obtain ⟨nc1, num⟩ := r1
          simp only at hr
          obtain ⟨h1, k, h2⟩ := ih nc1 (cur + 1) _ r hr
          refine ⟨h1.trans (bfsComponent_keeps _ _ _ _ _ _ hb), k + 1, ?_⟩
          rw [h2, List.map_append, List.append_assoc, List.range'_succ]
          rfl

theorem MarkConnectedComponents_keeps {nc nc2 : NodeContainer} {infos : List ComponentInfo}
    (h : MarkConnectedComponents nc = some (nc2, infos)) :
    nc2.map (fun n => (n.id, n.data)) = nc.map (fun n => (n.id, n.data)) ∧
    (infos.map (fun i => i.ID)).Nodup := by
  unfold MarkConnectedComponents at h
  obtain ⟨h1, k, h2⟩ := markLoop_keeps _ _ _ _ _ h
  refine ⟨h1, ?_⟩
  rw [h2, List.map_nil, List.nil_append]
  exact List.nodup_range' _ _

theorem pruneComponent_eq_codeOrder (E : Env) (p : CliParams) (kmerSize : Nat)
    (nc : NodeContainer) (comp : Nat) :
    pruneComponent E p kmerSize nc comp
      = applyPruneOps E p kmerSize (codePruneOrder comp) nc := by
  unfold pruneComponent codePruneOrder
  simp only [applyPruneOps, applyPruneOp]
  cases h1 : CompressGraph E kmerSize nc comp with
  | none => rfl
  | some r1 =>
    obtain ⟨nc2, b2⟩ := r1
    simp only [Option.map_some']
    cases h3 : CompressGraph E kmerSize (RemoveLowCovNodes E p nc2 comp).1 comp with
    | none => rfl
    | some r3 =>
      obtain ⟨nc4, b4⟩ := r3
      simp only [Option.map_some']
      cases h5 : RemoveTips E p kmerSize nc4 comp with
      | none => rfl
      | some r5 =>
        obtain ⟨nc5, b5⟩ := r5
        simp only [Option.map_some']
        cases h6 : RemoveShortLinks E kmerSize nc5 comp with
        | none => rfl
        | some r6 =>
          obtain ⟨nc6, b6⟩ := r6
          rfl

theorem specOrder_eq_pruneComponent {E : Env} {p : CliParams} (kmerSize : Nat) {c : Nat}
    {nc : NodeContainer} (h : Clean E p [c] nc) :
    applyPruneOps E p kmerSize (specPruneOrder c) nc = pruneComponent E p kmerSize nc c := by
  rw [pruneComponent_eq_codeOrder]
  unfold specPruneOrder codePruneOrder
  rw [applyPruneOps]
  simp only [applyPruneOp]
  rw [RemoveLowCovNodes_noop h]

theorem processComponent_eq_spec (E : Env) (p : CliParams) (window : RefWindow)
    (refMerIDs : List NodeIdentifier) (kmerSize fuel : Nat) (nc : NodeContainer)
    (results : List Variant) (comp : ComponentInfo) (h : Clean E p [comp.ID] nc) :
    processComponent E p window refMerIDs kmerSize fuel nc results comp
      = specProcessComponent E p window refMerIDs kmerSize fuel nc results comp := by
  unfold processComponent specProcessComponent
  cases hm : MarkSourceSink p refMerIDs nc comp.ID with
  | none => rfl
  | some r =>
    obtain ⟨nc1, markResult⟩ := r
    simp only
    rw [specOrder_eq_pruneComponent kmerSize (Clean_of_SameData (SameData_MarkSourceSink hm).1 h)]

theorem processComponent_frame {E : Env} {p : CliParams} {window : RefWindow}
    {refMerIDs : List NodeIdentifier} {kmerSize fuel : Nat} {nc nc2 : NodeContainer}
    {results results2 : List Variant} {comp : ComponentInfo} {b : Bool}
    (h : processComponent E p window refMerIDs kmerSize fuel nc results comp
      = some (nc2, results2, b)) :
    Frame comp.ID nc nc2 ∧ KeysRemoved nc nc2 := by
  unfold processComponent at h
  cases hm : MarkSourceSink p refMerIDs nc comp.ID with
  | none => rw [hm] at h; cases h
  | some r =>
    obtain ⟨nc1, markResult⟩ := r
    rw [hm] at h
    simp only at h
    obtain ⟨hsd, hids⟩ := SameData_MarkSourceSink hm
    have f1 : Frame comp.ID nc nc1 := Frame_of_SameData hsd
    have k1 : KeysRemoved nc nc1 := KeysRemoved_of_ids hids
    by_cases hfound : (!markResult.foundSrcAndSnk) = true
    · rw [if_pos hfound] at h
      simp only [Option.some.injEq, Prod.mk.injEq] at h
      rw [← h.1]; exact ⟨f1, k1⟩
    · rw [if_neg hfound] at h
      cases hc1 : HasCycle nc1 with
      | none => rw [hc1] at h; cases h
      | some c1 =>
        rw [hc1] at h
        cases c1 with
        | true =>
          simp only [Option.some.injEq, Prod.mk.injEq] at h
          rw [← h.1]; exact ⟨f1, k1⟩
        | false =>
          simp only at h
          cases hp : pruneComponent E p kmerSize nc1 comp.ID with
          | none => rw [hp] at h; cases h
          | some nc6 =>
            rw [hp] at h
            simp only at h
            have f6 : Frame comp.ID nc nc6 := Frame_pruneComponent E p kmerSize f1 hp
            have k6 : KeysRemoved nc nc6 := by
              obtain ⟨nc7, h7, k7⟩ := applyPruneOps_total E p kmerSize (codePruneOrder comp.ID) nc1
              rw [pruneComponent_eq_codeOrder, h7] at hp
              rw [← Option.some.inj hp]
              exact KeysRemoved_trans k1 k7
            cases hc6 : HasCycle nc6 with
            | none => rw [hc6] at h; cases h
            | some c6 =>
              rw [hc6] at h
              cases c6 with
              | true =>
                simp only [Option.some.injEq, Prod.mk.injEq] at h
                rw [← h.1]; exact ⟨f6, k6⟩
              | false =>
                simp only at h
                cases he : enumeratePaths E p window kmerSize fuel nc6 markResult results with
                | none => rw [he] at h; cases h
                | some r2 =>
                  rw [he] at h
                  obtain ⟨res1, stop⟩ := r2
                  simp only [Option.some.injEq, Prod.mk.injEq] at h
                  rw [← h.1]; exact ⟨f6, k6⟩

theorem componentsLoop_eq_spec (E : Env) (p : CliParams) (window : RefWindow)
    (refMerIDs : List NodeIdentifier) (kmerSize fuel : Nat) :
    ∀ (comps : List ComponentInfo) (nc : NodeContainer) (results : List Variant),
      UniqueKeys nc → (comps.map (fun i => i.ID)).Nodup →
      Clean E p (comps.map (fun i => i.ID)) nc →
      componentsLoop E p window refMerIDs kmerSize fuel comps nc results
        = specComponentsLoop E p window refMerIDs kmerSize fuel comps nc results := by
  intro comps
  induction comps with
  | nil => intro nc results _ _ _; rfl
  | cons comp comps ih =>
    intro nc results hu hnd hcl
    rw [componentsLoop, specComponentsLoop]
    have hhead : Clean E p [comp.ID] nc := Clean_mono (by
      intro c hc
      rw [List.mem_singleton.mp hc]
      exact List.mem_cons_self _ _) hcl
    rw [← processComponent_eq_spec E p window refMerIDs kmerSize fuel nc results comp hhead]
    cases hpc : processComponent E p window refMerIDs kmerSize fuel nc results comp with
    | none => rfl
    | some r =>
      obtain ⟨nc1, results1, b⟩ := r
      cases b with
      | true => rfl
      | false =>
        simp only
        obtain ⟨hfr, hk⟩ := processComponent_frame hpc
        rw [List.map_cons, List.nodup_cons] at hnd
        apply ih nc1 results1 (UniqueKeys_of_KeysRemoved hu hk) hnd.2
        apply Clean_of_Frame hu hfr hnd.1
        exact Clean_mono (fun c hc => List.mem_cons_of_mem _ hc) hcl

/-- C29. On every node map as `ProcessGraph` receives it (unique keys and no component id
assigned yet, which `MarkConnectedComponents` asserts at line 101), `ProcessGraph` returns
the node map, the results and `shouldIncrementK` of the pipeline that, for each anchored
component, after source/sink marking and the initial cycle check, applies
remove_low_cov_nodes, compress, remove_low_cov_nodes, compress, remove_tips and
remove_short_links in this order and then checks for a cycle again. The calls of the code
for a component start with compress; the nodes that a remove_low_cov_nodes before it
would select were removed by `RemoveLowCovNodes(0)` before the components were marked. -/
theorem ProcessGraph_pruning_order (E : Env) (p : CliParams) (window : RefWindow)
    (refMerIDs : List NodeIdentifier) (kmerSize fuel : Nat) (nc : NodeContainer)
    (results : List Variant) (hu : UniqueKeys nc) (h0 : ∀ n ∈ nc, n.ComponentID = 0) :
    ProcessGraph E p window refMerIDs kmerSize fuel nc results
      = specProcessGraph E p window refMerIDs kmerSize fuel nc results := by
  unfold ProcessGraph specProcessGraph
  simp only
  cases hm : MarkConnectedComponents (RemoveLowCovNodes E p nc 0).1 with
  | none => rfl
  | some r =>
    obtain ⟨nc2, infos⟩ := r
    simp only
    obtain ⟨hkeep, hnd⟩ := MarkConnectedComponents_keeps hm
    have hu1 : UniqueKeys (RemoveLowCovNodes E p nc 0).1 :=
      UniqueKeys_of_KeysRemoved hu (KeysRemoved_RemoveLowCovNodes E p nc 0)
    have hu2 : UniqueKeys nc2 := by
      unfold UniqueKeys at hu1 ⊢
      have := congrArg (List.map Prod.fst) hkeep
      simp only [List.map_map] at this
      have e : ∀ l : NodeContainer,
          List.map (Prod.fst ∘ fun n : Node => (n.id, n.data)) l = l.map (fun n => n.id) :=
        fun l => rfl
      rw [e, e] at this
      rw [this]; exact hu1
    apply componentsLoop_eq_spec E p window refMerIDs kmerSize fuel infos nc2 results hu2 hnd
    intro n2 hn2 hmock _
    have hmem : (n2.id, n2.data) ∈ nc2.map (fun n => (n.id, n.data)) :=
      List.mem_map.mpr ⟨n2, hn2, rfl⟩
    rw [hkeep] at hmem
    obtain ⟨n, hn, he⟩ := List.mem_map.mp hmem
    simp only [Prod.mk.injEq] at he
    rw [← lowCovData_congr E p he.2]
    apply RemoveLowCovNodes_clean E p nc hu h0 n hn
    rw [isMock_of_id_eq he.1]; exact hmock

theorem ProcessGraph_pruning_order_witness :
    UniqueKeys unmarkedGraph ∧ (∀ n ∈ unmarkedGraph, n.ComponentID = 0) ∧
    nodeIds (RemoveLowCovNodes restartEnv exampleParams unmarkedGraph 0).1
      = [MOCK_SOURCE_ID, MOCK_SINK_ID, 1, 2, 3] ∧
    ProcessGraph restartEnv exampleParams restartWindow [1, 2, 3, 4] 3 20 unmarkedGraph []
      = some (unmarkedFinal, [restartVariant], false) ∧
    ProcessGraph restartEnv exampleParams restartWindow [1, 2, 3, 4] 3 20 unmarkedGraph []
      = specProcessGraph restartEnv exampleParams restartWindow [1, 2, 3, 4] 3 20
          unmarkedGraph [] :=
  ⟨by decide, by decide, by decide, by decide,
    ProcessGraph_pruning_order restartEnv exampleParams restartWindow [1, 2, 3, 4] 3 20
      unmarkedGraph [] (by decide) (by decide)⟩

end lancet
